import Mathlib

/-!
# Encrypted block layer of the blobfuse launcher

A shallow embedding of `src/blobfuse-launcher/encryptor` (`encryptor.go`,
`utils.go`, `aes_encryption.go`): the ciphertext file format, the staging /
commit / read operations of the `Encryptor` component and the recovery of the
logical file size from the trailer.

Conventions of the embedding

* a byte is a `Fin 256`, a byte slice is a `List Byte`;
* Go's `int64` and `uint64` values are integers, and every arithmetic
  operation of the source is followed by the wrap-around of its type
  (`toInt64`, `toUint64`);
* the operating system is a `World`: a map from paths to nodes together with
  the list of system calls issued so far;
* a Go `error` result is an `Option Errno` (`none` is `nil`);
* the AES-GCM primitive of the Go standard library is a parameter (`GCM`),
  and the bytes delivered by `crypto/rand` are an explicit argument.
-/

namespace Blobfuse

/-! ## Machine integers and bytes -/

/-- One byte of a Go `[]byte`. -/
abbrev Byte := Fin 256

/-- Conversion of an integer to Go's `int64`: the value modulo `2^64`, read as
a two's complement number. -/
def toInt64 (n : Int) : Int :=
  if 9223372036854775808 ≤ n % 18446744073709551616 then
    n % 18446744073709551616 - 18446744073709551616
  else n % 18446744073709551616

/-- Conversion of an integer to Go's `uint64` (wrap-around modulo `2^64`). -/
def toUint64 (n : Int) : Nat :=
  (n % 18446744073709551616).toNat

/-- Largest value of an `int64`. -/
def maxInt64 : Int := 9223372036854775807

/-- Size of the GCM authentication tag (`AuthTagSize`). -/
def AuthTagSize : Nat := 16

/-- Size of the GCM nonce (`NonceSize`). -/
def NonceSize : Nat := 12

/-- Per-record overhead, `MetaSize = AuthTagSize + NonceSize`. -/
def MetaSize : Nat := 28

/-- The function `binary.BigEndian.PutUint64` on a fresh 8-byte slice. -/
def PutUint64 (v : Nat) : List Byte :=
  [Fin.ofNat (v / 2 ^ 56), Fin.ofNat (v / 2 ^ 48), Fin.ofNat (v / 2 ^ 40),
   Fin.ofNat (v / 2 ^ 32), Fin.ofNat (v / 2 ^ 24), Fin.ofNat (v / 2 ^ 16),
   Fin.ofNat (v / 2 ^ 8), Fin.ofNat v]

/-- The function `binary.BigEndian.Uint64`; the source only calls it on
slices of exactly 8 bytes (a missing byte reads as 0 here). -/
def Uint64 (b : List Byte) : Nat :=
  (b.getD 0 0).val * 2 ^ 56 + (b.getD 1 0).val * 2 ^ 48 + (b.getD 2 0).val * 2 ^ 40
    + (b.getD 3 0).val * 2 ^ 32 + (b.getD 4 0).val * 2 ^ 24 + (b.getD 5 0).val * 2 ^ 16
    + (b.getD 6 0).val * 2 ^ 8 + (b.getD 7 0).val

/-! ## Errors -/

/-- The error values the operations can return. -/
inductive Errno
  /-- The error `syscall.ENOENT`, no such file. -/
  | ENOENT
  /-- The error `syscall.EFAULT`. -/
  | EFAULT
  /-- The error `syscall.ERANGE`, the out-of-range error of `ReadInBuffer`. -/
  | ERANGE
  /-- The error `os.ErrInvalid` (nil file) or a negative offset. -/
  | EINVAL
  /-- The error `os.ErrClosed`, use of a closed file, or a path that is no regular file. -/
  | EBADF
  /-- The error `syscall.EISDIR`. -/
  | EISDIR
  /-- The error `syscall.EFBIG`, a write beyond the largest file offset. -/
  | EFBIG
  /-- The error `io.EOF`, a positioned read that could not fill its buffer. -/
  | EOF
  /-- The error `aes.KeySizeError`. -/
  | KeySizeError
  /-- A failure of `crypto/rand.Read`. -/
  | RandError
  /-- The failure of `gcm.Open`: message authentication failed. -/
  | AuthError
  /-- The run-time panic of an integer division by zero. -/
  | DivideByZero
  /-- The failure of `config.UnmarshalKey`, as `Configure` wraps it. -/
  | ConfigError
  /-- The error `encryption key not set` of `Configure`. -/
  | KeyNotSet
  /-- The error `base64.CorruptInputError`, as `Configure` wraps it. -/
  | CorruptInput
  deriving DecidableEq, Repr

deriving instance DecidableEq for Except

/-! ## The file system -/

/-- A node of the ciphertext mount: a directory (with the size `stat` reports
for it) or a regular file with its content. -/
inductive Node
  | dir (size : Nat)
  | file (content : List Byte)
  deriving DecidableEq, Repr

/-- A system call issued on the ciphertext mount. -/
inductive IOEvent
  | stat (path : String)
  | openFile (path : String)
  | close (path : String)
  | readAt (path : String) (len : Nat) (off : Int)
  | writeAt (path : String) (data : List Byte) (off : Int)
  deriving DecidableEq, Repr

/-- The state of the operating system: the nodes by path and the system calls
issued so far, oldest first. -/
structure World where
  fs : String → Option Node
  trace : List IOEvent

/-- A Go `*os.File` that is not nil. -/
structure File where
  name : String
  closed : Bool
  deriving DecidableEq, Repr

/-- Replace the node at `path`. -/
def World.setNode (w : World) (path : String) (n : Node) : World :=
  { w with fs := fun p => if p = path then some n else w.fs p }

/-- Append a system call to the trace. -/
def World.log (w : World) (ev : IOEvent) : World :=
  { w with trace := w.trace ++ [ev] }

/-- The bytes of a file after a positioned write of `data` at `off`: a gap
between the old end of the file and `off` reads as zeros. -/
def writeBytes (content : List Byte) (off : Nat) (data : List Byte) : List Byte :=
  (content ++ List.replicate (off - content.length) 0).take off ++ data
    ++ content.drop (off + data.length)

/-- The call `os.Stat`: the node at `path`, or `ENOENT`. -/
def Stat (path : String) (w : World) : Except Errno Node × World :=
  match w.fs path with
  | none => (.error .ENOENT, w.log (.stat path))
  | some n => (.ok n, w.log (.stat path))

/-- The call `os.OpenFile(path, os.O_RDONLY, _)`. -/
def OpenReadOnly (path : String) (w : World) : Except Errno File × World :=
  match w.fs path with
  | none => (.error .ENOENT, w.log (.openFile path))
  | some _ => (.ok ⟨path, false⟩, w.log (.openFile path))

/-- The call `os.OpenFile(path, os.O_RDWR|os.O_CREATE, mode)`: a missing file
is created empty, an existing file is opened as it is (no truncation). -/
def OpenCreate (path : String) (w : World) : Except Errno File × World :=
  match w.fs path with
  | none => (.ok ⟨path, false⟩, (w.log (.openFile path)).setNode path (.file []))
  | some (.dir _) => (.error .EISDIR, w.log (.openFile path))
  | some (.file _) => (.ok ⟨path, false⟩, w.log (.openFile path))

/-- The method `(*os.File).Close`; its error is ignored by every caller. -/
def Close (f : Option File) (w : World) : Option File × World :=
  match f with
  | none => (none, w)
  | some h => if h.closed then (some h, w) else (some { h with closed := true }, w.log (.close h.name))

/-- The method `(*os.File).WriteAt(b, off)`: the number of bytes written and
the error. A nil or closed file and a negative offset are rejected before any
system call. -/
def WriteAt (f : Option File) (b : List Byte) (off : Int) (w : World) :
    (Nat × Option Errno) × World :=
  match f with
  | none => ((0, some .EINVAL), w)
  | some h =>
    if h.closed then ((0, some .EBADF), w)
    else if off < 0 then ((0, some .EINVAL), w)
    else if b = [] then ((0, none), w)
    else if maxInt64 < off + b.length then ((0, some .EFBIG), w.log (.writeAt h.name b off))
    else
      match w.fs h.name with
      | some (.file content) =>
        ((b.length, none),
          (w.log (.writeAt h.name b off)).setNode h.name (.file (writeBytes content off.toNat b)))
      | _ => ((0, some .EBADF), w.log (.writeAt h.name b off))

/-- The method `(*os.File).ReadAt(b, off)` for a buffer of `len` bytes: the
bytes read when the buffer was filled, an error otherwise (`io.EOF` when the
file ends before the buffer is full). -/
def ReadAt (h : File) (len : Nat) (off : Int) (w : World) :
    Except Errno (List Byte) × World :=
  if h.closed then (.error .EBADF, w)
  else if off < 0 then (.error .EINVAL, w)
  else if len = 0 then (.ok [], w)
  else
    match w.fs h.name with
    | some (.file content) =>
      if off.toNat + len ≤ content.length then
        (.ok ((content.drop off.toNat).take len), w.log (.readAt h.name len off))
      else (.error .EOF, w.log (.readAt h.name len off))
    | some (.dir _) => (.error .EISDIR, w.log (.readAt h.name len off))
    | none => (.error .EBADF, w.log (.readAt h.name len off))

/-! ## `aes_encryption.go` -/

/-- The AES-GCM primitive of the Go standard library (`cipher.AEAD` built by
`cipher.NewGCM` over `aes.NewCipher(key)`), as functions of the key, the
nonce and the message. -/
structure GCM where
  Seal : List Byte → List Byte → List Byte → List Byte
  Open : List Byte → List Byte → List Byte → Option (List Byte)

/-- The key sizes `aes.NewCipher` accepts. -/
def validKeySize (key : List Byte) : Bool :=
  key.length == 16 || key.length == 24 || key.length == 32

/-- The function `EncryptChunk`: the sealed chunk and the nonce. `rnd` is
what `crypto/rand` delivers; the nonce is its first `NonceSize` bytes. -/
def EncryptChunk (c : GCM) (rnd : List Byte) (data key : List Byte) :
    Except Errno (List Byte × List Byte) :=
  if validKeySize key then
    if rnd.length < NonceSize then .error .RandError
    else
      let nonce := rnd.take NonceSize
      .ok (c.Seal key nonce data, nonce)
  else .error .KeySizeError

/-- The function `DecryptChunk`. -/
def DecryptChunk (c : GCM) (cipherText nonce key : List Byte) : Except Errno (List Byte) :=
  if validKeySize key then
    match c.Open key nonce cipherText with
    | none => .error .AuthError
    | some plainText => .ok plainText
  else .error .KeySizeError

/-! ## `utils.go` -/

/-- The function `checkForActualFileSize`: the logical size recovered from
the physical size and the trailer, and the error. -/
def checkForActualFileSize (fileHandle : File) (currentFileSize blockSize : Int) (w : World) :
    (Int × Option Errno) × World :=
  let recordSize := toInt64 (blockSize + MetaSize)
  if recordSize = 0 then ((0, some .DivideByZero), w)
  else
    let totalBlocks := toInt64 (Int.tdiv currentFileSize recordSize)
    if currentFileSize < toInt64 (toInt64 (totalBlocks * recordSize) + 8) then ((0, none), w)
    else
      match ReadAt fileHandle 8 (toInt64 (currentFileSize - 8)) w with
      | (.error err, w1) => ((0, some err), w1)
      | (.ok paddingLengthBytes, w1) =>
        let actualFileSize :=
          toInt64 (toInt64 (toInt64 (currentFileSize - toInt64 (Uint64 paddingLengthBytes))
            - toInt64 (totalBlocks * MetaSize)) - 8)
        ((actualFileSize, none), w1)

/-! ## `encryptor.go` -/

/-- The tracker `LastChunkMeta` (its mutex has no counterpart here: the
operations run one at a time). -/
structure LastChunkMeta where
  farthestBlockSeen : Int
  paddingLength : Int
  deriving DecidableEq, Repr

/-- The component `Encryptor`: `handle` is `none` for a nil `*os.File`,
`blockSize` is a `uint64`. -/
structure Encryptor where
  handle : Option File
  blockSize : Nat
  mountPointCipher : String
  encryptionKey : List Byte
  lastChunkMeta : LastChunkMeta
  deriving DecidableEq, Repr

/-- The fields of `exported.Handle` the component uses. -/
structure Handle where
  Path : String
  Size : Int
  deriving DecidableEq, Repr

/-- The fields of `exported.ObjAttr` that do not depend on the clock
(`IsDir` stands for the flag `PropFlagIsDir`). -/
structure ObjAttr where
  Size : Int
  Path : String
  IsDir : Bool
  deriving DecidableEq, Repr

/-- The options `exported.StageDataOptions`; `Offset` is a `uint64`. -/
structure StageDataOptions where
  Name : String
  Offset : Nat
  Data : List Byte
  deriving DecidableEq, Repr

/-- The options `exported.ReadInBufferOptions`; `Offset` is an `int64` and
`Data` is the caller's buffer. -/
structure ReadInBufferOptions where
  Handle : Handle
  Offset : Int
  Data : List Byte
  deriving DecidableEq, Repr

/-- The built-in `copy(dst, src)`: the new content of `dst`. -/
def copy (dst src : List Byte) : List Byte :=
  src.take dst.length ++ dst.drop src.length

/-- The method `Encryptor.CommitData`. The handle is closed on every path
(`defer e.handle.Close()`). -/
def Encryptor.CommitData (e : Encryptor) (w : World) : Option Errno × Encryptor × World :=
  if e.lastChunkMeta.farthestBlockSeen ≠ -1 then
    let paddingLengthByte := PutUint64 (toUint64 e.lastChunkMeta.paddingLength)
    let endoffset :=
      toInt64 (toInt64 (e.lastChunkMeta.farthestBlockSeen + 1)
        * toInt64 (toInt64 e.blockSize + MetaSize))
    match WriteAt e.handle paddingLengthByte endoffset w with
    | ((_, some err), w1) =>
      (some err, { e with handle := (Close e.handle w1).1 }, (Close e.handle w1).2)
    | ((_, none), w1) =>
      (none,
        { e with
          lastChunkMeta := { farthestBlockSeen := -1, paddingLength := 0 }
          handle := (Close e.handle w1).1 },
        (Close e.handle w1).2)
  else (none, { e with handle := (Close e.handle w).1 }, (Close e.handle w).2)

/-- The method `Encryptor.CreateFile`: the logical handle (or the error) and
the new state; `exported.NewHandle` returns a handle for the name. -/
def Encryptor.CreateFile (e : Encryptor) (name : String) (w : World) :
    Except Errno Handle × Encryptor × World :=
  match OpenCreate (e.mountPointCipher ++ name) w with
  | (.error err, w1) => (.error err, e, w1)
  | (.ok fileHandle, w1) => (.ok { Path := name, Size := 0 }, { e with handle := some fileHandle }, w1)

/-- The method `Encryptor.GetAttr`. -/
def Encryptor.GetAttr (e : Encryptor) (name : String) (w : World) : Except Errno ObjAttr × World :=
  match Stat (e.mountPointCipher ++ name) w with
  | (.error err, w1) => (.error err, w1)
  | (.ok fileAttr, w1) =>
    match OpenReadOnly (e.mountPointCipher ++ name) w1 with
    | (.error err, w2) => (.error err, w2)
    | (.ok fileHandle, w2) =>
      match fileAttr with
      | .dir size =>
        (.ok { Size := size, Path := name, IsDir := true }, (Close (some fileHandle) w2).2)
      | .file content =>
        match checkForActualFileSize fileHandle content.length (toInt64 e.blockSize) w2 with
        | ((_, some err), w3) => (.error err, (Close (some fileHandle) w3).2)
        | ((actualFileSize, none), w3) =>
          (.ok { Size := actualFileSize, Path := name, IsDir := false },
            (Close (some fileHandle) w3).2)

/-- The padding length `StageData` computes for `data`. -/
def paddingLengthOf (blockSize : Nat) (data : List Byte) : Int :=
  if (data.length : Int) < toInt64 blockSize then toInt64 (toInt64 blockSize - data.length) else 0

/-- The plaintext `StageData` hands to `EncryptChunk`: `data`, extended by
`paddingLength` zero bytes when it is shorter than the block size. -/
def paddedData (blockSize : Nat) (data : List Byte) : List Byte :=
  if (data.length : Int) < toInt64 blockSize then
    data ++ List.replicate (paddingLengthOf blockSize data).toNat 0
  else data

/-- The method `Encryptor.StageData`; `rnd` is what `crypto/rand` delivers
to this call. -/
def Encryptor.StageData (c : GCM) (rnd : List Byte) (e : Encryptor) (opt : StageDataOptions)
    (w : World) : Option Errno × Encryptor × World :=
  let paddingLength := paddingLengthOf e.blockSize opt.Data
  match EncryptChunk c rnd (paddedData e.blockSize opt.Data) e.encryptionKey with
  | .error err => (some err, e, w)
  | .ok (encryptedChunk, nonce) =>
    if e.blockSize = 0 then (some .DivideByZero, e, w)
    else
      let encryptedChunkOffset :=
        toUint64 ((opt.Offset / e.blockSize : Nat) * (toUint64 (e.blockSize + MetaSize) : Nat))
      match WriteAt e.handle (nonce ++ encryptedChunk) (toInt64 encryptedChunkOffset) w with
      | ((_, some err), w1) => (some err, e, w1)
      | ((_, none), w1) =>
        let blockIndex := toInt64 (opt.Offset / e.blockSize : Nat)
        let farthest :=
          if blockIndex > e.lastChunkMeta.farthestBlockSeen then blockIndex
          else e.lastChunkMeta.farthestBlockSeen
        (none,
          { e with lastChunkMeta := { farthestBlockSeen := farthest, paddingLength := paddingLength } },
          w1)

/-- The method `Encryptor.ReadInBuffer`: the returned length and error, the
content of the caller's buffer afterwards, and the new state of the world. -/
def Encryptor.ReadInBuffer (c : GCM) (e : Encryptor) (options : ReadInBufferOptions) (w : World) :
    (Int × Option Errno) × List Byte × World :=
  if options.Offset > options.Handle.Size then ((0, some .ERANGE), options.Data, w)
  else
    let dataLen : Int :=
      if options.Handle.Size < toInt64 (options.Offset + options.Data.length) then
        toInt64 (options.Handle.Size - options.Offset)
      else options.Data.length
    if dataLen = 0 then ((0, none), options.Data, w)
    else
      match OpenReadOnly (e.mountPointCipher ++ options.Handle.Path) w with
      | (.error err, w1) => ((0, some err), options.Data, w1)
      | (.ok fileHandle, w1) =>
        if toInt64 e.blockSize = 0 then
          ((0, some .DivideByZero), options.Data, (Close (some fileHandle) w1).2)
        else
          let chunkIndex := toInt64 (Int.tdiv options.Offset (toInt64 e.blockSize))
          let encryptedChunkOffset :=
            toInt64 (chunkIndex * toInt64 (toInt64 e.blockSize + MetaSize))
          match ReadAt fileHandle (toUint64 (e.blockSize + MetaSize)) encryptedChunkOffset w1 with
          | (.error err, w2) => ((0, some err), options.Data, (Close (some fileHandle) w2).2)
          | (.ok encryptedChunk, w2) =>
            match DecryptChunk c (encryptedChunk.drop NonceSize) (encryptedChunk.take NonceSize)
                e.encryptionKey with
            | .error err => ((0, some err), options.Data, (Close (some fileHandle) w2).2)
            | .ok plainText =>
              ((dataLen, none), copy options.Data plainText, (Close (some fileHandle) w2).2)

/-! ## Block-aligned staging of a plaintext -/

/-- The blocks of a plaintext: block `i` is `data[i*B : (i+1)*B]`, the last
block is the rest `data[i*B:]`; there are `ceil(len(data) / B)` of them. -/
def blocksOf (B : Nat) (data : List Byte) : List (List Byte) :=
  (List.range ((data.length + B - 1) / B)).map fun i => (data.drop (i * B)).take B

/-- Stage the given blocks one after the other: the `k`-th block of the list
goes to the logical offset `uint64((i + k) * blockSize)`, with the random
bytes `rnd (i + k)`. Staging stops at the first error. -/
def stageFrom (c : GCM) (rnd : Nat → List Byte) (name : String) :
    List (List Byte) → Nat → Encryptor → World → Option Errno × Encryptor × World
  | [], _, e, w => (none, e, w)
  | d :: ds, i, e, w =>
    match e.StageData c (rnd i) { Name := name, Offset := toUint64 (i * e.blockSize : Nat), Data := d } w with
    | (some err, e1, w1) => (some err, e1, w1)
    | (none, e1, w1) => stageFrom c rnd name ds (i + 1) e1 w1

/-- Write a whole plaintext: its blocks are staged in increasing order at the
offsets `0, B, 2B, ...` and the file is committed. -/
def writeBlocks (c : GCM) (rnd : Nat → List Byte) (name : String) (data : List Byte)
    (e : Encryptor) (w : World) : Option Errno × Encryptor × World :=
  match stageFrom c rnd name (blocksOf e.blockSize data) 0 e w with
  | (some err, e1, w1) => (some err, e1, w1)
  | (none, e1, w1) => e1.CommitData w1

/-- Create the file `name` and write a whole plaintext into it: `CreateFile`,
then the block-aligned stages, then `CommitData`. -/
def createAndWrite (c : GCM) (rnd : Nat → List Byte) (name : String) (data : List Byte)
    (e : Encryptor) (w : World) : Option Errno × Encryptor × World :=
  match e.CreateFile name w with
  | (.error err, e1, w1) => (some err, e1, w1)
  | (.ok _, e1, w1) => writeBlocks c rnd name data e1 w1

/-- One iteration of a block-by-block read with a buffer of one block: the call
`ReadInBuffer` at the offset `i * blockSize` and the prefix `buf[:n]` of the buffer it leaves. -/
def readBlock (c : GCM) (e : Encryptor) (h : Handle) (i : Nat) (w : World) : List Byte :=
  ((e.ReadInBuffer c
      { Handle := h, Offset := ((i * e.blockSize : Nat) : Int),
        Data := List.replicate e.blockSize 0 } w).2.1).take
    (e.ReadInBuffer c
      { Handle := h, Offset := ((i * e.blockSize : Nat) : Int),
        Data := List.replicate e.blockSize 0 } w).1.1.toNat

/-- Stage a list of calls in the order given: each call carries the index of
its block, its data and its random bytes. -/
def stageCalls (c : GCM) (name : String) :
    List (Nat × List Byte × List Byte) → Encryptor → World → Option Errno × Encryptor × World
  | [], e, w => (none, e, w)
  | (i, d, rnd) :: rest, e, w =>
    match e.StageData c rnd { Name := name, Offset := toUint64 (i * e.blockSize : Nat), Data := d } w with
    | (some err, e1, w1) => (some err, e1, w1)
    | (none, e1, w1) => stageCalls c name rest e1 w1

/-! ## A small AEAD for running the model -/

/-- The sum of the bytes of a slice, modulo 256. -/
def byteSum (l : List Byte) : Byte :=
  l.foldr (fun b acc => b + acc) 0

/-- An AEAD with the interface of AES-GCM and none of its security: every
byte is shifted by a mask derived from key and nonce, and the 16-byte tag
repeats a checksum of the message and the mask. -/
def toyGCM : GCM where
  Seal key nonce plainText :=
    plainText.map (fun b => b + (byteSum key + byteSum nonce))
      ++ List.replicate AuthTagSize (byteSum plainText + (byteSum key + byteSum nonce))
  Open key nonce cipherText :=
    if cipherText.length < AuthTagSize then none
    else
      let body := cipherText.take (cipherText.length - AuthTagSize)
      let plainText := body.map (fun b => b - (byteSum key + byteSum nonce))
      if cipherText.drop (cipherText.length - AuthTagSize)
          = List.replicate AuthTagSize (byteSum plainText + (byteSum key + byteSum nonce)) then
        some plainText
      else none

/-- A 32-byte key. -/
def testKey : List Byte := List.replicate 32 7

/-- A source of random bytes: call `i` receives twelve bytes of value `i`. -/
def demoRnd (i : Nat) : List Byte := List.replicate 12 (Fin.ofNat i)

/-- An encryptor as `Configure` leaves it, for a block size given in bytes. -/
def configured (blockSize : Nat) (key : List Byte) : Encryptor :=
  { handle := none
    blockSize := blockSize
    mountPointCipher := "unit/"
    encryptionKey := key
    lastChunkMeta := { farthestBlockSeen := -1, paddingLength := 0 } }

/-- The content of the regular file at `path` (empty when there is none). -/
def fileContent (w : World) (path : String) : List Byte :=
  match w.fs path with
  | some (.file content) => content
  | _ => []

/-- A ciphertext mount without any file. -/
def emptyWorld : World :=
  { fs := fun _ => none, trace := [] }

/-- A world whose only node is the regular file `unit/f` with the given content. -/
def worldWith (content : List Byte) : World :=
  { fs := fun p => if p = "unit/f" then some (.file content) else none, trace := [] }

/-- A two-block file with block size 4 staged out of order and committed: block 1 (one byte,
padding 3) is staged first, block 0 (full, padding 0) second. -/
def outOfOrderRun : Option Errno × Encryptor × World :=
  ((stageCalls toyGCM "f" [(1, [9], demoRnd 1), (0, [1, 2, 3, 4], demoRnd 0)]
      ((configured 4 testKey).CreateFile "f" emptyWorld).2.1
      ((configured 4 testKey).CreateFile "f" emptyWorld).2.2).2.1).CommitData
    (stageCalls toyGCM "f" [(1, [9], demoRnd 1), (0, [1, 2, 3, 4], demoRnd 0)]
      ((configured 4 testKey).CreateFile "f" emptyWorld).2.1
      ((configured 4 testKey).CreateFile "f" emptyWorld).2.2).2.2

/-- The same two blocks staged in increasing order and committed. -/
def inOrderRun : Option Errno × Encryptor × World :=
  ((stageCalls toyGCM "f" [(0, [1, 2, 3, 4], demoRnd 0), (1, [9], demoRnd 1)]
      ((configured 4 testKey).CreateFile "f" emptyWorld).2.1
      ((configured 4 testKey).CreateFile "f" emptyWorld).2.2).2.1).CommitData
    (stageCalls toyGCM "f" [(0, [1, 2, 3, 4], demoRnd 0), (1, [9], demoRnd 1)]
      ((configured 4 testKey).CreateFile "f" emptyWorld).2.1
      ((configured 4 testKey).CreateFile "f" emptyWorld).2.2).2.2

/-- A committed file of six bytes with block size 4: the blocks `[1,2,3,4]` and `[5,6]`
(padding 2) staged in order into the fresh file `f`, then the commit. -/
def sixByteFile : Option Errno × Encryptor × World :=
  createAndWrite toyGCM demoRnd "f" [1, 2, 3, 4, 5, 6] (configured 4 testKey) emptyWorld

/-- The two blocks `[1,2,3,4]` and `[9]` of a file with block size 4 staged in increasing
order into the fresh file `f`, before the commit. -/
def stagedTwoBlocks : Option Errno × Encryptor × World :=
  stageCalls toyGCM "f" [(0, [1, 2, 3, 4], demoRnd 0), (1, [9], demoRnd 1)]
    ((configured 4 testKey).CreateFile "f" emptyWorld).2.1
    ((configured 4 testKey).CreateFile "f" emptyWorld).2.2

/-- The state after `CreateFile(a)` followed by `CreateFile(b)`. -/
def createBoth (e : Encryptor) (a b : String) (w : World) : Encryptor × World :=
  ((e.CreateFile a w).2.1.CreateFile b (e.CreateFile a w).2.2).2

/-- The offsets of the positioned writes of a trace, in their order. -/
def writeOffsets : List IOEvent → List Int
  | [] => []
  | .writeAt _ _ off :: rest => off :: writeOffsets rest
  | _ :: rest => writeOffsets rest

/-- The offsets of the positioned reads of a trace, in their order. -/
def readOffsets : List IOEvent → List Int
  | [] => []
  | .readAt _ _ off :: rest => off :: readOffsets rest
  | _ :: rest => readOffsets rest

/-- The state a file that is staged and never committed leaves behind: with block size 4,
`CreateFile(g)` and the stage of one byte as block 1 of `g`, without `CommitData`. -/
def uncommittedBlock : Option Errno × Encryptor × World :=
  stageCalls toyGCM "g" [(1, [1], demoRnd 1)]
    ((configured 4 testKey).CreateFile "g" emptyWorld).2.1
    ((configured 4 testKey).CreateFile "g" emptyWorld).2.2

/-! ## Vocabulary of the statements -/

/-- One bit of one byte of a slice inverted: the byte at `pos` is replaced by
itself xor `2 ^ bit`; the slice is unchanged when `pos` is past its end. -/
def flipBit (bs : List Byte) (pos : Nat) (bit : Fin 8) : List Byte :=
  bs.set pos (Fin.ofNat ((bs.getD pos 0).val ^^^ 2 ^ bit.val))

/-- The assumption on the AEAD that a sealed message is `AuthTagSize` bytes
longer than the message (the GCM tag is appended). -/
def GCM.TagOverhead (c : GCM) : Prop :=
  ∀ key nonce plainText : List Byte,
    (c.Seal key nonce plainText).length = plainText.length + AuthTagSize

/-- The assumption on the AEAD that, under the key `key`, opening a sealed
message with the nonce it was sealed with gives the message back. -/
def GCM.OpensSealed (c : GCM) (key : List Byte) : Prop :=
  ∀ nonce plainText : List Byte, c.Open key nonce (c.Seal key nonce plainText) = some plainText

/-- The record of one block on disk: the nonce followed by the sealed,
zero-padded block. -/
def recordOf (c : GCM) (key rnd : List Byte) (blockSize : Nat) (data : List Byte) : List Byte :=
  rnd.take NonceSize ++ c.Seal key (rnd.take NonceSize) (data ++ List.replicate (blockSize - data.length) 0)

/-- The records of consecutive blocks, the first one sealed with the random
bytes `rnd i`. -/
def recordsFrom (c : GCM) (key : List Byte) (rnd : Nat → List Byte) (blockSize : Nat) :
    List (List Byte) → Nat → List Byte
  | [], _ => []
  | d :: ds, i => recordOf c key (rnd i) blockSize d ++ recordsFrom c key rnd blockSize ds (i + 1)

/-- The number of blocks of a plaintext of `L` bytes, `ceil(L / B)`. -/
def blockCount (B L : Nat) : Nat := (L + B - 1) / B

/-- The trailer of a ciphertext file: its last 8 bytes read as a big-endian
unsigned 64-bit integer. -/
def trailerOf (content : List Byte) : Nat :=
  Uint64 (content.drop (content.length - 8))

/-- Logical size recovery in the words of the specification: with
`N = P / (B+28)`, the logical size is `P - N*28 - 8 - trailer`, and 0 when
`P < N*(B+28) + 8`. -/
def logicalSizeSpec (P B trailer : Int) : Int :=
  if P < (P / (B + 28)) * (B + 28) + 8 then 0 else P - (P / (B + 28)) * 28 - 8 - trailer

end Blobfuse

namespace Blobfuse

/-! ## `Configure` -/

/-- The value of a character in the standard base64 alphabet
(`A-Z`, `a-z`, `0-9`, `+`, `/`). -/
def base64Value (ch : Char) : Option Nat :=
  if 65 ≤ ch.toNat ∧ ch.toNat ≤ 90 then some (ch.toNat - 65)
  else if 97 ≤ ch.toNat ∧ ch.toNat ≤ 122 then some (ch.toNat - 97 + 26)
  else if 48 ≤ ch.toNat ∧ ch.toNat ≤ 57 then some (ch.toNat - 48 + 52)
  else if ch.toNat = 43 then some 62
  else if ch.toNat = 47 then some 63
  else none

/-- The quanta of a padded base64 text: four characters give three bytes, a
last quantum `xx==` gives one byte and `xxx=` two. The result is the decoded
bytes and the error; at an error the bytes of the quanta before it are kept. -/
def decodeQuanta : List Char → List Byte × Option Errno
  | [] => ([], none)
  | a :: b :: c :: d :: rest =>
    match base64Value a, base64Value b with
    | some x, some y =>
      if c.toNat = 61 ∧ d.toNat = 61 then
        if rest = [] then ([Fin.ofNat (x * 4 + y / 16)], none) else ([], some .CorruptInput)
      else
        match base64Value c with
        | some z =>
          if d.toNat = 61 then
            if rest = [] then
              ([Fin.ofNat (x * 4 + y / 16), Fin.ofNat (y % 16 * 16 + z / 4)], none)
            else ([], some .CorruptInput)
          else
            match base64Value d with
            | some v =>
              ([Fin.ofNat (x * 4 + y / 16), Fin.ofNat (y % 16 * 16 + z / 4),
                  Fin.ofNat (z % 4 * 64 + v)] ++ (decodeQuanta rest).1,
                (decodeQuanta rest).2)
            | none => ([], some .CorruptInput)
        | none => ([], some .CorruptInput)
    | _, _ => ([], some .CorruptInput)
  | _ => ([], some .CorruptInput)

/-- The library function `base64.StdEncoding.DecodeString`: the standard
alphabet with `=` padding; carriage returns and line feeds are ignored. -/
def DecodeString (s : String) : List Byte × Option Errno :=
  decodeQuanta (s.data.filter fun ch => ch.toNat ≠ 10 ∧ ch.toNat ≠ 13)

/-- The struct `encryptorOptions`; `BlockSize` is a `uint64`. -/
structure EncryptorOptions where
  BlockSize : Nat
  EncryptedMountPath : String
  EncryptionKey : String
  deriving DecidableEq, Repr

/-- What the configuration library answers to `Configure`: the error and the
options of `config.UnmarshalKey("encryptor", &conf)` (the environment variable
`ENCRYPTION_KEY` already bound to `encryption-key`), and `config.IsSet` for
`encryptor.block-size-mb` and `encryptor.encrypted-mount-path`. -/
structure ConfigSource where
  unmarshalError : Bool
  conf : EncryptorOptions
  blockSizeIsSet : Bool
  mountPathIsSet : Bool
  deriving DecidableEq, Repr

/-- The constructor `NewexternalComponent`: the zero value of `Encryptor`
(the nil `lastChunkMeta` is the zero tracker). -/
def NewexternalComponent : Encryptor :=
  { handle := none
    blockSize := 0
    mountPointCipher := ""
    encryptionKey := []
    lastChunkMeta := { farthestBlockSeen := 0, paddingLength := 0 } }

/-- The method `Encryptor.Configure`: the error and the component. -/
def Encryptor.Configure (e : Encryptor) (cfg : ConfigSource) : Option Errno × Encryptor :=
  if cfg.unmarshalError then (some .ConfigError, e)
  else if cfg.conf.EncryptionKey = "" then (some .KeyNotSet, e)
  else
    match DecodeString cfg.conf.EncryptionKey with
    | (key, some _) => (some .CorruptInput, { e with encryptionKey := key })
    | (key, none) =>
      (none,
        { e with
          encryptionKey := key
          blockSize :=
            if cfg.blockSizeIsSet ∧ cfg.conf.BlockSize > 0 then
              cfg.conf.BlockSize * 1024 * 1024 % 18446744073709551616
            else 1024 * 1024
          mountPointCipher :=
            if cfg.mountPathIsSet then cfg.conf.EncryptedMountPath else "/mnt/cipher/"
          lastChunkMeta := { farthestBlockSeen := -1, paddingLength := 0 } })

/-- The configuration of the test suite with the encryption key replaced by `key`. -/
def testConfig (key : String) : ConfigSource :=
  { unmarshalError := false
    conf := { BlockSize := 1, EncryptedMountPath := "unit/", EncryptionKey := key }
    blockSizeIsSet := true
    mountPathIsSet := true }

/-! ## `formatListDirName` -/

/-- The library function `exported.ExtendDirName`: the name with a `/`
appended unless it already ends with one. -/
def ExtendDirName (name : String) : String :=
  if name = "" ∨ name.data.getLast? ≠ some (Char.ofNat 47) then name ++ "/" else name

/-- The function `formatListDirName`. -/
def formatListDirName (path : String) : String :=
  if path = "/" then ""
  else if path ≠ "" then ExtendDirName path
  else path

end Blobfuse
namespace ExternalProcessor

/-!
# The external processor of the proxy (`internal/filter/externalprocessor.go`)

The gRPC stream is a script of what the stream delivers to each iteration of the
loop of `Process`; the run of `Process` is its return value and the sequence of
its actions on the filter and on the stream. The tracing calls (`tracer.Start`,
`requestSpan.End`, `RecordSpanError`) and the log lines leave no mark on either.
-/

/-- The oneof `ProcessingRequest.Request` of the Envoy protocol: the six
variants, each with its content. -/
inductive ProcessingRequest_Request
  | RequestHeaders (v : String)
  | ResponseHeaders (v : String)
  | RequestBody (v : String)
  | ResponseBody (v : String)
  | RequestTrailers (v : String)
  | ResponseTrailers (v : String)
  deriving DecidableEq, Repr

/-- The message `pb.ProcessingRequest`: the oneof, `none` when it is unset (a
nil interface), and the rest of the message. -/
structure ProcessingRequest where
  Request : Option ProcessingRequest_Request
  Attributes : String
  deriving DecidableEq, Repr

/-- The message `pb.ProcessingResponse`: the response to one of the four
handled requests, or the immediate response with its status and body. -/
inductive ProcessingResponse
  | RequestHeaders (response : String)
  | RequestBody (response : String)
  | ResponseHeaders (response : String)
  | ResponseBody (response : String)
  | ImmediateResponse (status : Nat) (body : String)
  deriving DecidableEq, Repr

/-- The constant `typev3.StatusCode_BadRequest`. -/
def StatusCode_BadRequest : Nat := 400

/-- The constant `codes.Unknown` of gRPC. -/
def codes_Unknown : Nat := 2

/-- The four methods of the interface `HttpFilter`. -/
inductive Handler
  | OnRequestHeaders
  | OnRequestBody
  | OnResponseHeaders
  | OnResponseBody
  deriving DecidableEq, Repr

/-- The interface `HttpFilter`, an object with a state of type `σ`: each
method answers a request and leaves the next state. -/
structure HttpFilter (σ : Type) where
  OnRequestHeaders : σ → ProcessingRequest → ProcessingResponse × σ
  OnRequestBody : σ → ProcessingRequest → ProcessingResponse × σ
  OnResponseHeaders : σ → ProcessingRequest → ProcessingResponse × σ
  OnResponseBody : σ → ProcessingRequest → ProcessingResponse × σ

/-- The interface `HttpFilterFactory`: `CreateFilter` gives the methods and the
first state of a new filter. -/
structure HttpFilterFactory (σ : Type) where
  CreateFilter : HttpFilter σ × σ

/-- What `Process` and `handleProxyRequest` do to the factory, the filter and
the stream, in the order of the calls. -/
inductive Action
  | CreateFilter
  | Recv
  | Call (h : Handler) (req : ProcessingRequest)
  | Send (resp : ProcessingResponse)
  deriving DecidableEq, Repr

/-- The type of the oneof as the verb `%T` prints it. -/
def typeName : Option ProcessingRequest_Request → String
  | none => "<nil>"
  | some (.RequestHeaders _) => "*ext_procv3.ProcessingRequest_RequestHeaders"
  | some (.ResponseHeaders _) => "*ext_procv3.ProcessingRequest_ResponseHeaders"
  | some (.RequestBody _) => "*ext_procv3.ProcessingRequest_RequestBody"
  | some (.ResponseBody _) => "*ext_procv3.ProcessingRequest_ResponseBody"
  | some (.RequestTrailers _) => "*ext_procv3.ProcessingRequest_RequestTrailers"
  | some (.ResponseTrailers _) => "*ext_procv3.ProcessingRequest_ResponseTrailers"

/-- Modelled from the spec: `CreateErrorProxyResponse(status, message)` is the
immediate response with that status and that message; its code is not among the
sources. -/
def CreateErrorProxyResponse (status : Nat) (message : String) : ProcessingResponse :=
  .ImmediateResponse status message

/-- The function `handleProxyRequest`: the response, the next state of the
filter and the calls made on the filter. -/
def handleProxyRequest {σ : Type} (httpFilter : HttpFilter σ) (s : σ) (req : ProcessingRequest) :
    ProcessingResponse × σ × List Action :=
  match req.Request with
  | some (.RequestHeaders _) =>
    ((httpFilter.OnRequestHeaders s req).1, (httpFilter.OnRequestHeaders s req).2,
      [.Call .OnRequestHeaders req])
  | some (.RequestBody _) =>
    ((httpFilter.OnRequestBody s req).1, (httpFilter.OnRequestBody s req).2,
      [.Call .OnRequestBody req])
  | some (.ResponseHeaders _) =>
    ((httpFilter.OnResponseHeaders s req).1, (httpFilter.OnResponseHeaders s req).2,
      [.Call .OnResponseHeaders req])
  | some (.ResponseBody _) =>
    ((httpFilter.OnResponseBody s req).1, (httpFilter.OnResponseBody s req).2,
      [.Call .OnResponseBody req])
  | v =>
    (CreateErrorProxyResponse StatusCode_BadRequest
        ("unexpected processing request type " ++ typeName v), s, [])

/-- The error of a done context, `ctx.Err()`. -/
inductive ContextError
  | Canceled
  | DeadlineExceeded
  deriving DecidableEq, Repr

/-- What `srv.Recv()` returns: a request, `io.EOF`, or another error. -/
inductive RecvResult
  | request (req : ProcessingRequest)
  | EOF
  | error (text : String)
  deriving DecidableEq, Repr

/-- What the stream delivers to one iteration of the loop: the error of the
context when it is done at the top of the iteration, the result of `Recv`, and
the error of `Send` when it fails. An iteration that ends early does not look at
the later fields. -/
structure Step where
  ctxErr : Option ContextError
  recv : RecvResult
  sendErr : Option String
  deriving DecidableEq, Repr

/-- How `Process` ends: it returns nil, the error of the context or a gRPC
status error, or it panics. -/
inductive ProcessResult
  | nil
  | contextError (err : ContextError)
  | status (code : Nat) (message : String)
  | panic
  deriving DecidableEq, Repr

/-- The loop of `Process` with the filter in the state `s`: how it ends
(`none` when the script is used up and the loop waits in `Recv`) and its actions.
For a request whose oneof is unset, `reflect.TypeOf(req.Request)` is nil and
the call of `String()` on it panics, before `handleProxyRequest` is reached. -/
def processLoop {σ : Type} (httpFilter : HttpFilter σ) :
    σ → List Step → Option ProcessResult × List Action
  | _, [] => (none, [])
  | s, step :: rest =>
    match step.ctxErr with
    | some err => (some (.contextError err), [])
    | none =>
      match step.recv with
      | .EOF => (some .nil, [.Recv])
      | .error text =>
        (some (.status codes_Unknown ("cannot receive stream request: " ++ text)), [.Recv])
      | .request req =>
        if req.Request = none then (some .panic, [.Recv])
        else
          match step.sendErr with
          | some text =>
            (some (.status codes_Unknown ("cannot send stream response: " ++ text)),
              .Recv :: (handleProxyRequest httpFilter s req).2.2
                ++ [.Send (handleProxyRequest httpFilter s req).1])
          | none =>
            ((processLoop httpFilter (handleProxyRequest httpFilter s req).2.1 rest).1,
              .Recv :: (handleProxyRequest httpFilter s req).2.2
                ++ [.Send (handleProxyRequest httpFilter s req).1]
                ++ (processLoop httpFilter (handleProxyRequest httpFilter s req).2.1 rest).2)

/-- The method `externalProcessor.Process` on a stream that delivers `script`. -/
def Process {σ : Type} (filterFactory : HttpFilterFactory σ) (script : List Step) :
    Option ProcessResult × List Action :=
  ((processLoop filterFactory.CreateFilter.1 filterFactory.CreateFilter.2 script).1,
    .CreateFilter :: (processLoop filterFactory.CreateFilter.1 filterFactory.CreateFilter.2 script).2)

/-! ## Vocabulary of the statements -/

/-- The step of an iteration that runs to its end: the context is not done,
`Recv` delivers `req` and `Send` succeeds. -/
def delivered (req : ProcessingRequest) : Step :=
  { ctxErr := none, recv := .request req, sendErr := none }

/-- The responses `handleProxyRequest` gives to the requests in their order,
the filter starting in the state `s`. -/
def responsesOf {σ : Type} (httpFilter : HttpFilter σ) : σ → List ProcessingRequest →
    List ProcessingResponse
  | _, [] => []
  | s, req :: rest =>
    (handleProxyRequest httpFilter s req).1
      :: responsesOf httpFilter (handleProxyRequest httpFilter s req).2.1 rest

/-- The state of the filter after `handleProxyRequest` has answered the requests. -/
def stateAfter {σ : Type} (httpFilter : HttpFilter σ) : σ → List ProcessingRequest → σ
  | s, [] => s
  | s, req :: rest => stateAfter httpFilter (handleProxyRequest httpFilter s req).2.1 rest

/-- The actions of the iterations that receive, answer and send each request
in turn: `Recv`, the calls of `handleProxyRequest`, `Send` of its response. -/
def exchanges {σ : Type} (httpFilter : HttpFilter σ) : σ → List ProcessingRequest → List Action
  | _, [] => []
  | s, req :: rest =>
    .Recv :: (handleProxyRequest httpFilter s req).2.2
      ++ [.Send (handleProxyRequest httpFilter s req).1]
      ++ exchanges httpFilter (handleProxyRequest httpFilter s req).2.1 rest

/-- The responses sent, in the order of the `Send` actions. -/
def sentResponses : List Action → List ProcessingResponse
  | [] => []
  | .Send resp :: rest => resp :: sentResponses rest
  | _ :: rest => sentResponses rest

/-- A filter that counts its calls and answers each request with the text it
carries. -/
def echoFilter : HttpFilter Nat where
  OnRequestHeaders s req := (.RequestHeaders req.Attributes, s + 1)
  OnRequestBody s req := (.RequestBody req.Attributes, s + 1)
  OnResponseHeaders s req := (.ResponseHeaders req.Attributes, s + 1)
  OnResponseBody s req := (.ResponseBody req.Attributes, s + 1)

/-- The factory of `echoFilter`. -/
def echoFactory : HttpFilterFactory Nat where
  CreateFilter := (echoFilter, 0)

end ExternalProcessor
namespace Opa

/-!
# The factory of the policy filter (`internal/filter/opa/opafilterfactory.go`)

The operating system and the libraries (`os`, `strconv`, the OPA `rest`, `download`, `inmem`
and `rego` packages) are an environment that answers each call; the run of
`NewHttpFilterFactory` is its result and the sequence of its calls. The tracing calls and
the log lines leave no mark on either.
-/

/-- A Go `map[string]string`, by its entries. -/
abbrev PolicySet := List (String × String)

/-- The assignment `m[k] = v` of a map. -/
def mapSet (m : PolicySet) (k v : String) : PolicySet :=
  m.filter (fun kv => kv.1 ≠ k) ++ [(k, v)]

/-- Modelled from the spec: the fields of `configuration.PolicyEngine` that
`NewHttpFilterFactory` reads; the struct is not among the sources. `Modules` and `Data` are
`none` for a nil map, `Data` is the static data as JSON text. -/
structure PolicyEngine where
  PoliciesDirectory : String
  BundleResource : String
  BundleServiceUrl : String
  BundleServiceCredentialsToken : String
  BundleServiceCredentialsScheme : String
  Modules : Option PolicySet
  AllowAll : String
  Data : Option String
  deriving DecidableEq, Repr

/-- The struct `bundle.Bundle` of OPA, by its module files. -/
structure Bundle where
  Modules : PolicySet
  deriving DecidableEq, Repr

/-- The struct `download.Update` of OPA: the error and the bundle of a download. -/
structure Update where
  Error : Option String
  Bundle : Option Bundle
  deriving DecidableEq, Repr

/-- An entry of a directory, `fs.DirEntry`. -/
structure DirEntry where
  Name : String
  IsDir : Bool
  deriving DecidableEq, Repr

/-- The JSON text `restConfig` handed to `rest.New`, by its content: the URL and, when a
token is configured, the scheme and the token of the bearer credentials. -/
structure RestConfig where
  url : String
  bearer : Option (String × String)
  deriving DecidableEq, Repr

/-- The answers of the operating system and of the libraries, errors by their text.
`ReadFile dir name` is `os.ReadFile(filepath.Join(dir, name))`; `Trigger cfg resource` is the
error of `d.Trigger(ctx)` for the downloader made of the client of `cfg` and of `resource`,
and `update cfg resource` is what the callback has stored when `Trigger` returns (`none`
when it was not called); `PrepareForEval` is the error of preparing a query over the
modules, the bundle and the store of the static data. -/
structure Env where
  ReadDir : String → Except String (List DirEntry)
  ReadFile : String → String → Except String String
  LookupEnv : String → Option String
  ValidateAndInjectDefaults : Option String
  restNew : RestConfig → Option String
  Trigger : RestConfig → String → Option String
  update : RestConfig → String → Option Update
  NewTransaction : String → Option String
  PrepareForEval : String → PolicySet → Option Bundle → String → Option String
  Commit : Option String

/-- The calls `NewHttpFilterFactory` makes on the environment, in their order. -/
inductive Call
  | ReadDir (dir : String)
  | ReadFile (dir name : String)
  | ValidateAndInjectDefaults
  | LookupEnv (name : String)
  | RestNew (cfg : RestConfig)
  | Trigger (cfg : RestConfig) (resource : String)
  | Getenv (name : String)
  | NewTransaction
  | PrepareForEval (query : String) (policySet : PolicySet) (bundle : Option Bundle)
  | Commit
  deriving DecidableEq, Repr

/-- The value `rego.PreparedEvalQuery`, by what it was prepared from. -/
structure PreparedEvalQuery where
  query : String
  modules : PolicySet
  bundle : Option Bundle
  data : String
  deriving DecidableEq, Repr

/-- The struct `opaFilterFactory` (without its tracer). -/
structure opaFilterFactory where
  config : PolicyEngine
  policyQueries : List (String × PreparedEvalQuery)
  teeType : String
  deriving DecidableEq, Repr

/-- How `NewHttpFilterFactory` ends: it returns a factory and a nil error, or no factory
and an error, or it panics. -/
inductive Result
  | factory (f : opaFilterFactory)
  | error (err : String)
  | panic
  deriving DecidableEq, Repr

/-- The variable `rules`. -/
def rules : List String :=
  ["on_request_headers", "on_request_body", "on_response_headers", "on_response_body"]

/-- The library function `strconv.ParseBool`. -/
def ParseBool (str : String) : Except String Bool :=
  if str = "1" ∨ str = "t" ∨ str = "T" ∨ str = "TRUE" ∨ str = "true" ∨ str = "True" then
    .ok true
  else if str = "0" ∨ str = "f" ∨ str = "F" ∨ str = "FALSE" ∨ str = "false"
      ∨ str = "False" then
    .ok false
  else .error "invalid syntax"

/-- The expression `strings.Split(s, "/")[0]`: the part of `s` before its first `/`, all
of `s` when it has none. -/
def splitFirst (s : String) : String :=
  String.mk (s.data.takeWhile fun ch => ch ≠ Char.ofNat 47)

/-- The library function `filepath.Ext`: the suffix of the path that starts at the last dot
of its last element, empty when there is no dot. -/
def Ext (path : String) : String :=
  match path.data.reverse.dropWhile (fun ch => ch ≠ Char.ofNat 46 ∧ ch ≠ Char.ofNat 47) with
  | ch :: _ =>
    if ch = Char.ofNat 46 then
      String.mk (Char.ofNat 46
        :: (path.data.reverse.takeWhile
            (fun ch => ch ≠ Char.ofNat 46 ∧ ch ≠ Char.ofNat 47)).reverse)
    else ""
  | [] => ""

/-- The loop over the entries of the policies directory: every regular entry with the
extension `.rego` is read into the policy set under its name. -/
def readPolicies (env : Env) (dir : String) :
    List DirEntry → PolicySet → Except String PolicySet × List Call
  | [], policySet => (.ok policySet, [])
  | file :: rest, policySet =>
    if !file.IsDir ∧ Ext file.Name = ".rego" then
      match env.ReadFile dir file.Name with
      | .error err => (.error err, [.ReadFile dir file.Name])
      | .ok contents =>
        ((readPolicies env dir rest (mapSet policySet file.Name contents)).1,
          .ReadFile dir file.Name
            :: (readPolicies env dir rest (mapSet policySet file.Name contents)).2)
    else readPolicies env dir rest policySet

/-- The local `bundleProtocol`: `https`, and `http` when `USE_HTTP` is present in the
environment and `strconv.ParseBool` reads it as true. -/
def bundleProtocol (env : Env) : String :=
  match env.LookupEnv "USE_HTTP" with
  | some envUseHttp =>
    match ParseBool envUseHttp with
    | .ok true => "http"
    | _ => "https"
  | none => "https"

/-- The local `bundleServiceUrl`. -/
def bundleServiceUrl (env : Env) (config : PolicyEngine) : String :=
  if config.BundleServiceUrl = "" then
    bundleProtocol env ++ "://" ++ splitFirst config.BundleResource
  else config.BundleServiceUrl

/-- The local `restConfig`. -/
def restConfig (env : Env) (config : PolicyEngine) : RestConfig :=
  if config.BundleServiceCredentialsToken ≠ "" then
    { url := bundleServiceUrl env config
      bearer := some
        (if config.BundleServiceCredentialsScheme = "" then "Bearer"
          else config.BundleServiceCredentialsScheme,
         config.BundleServiceCredentialsToken) }
  else { url := bundleServiceUrl env config, bearer := none }

/-- The function `isSevSnp`. -/
def isSevSnp (env : Env) : Bool :=
  !((env.LookupEnv "INSECURE_VIRTUAL_ENVIRONMENT").getD "" == "true")

/-- The function `preparePolicyEval`. -/
def preparePolicyEval (env : Env) (query : String) (policySet : PolicySet)
    (bundle : Option Bundle) (jsonConfig : String) : Except String PreparedEvalQuery :=
  match env.PrepareForEval query policySet bundle jsonConfig with
  | some err => .error err
  | none => .ok { query := query, modules := policySet, bundle := bundle, data := jsonConfig }

/-- The loop over `rules` that prepares the query `data.ccr.policy.<rule>` of each rule. -/
def prepareQueries (env : Env) (policySet : PolicySet) (bundle : Option Bundle)
    (jsonConfig : String) :
    List String → Except String (List (String × PreparedEvalQuery)) × List Call
  | [] => (.ok [], [])
  | r :: rest =>
    match preparePolicyEval env ("data.ccr.policy." ++ r) policySet bundle jsonConfig with
    | .error err => (.error err, [.PrepareForEval ("data.ccr.policy." ++ r) policySet bundle])
    | .ok q =>
      match prepareQueries env policySet bundle jsonConfig rest with
      | (.error err, calls) =>
        (.error err, .PrepareForEval ("data.ccr.policy." ++ r) policySet bundle :: calls)
      | (.ok qs, calls) =>
        (.ok ((r, q) :: qs),
          .PrepareForEval ("data.ccr.policy." ++ r) policySet bundle :: calls)

/-- The second half of `NewHttpFilterFactory`, from `factory := &opaFilterFactory` on, for
the policy set and the bundle the first half has chosen. -/
def buildFactory (env : Env) (config : PolicyEngine) (policySet : PolicySet)
    (bundle : Option Bundle) : Result × List Call :=
  match env.NewTransaction (config.Data.getD "\x7b\x7d") with
  | some err => (.error err, [.Getenv "INSECURE_VIRTUAL_ENVIRONMENT", .NewTransaction])
  | none =>
    match prepareQueries env policySet bundle (config.Data.getD "\x7b\x7d") rules with
    | (.error err, calls) =>
      (.error err, [.Getenv "INSECURE_VIRTUAL_ENVIRONMENT", .NewTransaction] ++ calls)
    | (.ok queries, calls) =>
      match env.Commit with
      | some err =>
        (.error err, [.Getenv "INSECURE_VIRTUAL_ENVIRONMENT", .NewTransaction] ++ calls
          ++ [.Commit])
      | none =>
        (.factory
          { config := config
            policyQueries := queries
            teeType := if isSevSnp env then "sevsnpvm" else "none" },
          [.Getenv "INSECURE_VIRTUAL_ENVIRONMENT", .NewTransaction] ++ calls ++ [.Commit])

/-- The module of the policy that allows everything: the lines of the literal in the source,
without their indentation and the empty lines. -/
def allowAllModule : String :=
  "package ccr.policy\nimport future.keywords\ndefault on_request_headers = true\ndefault on_request_body = true\ndefault on_response_headers = true\ndefault on_response_body = true\n"

/-- The function `NewHttpFilterFactory`: how it ends and its calls. When `Trigger` returns
nil and the callback has stored no update, `update.Error` dereferences nil. -/
def NewHttpFilterFactory (env : Env) (config : PolicyEngine) : Result × List Call :=
  if config.PoliciesDirectory ≠ "" then
    match env.ReadDir config.PoliciesDirectory with
    | .error err => (.error err, [.ReadDir config.PoliciesDirectory])
    | .ok files =>
      match readPolicies env config.PoliciesDirectory files [] with
      | (.error err, calls) => (.error err, .ReadDir config.PoliciesDirectory :: calls)
      | (.ok policySet, calls) =>
        ((buildFactory env config policySet none).1,
          .ReadDir config.PoliciesDirectory :: calls
            ++ (buildFactory env config policySet none).2)
  else if config.BundleResource ≠ "" then
    match env.ValidateAndInjectDefaults with
    | some err => (.error err, [.ValidateAndInjectDefaults])
    | none =>
      match env.restNew (restConfig env config) with
      | some err =>
        (.error err,
          [.ValidateAndInjectDefaults, .LookupEnv "USE_HTTP", .RestNew (restConfig env config)])
      | none =>
        match env.Trigger (restConfig env config) config.BundleResource with
        | some err =>
          (.error err,
            [.ValidateAndInjectDefaults, .LookupEnv "USE_HTTP", .RestNew (restConfig env config),
              .Trigger (restConfig env config) config.BundleResource])
        | none =>
          match env.update (restConfig env config) config.BundleResource with
          | none =>
            (.panic,
              [.ValidateAndInjectDefaults, .LookupEnv "USE_HTTP",
                .RestNew (restConfig env config),
                .Trigger (restConfig env config) config.BundleResource])
          | some update =>
            match update.Error with
            | some err =>
              (.error err,
                [.ValidateAndInjectDefaults, .LookupEnv "USE_HTTP",
                  .RestNew (restConfig env config),
                  .Trigger (restConfig env config) config.BundleResource])
            | none =>
              match update.Bundle with
              | none =>
                (.error "expected bundle with at least one module but got none",
                  [.ValidateAndInjectDefaults, .LookupEnv "USE_HTTP",
                    .RestNew (restConfig env config),
                    .Trigger (restConfig env config) config.BundleResource])
              | some bundle =>
                if bundle.Modules.length = 0 then
                  (.error "expected bundle with at least one module but got none",
                    [.ValidateAndInjectDefaults, .LookupEnv "USE_HTTP",
                      .RestNew (restConfig env config),
                      .Trigger (restConfig env config) config.BundleResource])
                else
                  ((buildFactory env config [] (some bundle)).1,
                    [.ValidateAndInjectDefaults, .LookupEnv "USE_HTTP",
                      .RestNew (restConfig env config),
                      .Trigger (restConfig env config) config.BundleResource]
                      ++ (buildFactory env config [] (some bundle)).2)
  else
    match config.Modules with
    | some modules => buildFactory env config modules none
    | none =>
      if config.AllowAll = "true" then
        buildFactory env config [("allow-all.rego", allowAllModule)] none
      else (.error "Need to specify a bundle_resource.", [])

/-! ## Vocabulary of the statements -/

/-- An environment in which every file and every registry is missing and the store and the
preparation of the queries work: `ReadDir` and `ReadFile` fail, no variable is set, and the
download fails at the trigger with the failed request in its error. -/
def offlineEnv : Env where
  ReadDir _ := .error "no such file or directory"
  ReadFile _ _ := .error "no such file or directory"
  LookupEnv _ := none
  ValidateAndInjectDefaults := none
  restNew _ := none
  Trigger cfg _ := some ("failed to do request: Head " ++ cfg.url)
  update cfg _ := some { Error := some ("failed to do request: Head " ++ cfg.url), Bundle := none }
  NewTransaction _ := none
  PrepareForEval _ _ _ _ := none
  Commit := none

/-- The environment `offlineEnv` with the variable `USE_HTTP` set to `value`. -/
def useHttpEnv (value : String) : Env :=
  { offlineEnv with LookupEnv := fun name => if name = "USE_HTTP" then some value else none }

/-- The configuration of the test `Test_OpaPolicyBundleDownload_Failure`. -/
def bundleOnly (resource : String) : PolicyEngine :=
  { PoliciesDirectory := ""
    BundleResource := resource
    BundleServiceUrl := ""
    BundleServiceCredentialsToken := ""
    BundleServiceCredentialsScheme := ""
    Modules := none
    AllowAll := ""
    Data := none }

end Opa
/-! # Theorems -/

namespace Blobfuse


/-! ## Machine integers -/

theorem toInt64_eq (n : Int) (h1 : -9223372036854775808 ≤ n) (h2 : n ≤ 9223372036854775807) :
    toInt64 n = n := by
  unfold toInt64; split <;> omega

theorem toInt64_natCast (n : Nat) (h : n ≤ 9223372036854775807) : toInt64 (n : Int) = n :=
  toInt64_eq _ (by omega) (by omega)

theorem toInt64_emod (n : Int) :
    toInt64 n % 18446744073709551616 = n % 18446744073709551616 := by
  unfold toInt64; split <;> omega

theorem toInt64_congr (a b : Int)
    (h : a % 18446744073709551616 = b % 18446744073709551616) : toInt64 a = toInt64 b := by
  unfold toInt64; rw [h]

theorem toInt64_sub_left (a b : Int) : toInt64 (toInt64 a - b) = toInt64 (a - b) := by
  apply toInt64_congr
  have := toInt64_emod a
  omega

theorem toInt64_sub_right (a b : Int) : toInt64 (a - toInt64 b) = toInt64 (a - b) := by
  apply toInt64_congr
  have := toInt64_emod b
  omega

theorem toUint64_eq (n : Int) (h0 : 0 ≤ n) (h : n < 18446744073709551616) :
    (toUint64 n : Int) = n := by
  unfold toUint64; omega

theorem toUint64_natCast (n : Nat) (h : n < 18446744073709551616) : toUint64 (n : Int) = n := by
  unfold toUint64; omega

theorem Uint64_PutUint64 (v : Nat) (h : v < 18446744073709551616) : Uint64 (PutUint64 v) = v := by
  simp [Uint64, PutUint64, Fin.ofNat]
  omega

theorem length_PutUint64 (v : Nat) : (PutUint64 v).length = 8 := rfl

/-! ## Positioned writes -/

theorem writeBytes_length (content : List Byte) (off : Nat) (data : List Byte) :
    (writeBytes content off data).length = max content.length (off + data.length) := by
  simp [writeBytes]; omega

theorem writeBytes_at_end (content data : List Byte) :
    writeBytes content content.length data = content ++ data := by
  simp [writeBytes]

/-! ## Padding -/

theorem paddingLengthOf_eq (B : Nat) (data : List Byte) (hB : B ≤ 9223372036854775807)
    (hlen : data.length ≤ B) : paddingLengthOf B data = ((B - data.length : Nat) : Int) := by
  unfold paddingLengthOf
  rw [toInt64_eq B (by omega) (by omega)]
  split
  · rw [toInt64_eq _ (by omega) (by omega)]; omega
  · omega

theorem paddedData_eq (B : Nat) (data : List Byte) (hB : B ≤ 9223372036854775807)
    (hlen : data.length ≤ B) :
    paddedData B data = data ++ List.replicate (B - data.length) 0 := by
  unfold paddedData
  rw [paddingLengthOf_eq B data hB hlen, toInt64_eq B (by omega) (by omega)]
  split
  · simp
  · have : B - data.length = 0 := by omega
    simp [this]

theorem length_recordOf (c : GCM) (hseal : c.TagOverhead) (key rnd : List Byte) (B : Nat)
    (data : List Byte) (hrnd : NonceSize ≤ rnd.length) (hlen : data.length ≤ B) :
    (recordOf c key rnd B data).length = B + 28 := by
  unfold recordOf
  simp only [List.length_append, List.length_take, hseal _ _ _, List.length_replicate,
    NonceSize, AuthTagSize] at *
  omega

end Blobfuse

namespace Blobfuse

/-! ## Staging -/

theorem fit_facts (idx B : Nat) (hfit : (idx + 1) * (B + 28) ≤ 9223372036854775807) :
    idx * (B + 28) + (B + 28) ≤ 9223372036854775807 ∧ idx ≤ 9223372036854775807
      ∧ B ≤ 9223372036854775807 := by
  have hmul : (idx + 1) * (B + 28) = idx * (B + 28) + (B + 28) := by ring
  have h1 : idx * 1 ≤ idx * (B + 28) := Nat.mul_le_mul_left _ (by omega)
  rw [hmul] at hfit
  generalize idx * (B + 28) = off at *
  omega

theorem WriteAt_ok (path : String) (b : List Byte) (off : Int) (w : World) (content : List Byte)
    (hoff : 0 ≤ off) (hb : b ≠ []) (hfit : off + b.length ≤ 9223372036854775807)
    (hfs : w.fs path = some (.file content)) :
    WriteAt (some ⟨path, false⟩) b off w =
      ((b.length, none),
        (w.log (.writeAt path b off)).setNode path (.file (writeBytes content off.toNat b))) := by
  have h1 : ¬ off < 0 := by omega
  have h2 : ¬ maxInt64 < off + b.length := by unfold maxInt64; omega
  simp [WriteAt, h1, hb, h2, hfs]

theorem StageData_ok (c : GCM) (hseal : c.TagOverhead) (rnd : List Byte) (e : Encryptor)
    (opt : StageDataOptions) (w : World) (path : String) (content : List Byte)
    (hB : 0 < e.blockSize) (hlen : opt.Data.length ≤ e.blockSize)
    (hkey : validKeySize e.encryptionKey = true) (hrnd : NonceSize ≤ rnd.length)
    (hh : e.handle = some ⟨path, false⟩) (hfs : w.fs path = some (.file content))
    (hfit : (opt.Offset / e.blockSize + 1) * (e.blockSize + 28) ≤ 9223372036854775807) :
    e.StageData c rnd opt w =
      (none,
        { e with
          lastChunkMeta :=
            { farthestBlockSeen :=
                if ((opt.Offset / e.blockSize : Nat) : Int) > e.lastChunkMeta.farthestBlockSeen then
                  ((opt.Offset / e.blockSize : Nat) : Int)
                else e.lastChunkMeta.farthestBlockSeen
              paddingLength := ((e.blockSize - opt.Data.length : Nat) : Int) } },
        (w.log (.writeAt path (recordOf c e.encryptionKey rnd e.blockSize opt.Data)
            ((opt.Offset / e.blockSize * (e.blockSize + 28) : Nat) : Int))).setNode path
          (.file (writeBytes content (opt.Offset / e.blockSize * (e.blockSize + 28))
            (recordOf c e.encryptionKey rnd e.blockSize opt.Data)))) := by
  have hreclen := length_recordOf c hseal e.encryptionKey rnd e.blockSize opt.Data hrnd hlen
  have hne : recordOf c e.encryptionKey rnd e.blockSize opt.Data ≠ [] := by
    intro h; rw [h] at hreclen; simp at hreclen
  have hrnd2 : ¬ rnd.length < NonceSize := Nat.not_lt.mpr hrnd
  have hB0 : e.blockSize ≠ 0 := Nat.pos_iff_ne_zero.mp hB
  obtain ⟨hf1, hf2, hf3⟩ := fit_facts _ _ hfit
  generalize hBdef : e.blockSize = B at hB hlen hfit hreclen hne hB0 hf1 hf2 hf3 ⊢
  generalize hidx : opt.Offset / B = idx at hfit hf1 hf2 hf3 ⊢
  generalize hoffdef : idx * (B + 28) = off at hf1 ⊢
  have hu1 : toUint64 ((B : Int) + (MetaSize : Int)) = B + 28 := by
    have := toUint64_natCast (B + 28) (by clear hreclen hne hlen; omega)
    simpa [MetaSize] using this
  have hu2 : toUint64 ((idx : Int) * ((B + 28 : Nat) : Int)) = off := by
    rw [← Nat.cast_mul, hoffdef]; exact toUint64_natCast _ (by clear hreclen hne hlen hu1; omega)
  have hi1 : toInt64 (off : Int) = (off : Int) :=
    toInt64_natCast _ (by clear hreclen hne hlen hu1 hu2; omega)
  have hi2 : toInt64 (idx : Int) = (idx : Int) := toInt64_natCast _ hf2
  have hw := WriteAt_ok path (recordOf c e.encryptionKey rnd B opt.Data) (off : Int) w content
    (Int.natCast_nonneg _) hne (by rw [hreclen]; exact_mod_cast hf1) hfs
  unfold Encryptor.StageData EncryptChunk
  rw [hBdef, hidx, paddedData_eq _ _ hf3 hlen, paddingLengthOf_eq _ _ hf3 hlen]
  simp only [hkey, if_true, hrnd2, if_false, hB0, hu1, hu2, hi1, hi2, hh]
  unfold recordOf at hw
  rw [hw]
  simp [recordOf]

theorem stageFrom_cons_ok (c : GCM) (hseal : c.TagOverhead) (rnd : Nat → List Byte) (name : String)
    (path : String) (d : List Byte) (ds : List (List Byte)) (i : Nat) (e : Encryptor) (w : World)
    (content : List Byte)
    (hB : 0 < e.blockSize) (hlen : d.length ≤ e.blockSize)
    (hkey : validKeySize e.encryptionKey = true) (hrnd : NonceSize ≤ (rnd i).length)
    (hh : e.handle = some ⟨path, false⟩) (hfs : w.fs path = some (.file content))
    (hcl : content.length = i * (e.blockSize + 28))
    (hfit : (i + 1) * (e.blockSize + 28) ≤ 9223372036854775807) :
    stageFrom c rnd name (d :: ds) i e w =
      stageFrom c rnd name ds (i + 1)
        { e with
          lastChunkMeta :=
            { farthestBlockSeen :=
                if (i : Int) > e.lastChunkMeta.farthestBlockSeen then (i : Int)
                else e.lastChunkMeta.farthestBlockSeen
              paddingLength := ((e.blockSize - d.length : Nat) : Int) } }
        ((w.log (.writeAt path (recordOf c e.encryptionKey (rnd i) e.blockSize d)
            ((i * (e.blockSize + 28) : Nat) : Int))).setNode path
          (.file (content ++ recordOf c e.encryptionKey (rnd i) e.blockSize d))) := by
  have hoff : toUint64 ((i * e.blockSize : Nat) : Int) = i * e.blockSize := by
    apply toUint64_natCast
    obtain ⟨hf1, _, _⟩ := fit_facts _ _ hfit
    have hmul2 : i * (e.blockSize + 28) = i * e.blockSize + i * 28 := by ring
    clear hfit hcl hlen hrnd hB
    generalize i * e.blockSize = a at *
    generalize i * (e.blockSize + 28) = b at *
    omega
  have hdiv : i * e.blockSize / e.blockSize = i := Nat.mul_div_cancel _ hB
  have hs := StageData_ok c hseal (rnd i) e
    { Name := name, Offset := i * e.blockSize, Data := d } w path content
    hB hlen hkey hrnd hh hfs (by simp only [hdiv]; exact hfit)
  simp only [hdiv] at hs
  simp only [stageFrom, hoff]
  rw [hs, ← hcl, writeBytes_at_end]

theorem length_recordsFrom (c : GCM) (hseal : c.TagOverhead) (key : List Byte)
    (rnd : Nat → List Byte) (B : Nat) (hrnd : ∀ j, NonceSize ≤ (rnd j).length) :
    ∀ (ds : List (List Byte)) (i : Nat), (∀ d ∈ ds, d.length ≤ B) →
      (recordsFrom c key rnd B ds i).length = ds.length * (B + 28) := by
  intro ds
  induction ds with
  | nil => intro i _; simp [recordsFrom]
  | cons d ds ih =>
    intro i h
    simp only [recordsFrom, List.length_append, List.length_cons]
    rw [length_recordOf c hseal key (rnd i) B d (hrnd i) (h d (List.mem_cons_self _ _)),
      ih (i + 1) (fun x hx => h x (List.mem_cons_of_mem _ hx))]
    ring


theorem stageFrom_ok (c : GCM) (hseal : c.TagOverhead) (rnd : Nat → List Byte) (name : String)
    (path : String) (hrnd : ∀ j, NonceSize ≤ (rnd j).length) :
    ∀ (ds : List (List Byte)) (i : Nat) (e : Encryptor) (w : World) (content : List Byte),
      0 < e.blockSize → (∀ d ∈ ds, d.length ≤ e.blockSize) →
      validKeySize e.encryptionKey = true →
      e.handle = some ⟨path, false⟩ → w.fs path = some (.file content) →
      content.length = i * (e.blockSize + 28) →
      (i + ds.length) * (e.blockSize + 28) ≤ 9223372036854775807 →
      (stageFrom c rnd name ds i e w).1 = none
      ∧ (stageFrom c rnd name ds i e w).2.1.handle = e.handle
      ∧ (stageFrom c rnd name ds i e w).2.1.blockSize = e.blockSize
      ∧ (stageFrom c rnd name ds i e w).2.1.encryptionKey = e.encryptionKey
      ∧ (stageFrom c rnd name ds i e w).2.1.mountPointCipher = e.mountPointCipher
      ∧ (stageFrom c rnd name ds i e w).2.2.fs path
          = some (.file (content ++ recordsFrom c e.encryptionKey rnd e.blockSize ds i))
      ∧ (ds = [] → (stageFrom c rnd name ds i e w).2.1.lastChunkMeta = e.lastChunkMeta)
      ∧ (∀ dl, ds.getLast? = some dl → e.lastChunkMeta.farthestBlockSeen < i →
          (stageFrom c rnd name ds i e w).2.1.lastChunkMeta
            = { farthestBlockSeen := (i : Int) + ds.length - 1,
                paddingLength := ((e.blockSize - dl.length : Nat) : Int) }) := by
  intro ds
  induction ds with
  | nil =>
    intro i e w content _ _ _ _ hfs _ _
    simp [stageFrom, recordsFrom, hfs]
  | cons d ds ih =>
    intro i e w content hB hlen hkey hh hfs hcl hfit
    have hfit1 : (i + 1) * (e.blockSize + 28) ≤ 9223372036854775807 := by
      have : (i + 1) * (e.blockSize + 28) ≤ (i + (d :: ds).length) * (e.blockSize + 28) :=
        Nat.mul_le_mul_right _ (by simp)
      omega
    rw [stageFrom_cons_ok c hseal rnd name path d ds i e w content hB
      (hlen d (List.mem_cons_self _ _)) hkey (hrnd i) hh hfs hcl hfit1]
    have hrl := length_recordOf c hseal e.encryptionKey (rnd i) e.blockSize d (hrnd i)
      (hlen d (List.mem_cons_self _ _))
    obtain ⟨h1, h2, h3, h4, h5, h6, h7, h8⟩ := ih (i + 1)
      { e with
        lastChunkMeta :=
          { farthestBlockSeen :=
              if (i : Int) > e.lastChunkMeta.farthestBlockSeen then (i : Int)
              else e.lastChunkMeta.farthestBlockSeen
            paddingLength := ((e.blockSize - d.length : Nat) : Int) } }
      ((w.log (.writeAt path (recordOf c e.encryptionKey (rnd i) e.blockSize d)
          ((i * (e.blockSize + 28) : Nat) : Int))).setNode path
        (.file (content ++ recordOf c e.encryptionKey (rnd i) e.blockSize d)))
      (content ++ recordOf c e.encryptionKey (rnd i) e.blockSize d)
      hB (fun x hx => hlen x (List.mem_cons_of_mem _ hx)) hkey hh
      (by simp [World.setNode])
      (by rw [List.length_append, hrl, hcl]; ring)
      (by simpa [Nat.add_assoc, Nat.add_comm 1] using hfit)
    refine ⟨h1, h2, h3, h4, h5, ?_, ?_, ?_⟩
    · rw [h6]; simp [recordsFrom]
    · intro h; cases h
    · intro dl hdl hfar
      cases ds with
      | nil =>
        simp at hdl
        subst hdl
        rw [h7 rfl]
        simp [hfar]
      | cons d2 ds2 =>
        rw [List.getLast?_cons_cons] at hdl
        rw [h8 dl hdl (by simp only [hfar, gt_iff_lt, if_true]; omega)]
        simp only [List.length_cons]; push_cast
        congr 1
        ring

end Blobfuse

namespace Blobfuse

/-! ## Attributes and commit -/

theorem ReadAt_ok (h : File) (len : Nat) (off : Int) (w : World) (content : List Byte)
    (hopen : h.closed = false) (hoff : 0 ≤ off) (hlen : len ≠ 0)
    (hfs : w.fs h.name = some (.file content)) (hfit : off.toNat + len ≤ content.length) :
    ReadAt h len off w
      = (.ok ((content.drop off.toNat).take len), w.log (.readAt h.name len off)) := by
  have h1 : ¬ off < 0 := by omega
  simp [ReadAt, hopen, h1, hlen, hfs, hfit]


theorem size_facts (P B : Int) (hP : 0 ≤ P) (hB : 0 < B) :
    Int.tdiv P (B + 28) = P / (B + 28) ∧ 0 ≤ P / (B + 28)
      ∧ P / (B + 28) * (B + 28) ≤ P ∧ P / (B + 28) ≤ P / (B + 28) * (B + 28) := by
  have hN0 : 0 ≤ P / (B + 28) := Int.ediv_nonneg hP (by omega)
  refine ⟨Int.tdiv_eq_ediv hP (by omega), hN0, Int.ediv_mul_le _ (by omega), ?_⟩
  have : P / (B + 28) * 1 ≤ P / (B + 28) * (B + 28) :=
    Int.mul_le_mul_of_nonneg_left (by omega) hN0
  omega

theorem checkForActualFileSize_eq (h : File) (P B : Int) (w : World) (content : List Byte)
    (hP : 0 ≤ P) (hPmax : P ≤ 9223372036854775807) (hB : 0 < B)
    (hBmax : B + 28 ≤ 9223372036854775807)
    (hNmax : P / (B + 28) * (B + 28) + 8 ≤ 9223372036854775807)
    (hopen : h.closed = false) (hfs : w.fs h.name = some (.file content))
    (hlen : (content.length : Int) = P) :
    checkForActualFileSize h P B w =
      if P < P / (B + 28) * (B + 28) + 8 then ((0, none), w)
      else
        ((toInt64 (P - P / (B + 28) * 28 - 8 - trailerOf content), none),
          w.log (.readAt h.name 8 (P - 8))) := by
  obtain ⟨hdiv, hN0, hNle, hNM⟩ := size_facts P B hP hB
  have hd : toInt64 (B + (MetaSize : Int)) = B + 28 := by
    simp only [MetaSize]; exact toInt64_eq _ (by omega) (by omega)
  have hne : ¬ (B + 28 = 0) := by omega
  unfold checkForActualFileSize
  simp only [hd, hdiv, hne, if_false]
  clear hd hdiv hne hBmax hB
  generalize P / (B + 28) = N at *
  generalize hM : N * (B + 28) = M at *
  have hN : toInt64 N = N := toInt64_eq _ (by omega) (by omega)
  have hm : toInt64 M = M := toInt64_eq _ (by omega) (by omega)
  have hm8 : toInt64 (M + 8) = M + 8 := toInt64_eq _ (by omega) (by omega)
  simp only [hN, hM, hm, hm8]
  by_cases hc : P < M + 8
  · rw [if_pos hc, if_pos hc]
  · rw [if_neg hc, if_neg hc]
    have hP8 : toInt64 (P - 8) = P - 8 := toInt64_eq _ (by omega) (by omega)
    have hfit : (P - 8).toNat + 8 ≤ content.length := by omega
    have htn : (P - 8).toNat = content.length - 8 := by omega
    rw [hP8, ReadAt_ok h 8 (P - 8) w content hopen (by omega) (by decide) hfs hfit]
    have htake : List.take 8 (List.drop (P - 8).toNat content)
        = List.drop (content.length - 8) content := by
      rw [htn]
      apply List.take_of_length_le
      rw [List.length_drop]; omega
    simp only [htake, trailerOf, MetaSize]
    rw [toInt64_sub_left, toInt64_sub_right]
    congr 2
    apply toInt64_congr
    have h1 := toInt64_emod (P - ↑(Uint64 (List.drop (content.length - 8) content)))
    have h2 := toInt64_emod (N * ((28 : Nat) : Int))
    clear htake htn hfit hP8 hc hm8 hm hN hNM hNle hNmax hM hfs hopen hlen hPmax hP hN0
    generalize toInt64 (P - ↑(Uint64 (List.drop (content.length - 8) content))) = x at *
    generalize toInt64 (N * ((28 : Nat) : Int)) = y at *
    generalize (Uint64 (List.drop (content.length - 8) content) : Int) = t at *
    omega

theorem GetAttr_eq_check (e : Encryptor) (name : String) (w : World) (content : List Byte)
    (hfs : w.fs (e.mountPointCipher ++ name) = some (.file content)) :
    e.GetAttr name w =
      match checkForActualFileSize ⟨e.mountPointCipher ++ name, false⟩ content.length
          (toInt64 e.blockSize)
          ((w.log (.stat (e.mountPointCipher ++ name))).log
            (.openFile (e.mountPointCipher ++ name))) with
      | ((_, some err), w3) =>
        (.error err, (Close (some ⟨e.mountPointCipher ++ name, false⟩) w3).2)
      | ((actualFileSize, none), w3) =>
        (.ok { Size := actualFileSize, Path := name, IsDir := false },
          (Close (some ⟨e.mountPointCipher ++ name, false⟩) w3).2) := by
  have hfs2 : (w.log (.stat (e.mountPointCipher ++ name))).fs (e.mountPointCipher ++ name)
      = some (.file content) := hfs
  simp only [Encryptor.GetAttr, Stat, OpenReadOnly, hfs, hfs2]
  try rfl

theorem GetAttr_file (e : Encryptor) (name : String) (w : World) (content : List Byte)
    (hfs : w.fs (e.mountPointCipher ++ name) = some (.file content))
    (hB : 0 < e.blockSize) (hBmax : e.blockSize + 28 ≤ 9223372036854775807)
    (hP : content.length ≤ 9223372036854775807)
    (hN : (content.length : Int) / ((e.blockSize : Int) + 28) * ((e.blockSize : Int) + 28) + 8
      ≤ 9223372036854775807) :
    (e.GetAttr name w).1 =
      .ok { Size :=
              if (content.length : Int)
                  < (content.length : Int) / ((e.blockSize : Int) + 28) * ((e.blockSize : Int) + 28) + 8
              then 0
              else toInt64 ((content.length : Int)
                - (content.length : Int) / ((e.blockSize : Int) + 28) * 28 - 8 - trailerOf content)
            Path := name
            IsDir := false } := by
  have hBi : toInt64 (e.blockSize : Int) = e.blockSize := toInt64_natCast _ (by omega)
  have hck := checkForActualFileSize_eq ⟨e.mountPointCipher ++ name, false⟩ (content.length : Int)
    (e.blockSize : Int) ((w.log (.stat (e.mountPointCipher ++ name))).log
      (.openFile (e.mountPointCipher ++ name))) content (Int.natCast_nonneg _)
    (by exact_mod_cast hP) (by exact_mod_cast hB) (by exact_mod_cast hBmax) hN
    rfl hfs rfl
  rw [GetAttr_eq_check e name w content hfs, hBi, hck]
  by_cases hc : (content.length : Int)
      < (content.length : Int) / ((e.blockSize : Int) + 28) * ((e.blockSize : Int) + 28) + 8
  · rw [if_pos hc, if_pos hc]
  · rw [if_neg hc, if_neg hc]

theorem commit_facts (f B : Nat) (hfit : (f + 1) * (B + 28) + 8 ≤ 9223372036854775807) :
    f + 1 ≤ 9223372036854775807 ∧ B + 28 ≤ 9223372036854775807
      ∧ (f + 1) * (B + 28) + 8 ≤ 9223372036854775807 := by
  have h1 : (f + 1) * 1 ≤ (f + 1) * (B + 28) := Nat.mul_le_mul_left _ (by omega)
  have h2 : 1 * (B + 28) ≤ (f + 1) * (B + 28) := Nat.mul_le_mul_right _ (by omega)
  generalize (f + 1) * (B + 28) = off at *
  omega

theorem CommitData_ok (e : Encryptor) (w : World) (path : String) (content : List Byte)
    (f p : Nat)
    (hf : e.lastChunkMeta.farthestBlockSeen = (f : Int))
    (hp : e.lastChunkMeta.paddingLength = (p : Int))
    (hh : e.handle = some ⟨path, false⟩) (hfs : w.fs path = some (.file content))
    (hfit : (f + 1) * (e.blockSize + 28) + 8 ≤ 9223372036854775807) :
    e.CommitData w =
      (none,
        { e with
          lastChunkMeta := { farthestBlockSeen := -1, paddingLength := 0 }
          handle := some ⟨path, true⟩ },
        (((w.log (.writeAt path (PutUint64 (toUint64 (p : Int)))
            (((f + 1) * (e.blockSize + 28) : Nat) : Int))).setNode path
          (.file (writeBytes content ((f + 1) * (e.blockSize + 28))
            (PutUint64 (toUint64 (p : Int)))))).log (.close path))) := by
  obtain ⟨hc1, hc2, hc3⟩ := commit_facts _ _ hfit
  have hf1 : toInt64 ((f : Int) + 1) = ((f + 1 : Nat) : Int) := by
    have := toInt64_natCast (f + 1) hc1
    simpa using this
  have hB : toInt64 (e.blockSize : Int) = e.blockSize := toInt64_natCast _ (by omega)
  have hB2 : toInt64 ((e.blockSize : Int) + (MetaSize : Int)) = ((e.blockSize + 28 : Nat) : Int) := by
    have := toInt64_natCast (e.blockSize + 28) hc2
    simpa [MetaSize] using this
  have hoff : toInt64 (((f + 1 : Nat) : Int) * ((e.blockSize + 28 : Nat) : Int))
      = (((f + 1) * (e.blockSize + 28) : Nat) : Int) := by
    rw [← Nat.cast_mul]; exact toInt64_natCast _ (by omega)
  have hne : ¬ ((f : Int) = -1) := by omega
  have hw := WriteAt_ok path (PutUint64 (toUint64 (p : Int)))
    (((f + 1) * (e.blockSize + 28) : Nat) : Int) w content (Int.natCast_nonneg _)
    (by simp [PutUint64])
    (by rw [length_PutUint64]; exact_mod_cast hc3) hfs
  rw [Int.toNat_ofNat] at hw
  unfold Encryptor.CommitData
  simp only [hf, hp, hne, ne_eq, not_false_eq_true, if_true, hf1, hB, hB2, hoff, hh]
  rw [hw]
  rfl

end Blobfuse

namespace Blobfuse

/-! ## Writing a whole plaintext -/

theorem blockCount_bounds (B L : Nat) (hB : 0 < B) (hL : 0 < L) :
    1 ≤ blockCount B L ∧ (blockCount B L - 1) * B < L ∧ L ≤ blockCount B L * B := by
  unfold blockCount
  have h1 := Nat.div_add_mod (L + B - 1) B
  have h2 := Nat.mod_lt (L + B - 1) hB
  have h3 : 1 ≤ (L + B - 1) / B := by
    rw [Nat.le_div_iff_mul_le hB]; omega
  obtain ⟨n, hn⟩ : ∃ n, (L + B - 1) / B = n + 1 := ⟨(L + B - 1) / B - 1, by omega⟩
  rw [hn] at h1 ⊢
  have h4 : B * (n + 1) = n * B + B := by ring
  have h5 : (n + 1) * B = n * B + B := by ring
  simp only [Nat.add_sub_cancel]
  omega

theorem length_blocksOf (B : Nat) (data : List Byte) :
    (blocksOf B data).length = blockCount B data.length := by
  simp [blocksOf, blockCount]

theorem length_le_of_mem_blocksOf (B : Nat) (data : List Byte) :
    ∀ d ∈ blocksOf B data, d.length ≤ B := by
  intro d hd
  simp only [blocksOf, List.mem_map] at hd
  obtain ⟨i, _, rfl⟩ := hd
  simp only [List.length_take]
  omega

theorem getLast?_blocksOf (B : Nat) (data : List Byte) (hB : 0 < B) (hL : 0 < data.length) :
    (blocksOf B data).getLast?
      = some ((data.drop ((blockCount B data.length - 1) * B)).take B) := by
  obtain ⟨h1, _, _⟩ := blockCount_bounds B data.length hB hL
  obtain ⟨n, hn⟩ : ∃ n, blockCount B data.length = n + 1 :=
    ⟨blockCount B data.length - 1, by omega⟩
  have : (data.length + B - 1) / B = n + 1 := hn
  simp only [blocksOf, this, hn, List.range_succ, List.map_append, List.map_cons, List.map_nil,
    List.getLast?_append, List.getLast?_singleton, Nat.add_sub_cancel]
  simp

theorem CreateFile_fresh (e : Encryptor) (name : String) (w : World)
    (hfresh : w.fs (e.mountPointCipher ++ name) = none) :
    e.CreateFile name w =
      (.ok { Path := name, Size := 0 },
        { e with handle := some ⟨e.mountPointCipher ++ name, false⟩ },
        (w.log (.openFile (e.mountPointCipher ++ name))).setNode (e.mountPointCipher ++ name)
          (.file [])) := by
  simp [Encryptor.CreateFile, OpenCreate, hfresh]

theorem last_block_padding (B L N : Nat) (hN1 : 1 ≤ N) (hlo : (N - 1) * B < L) (hhi : L ≤ N * B) :
    B - min B (L - (N - 1) * B) = N * B - L := by
  have hmul : N * B = (N - 1) * B + B := by
    conv_lhs => rw [show N = (N - 1) + 1 by omega]
    ring
  generalize (N - 1) * B = a at *
  generalize N * B = b at *
  omega

theorem createAndWrite_ok (c : GCM) (hseal : c.TagOverhead) (rnd : Nat → List Byte)
    (hrnd : ∀ j, NonceSize ≤ (rnd j).length) (name : String) (data : List Byte) (e : Encryptor)
    (w : World) (hB : 0 < e.blockSize) (hL : 0 < data.length)
    (hkey : validKeySize e.encryptionKey = true)
    (hfresh : w.fs (e.mountPointCipher ++ name) = none)
    (htracker : e.lastChunkMeta.farthestBlockSeen = -1)
    (hfit : blockCount e.blockSize data.length * (e.blockSize + 28) + 8 ≤ 9223372036854775807) :
    (createAndWrite c rnd name data e w).1 = none
    ∧ (createAndWrite c rnd name data e w).2.1
        = { e with
            lastChunkMeta := { farthestBlockSeen := -1, paddingLength := 0 }
            handle := some ⟨e.mountPointCipher ++ name, true⟩ }
    ∧ (createAndWrite c rnd name data e w).2.2.fs (e.mountPointCipher ++ name)
        = some (.file (recordsFrom c e.encryptionKey rnd e.blockSize (blocksOf e.blockSize data) 0
            ++ PutUint64 (blockCount e.blockSize data.length * e.blockSize - data.length))) := by
  obtain ⟨hN1, hNlo, hNhi⟩ := blockCount_bounds e.blockSize data.length hB hL
  have hfit0 : (0 + (blocksOf e.blockSize data).length) * (e.blockSize + 28)
      ≤ 9223372036854775807 := by
    rw [length_blocksOf, Nat.zero_add]
    exact le_trans (Nat.le_add_right _ _) hfit
  have hfitc : (blockCount e.blockSize data.length - 1 + 1) * (e.blockSize + 28) + 8
      ≤ 9223372036854775807 := by
    rw [Nat.sub_add_cancel hN1]; exact hfit
  have hpu : toUint64 ((blockCount e.blockSize data.length * e.blockSize - data.length : Nat) : Int)
      = blockCount e.blockSize data.length * e.blockSize - data.length := by
    apply toUint64_natCast
    have h1 : blockCount e.blockSize data.length * e.blockSize
        ≤ blockCount e.blockSize data.length * (e.blockSize + 28) :=
      Nat.mul_le_mul_left _ (Nat.le_add_right _ _)
    clear hfit0 hfitc hNlo hNhi
    generalize blockCount e.blockSize data.length * e.blockSize = a at *
    generalize blockCount e.blockSize data.length * (e.blockSize + 28) = b at *
    omega
  have hpad : e.blockSize
        - ((data.drop ((blockCount e.blockSize data.length - 1) * e.blockSize)).take
            e.blockSize).length
      = blockCount e.blockSize data.length * e.blockSize - data.length := by
    rw [List.length_take, List.length_drop]
    exact last_block_padding _ _ _ hN1 hNlo hNhi
  have hreclen := length_recordsFrom c hseal e.encryptionKey rnd e.blockSize hrnd
    (blocksOf e.blockSize data) 0 (length_le_of_mem_blocksOf _ _)
  rw [length_blocksOf] at hreclen
  obtain ⟨h1, h2, h3, h4, h5, h6, _, h8⟩ :=
    stageFrom_ok c hseal rnd name (e.mountPointCipher ++ name) hrnd (blocksOf e.blockSize data) 0
      { e with handle := some ⟨e.mountPointCipher ++ name, false⟩ }
      ((w.log (.openFile (e.mountPointCipher ++ name))).setNode (e.mountPointCipher ++ name)
        (.file [])) []
      hB (length_le_of_mem_blocksOf _ _) hkey rfl (by simp [World.setNode]) (by simp) hfit0
  have h8 := h8 _ (getLast?_blocksOf e.blockSize data hB hL)
    (by show e.lastChunkMeta.farthestBlockSeen < ((0 : Nat) : Int); rw [htracker]; decide)
  simp only [List.nil_append] at h6
  have hcw : createAndWrite c rnd name data e w
      = writeBlocks c rnd name data { e with handle := some ⟨e.mountPointCipher ++ name, false⟩ }
          ((w.log (.openFile (e.mountPointCipher ++ name))).setNode (e.mountPointCipher ++ name)
            (.file [])) := by
    simp only [createAndWrite, CreateFile_fresh e name w hfresh]
  rw [hcw]
  unfold writeBlocks
  generalize stageFrom c rnd name (blocksOf e.blockSize data) 0
    { e with handle := some ⟨e.mountPointCipher ++ name, false⟩ }
    ((w.log (.openFile (e.mountPointCipher ++ name))).setNode (e.mountPointCipher ++ name)
      (.file [])) = r at h1 h2 h3 h4 h5 h6 h8 ⊢
  obtain ⟨err, e1, w1⟩ := r
  simp only at h1 h2 h3 h4 h5 h6 h8
  subst h1
  dsimp only
  rw [hpad, length_blocksOf] at h8
  have hf : e1.lastChunkMeta.farthestBlockSeen
      = ((blockCount e.blockSize data.length - 1 : Nat) : Int) := by
    rw [h8]; simp only; push_cast [Nat.cast_sub hN1]; ring
  have hp : e1.lastChunkMeta.paddingLength
      = ((blockCount e.blockSize data.length * e.blockSize - data.length : Nat) : Int) := by
    rw [h8]
  have hcm := CommitData_ok e1 w1 (e.mountPointCipher ++ name) _
    (blockCount e.blockSize data.length - 1)
    (blockCount e.blockSize data.length * e.blockSize - data.length) hf hp h2 h6
    (by rw [h3]; exact hfitc)
  rw [hpu, h3, Nat.sub_add_cancel hN1, ← hreclen, writeBytes_at_end] at hcm
  rw [hcm]
  refine ⟨rfl, ?_, ?_⟩
  · cases e1; cases e; simp_all
  · simp [World.log, World.setNode]

end Blobfuse

namespace Blobfuse

/-! ## Attributes of a committed file -/

theorem trailerOf_append (records : List Byte) (p : Nat) (hp : p < 18446744073709551616) :
    trailerOf (records ++ PutUint64 p) = p := by
  unfold trailerOf
  rw [List.length_append, length_PutUint64, Nat.add_sub_cancel, List.drop_left]
  exact Uint64_PutUint64 p hp

theorem committed_div (N B : Nat) :
    ((N * (B + 28) + 8 : Nat) : Int) / ((B : Int) + 28) = N := by
  have h : (N * (B + 28) + 8) / (B + 28) = N := by
    rw [Nat.add_comm, Nat.add_mul_div_right _ _ (by omega), Nat.div_eq_of_lt (by omega)]
    simp
  have h2 : ((B : Int) + 28) = ((B + 28 : Nat) : Int) := by push_cast; rfl
  rw [h2, ← Int.natCast_div, h]

theorem committed_size (N B p : Nat) (hp : p ≤ N * B) :
    ((N * (B + 28) + 8 : Nat) : Int) - (N : Int) * 28 - 8 - (p : Int)
      = ((N * B - p : Nat) : Int) := by
  push_cast [Nat.cast_sub hp]
  ring

theorem GetAttr_committed (e : Encryptor) (name : String) (w : World) (records : List Byte)
    (N p : Nat)
    (hfs : w.fs (e.mountPointCipher ++ name) = some (.file (records ++ PutUint64 p)))
    (hlen : records.length = N * (e.blockSize + 28))
    (hB : 0 < e.blockSize) (hN : 1 ≤ N) (hp : p ≤ N * e.blockSize)
    (hfit : N * (e.blockSize + 28) + 8 ≤ 9223372036854775807) :
    (e.GetAttr name w).1
      = .ok { Size := ((N * e.blockSize - p : Nat) : Int), Path := name, IsDir := false } := by
  have hclen : (records ++ PutUint64 p).length = N * (e.blockSize + 28) + 8 := by
    rw [List.length_append, length_PutUint64, hlen]
  have hle : N * e.blockSize ≤ N * (e.blockSize + 28) := Nat.mul_le_mul_left _ (Nat.le_add_right _ _)
  have hBmax : e.blockSize + 28 ≤ 9223372036854775807 := by
    have : 1 * (e.blockSize + 28) ≤ N * (e.blockSize + 28) := Nat.mul_le_mul_right _ hN
    generalize N * (e.blockSize + 28) = a at *
    omega
  have hp64 : p < 18446744073709551616 := by
    generalize N * (e.blockSize + 28) = a at *
    generalize N * e.blockSize = b at *
    omega
  have hsz : N * e.blockSize - p ≤ 9223372036854775807 := by
    generalize N * (e.blockSize + 28) = a at *
    generalize N * e.blockSize = b at *
    omega
  have hg := GetAttr_file e name w (records ++ PutUint64 p) hfs hB hBmax
    (by rw [hclen]; exact hfit)
    (by
      rw [hclen, committed_div]
      have : ((N : Int) * ((e.blockSize : Int) + 28) + 8) = ((N * (e.blockSize + 28) + 8 : Nat) : Int) := by
        push_cast; ring
      rw [this]; exact_mod_cast hfit)
  rw [hg, hclen, committed_div, trailerOf_append _ _ hp64]
  have hnot : ¬ (((N * (e.blockSize + 28) + 8 : Nat) : Int)
      < (N : Int) * ((e.blockSize : Int) + 28) + 8) := by
    have : ((N : Int) * ((e.blockSize : Int) + 28) + 8) = ((N * (e.blockSize + 28) + 8 : Nat) : Int) := by
      push_cast; ring
    rw [this]; exact lt_irrefl _
  rw [if_neg hnot, committed_size N e.blockSize p hp, toInt64_natCast _ hsz]
theorem toyGCM_tagOverhead : toyGCM.TagOverhead := by
  intro key nonce plainText
  simp [toyGCM, AuthTagSize]

theorem createAndWrite_result (c : GCM) (hseal : c.TagOverhead) (rnd : Nat → List Byte)
    (hrnd : ∀ j, NonceSize ≤ (rnd j).length) (name : String) (data : List Byte) (e : Encryptor)
    (w : World) (hB : 0 < e.blockSize) (hL : 0 < data.length)
    (hkey : validKeySize e.encryptionKey = true)
    (hfresh : w.fs (e.mountPointCipher ++ name) = none)
    (htracker : e.lastChunkMeta.farthestBlockSeen = -1)
    (hfit : blockCount e.blockSize data.length * (e.blockSize + 28) + 8 ≤ 9223372036854775807) :
    (createAndWrite c rnd name data e w).1 = none
    ∧ ((createAndWrite c rnd name data e w).2.1.GetAttr name
        (createAndWrite c rnd name data e w).2.2).1
        = .ok { Size := (data.length : Int), Path := name, IsDir := false }
    ∧ ∃ content, (createAndWrite c rnd name data e w).2.2.fs (e.mountPointCipher ++ name)
          = some (.file content)
        ∧ content.length = blockCount e.blockSize data.length * (e.blockSize + 28) + 8
        ∧ trailerOf content = blockCount e.blockSize data.length * e.blockSize - data.length := by
  obtain ⟨h1, h2, h3⟩ :=
    createAndWrite_ok c hseal rnd hrnd name data e w hB hL hkey hfresh htracker hfit
  obtain ⟨hN1, _, hNhi⟩ := blockCount_bounds e.blockSize data.length hB hL
  have hreclen := length_recordsFrom c hseal e.encryptionKey rnd e.blockSize hrnd
    (blocksOf e.blockSize data) 0 (length_le_of_mem_blocksOf _ _)
  rw [length_blocksOf] at hreclen
  have hp64 : blockCount e.blockSize data.length * e.blockSize - data.length
      < 18446744073709551616 := by
    have hle : blockCount e.blockSize data.length * e.blockSize
        ≤ blockCount e.blockSize data.length * (e.blockSize + 28) :=
      Nat.mul_le_mul_left _ (Nat.le_add_right _ _)
    clear hreclen hNhi h3
    generalize blockCount e.blockSize data.length * (e.blockSize + 28) = a at *
    generalize blockCount e.blockSize data.length * e.blockSize = b at *
    omega
  refine ⟨h1, ?_, _, h3, ?_, trailerOf_append _ _ hp64⟩
  · have hg := GetAttr_committed (createAndWrite c rnd name data e w).2.1 name
      (createAndWrite c rnd name data e w).2.2
      (recordsFrom c e.encryptionKey rnd e.blockSize (blocksOf e.blockSize data) 0)
      (blockCount e.blockSize data.length)
      (blockCount e.blockSize data.length * e.blockSize - data.length)
      (by rw [h2]; exact h3) (by rw [h2]; exact hreclen) (by rw [h2]; exact hB) hN1
      (by rw [h2]; exact Nat.sub_le _ _) (by rw [h2]; exact hfit)
    rw [hg, h2]
    have : blockCount e.blockSize data.length * e.blockSize
        - (blockCount e.blockSize data.length * e.blockSize - data.length) = data.length :=
      Nat.sub_sub_self hNhi
    simp only [this]
  · rw [List.length_append, length_PutUint64, hreclen]

theorem scenario_S1 (c : GCM) (hseal : c.TagOverhead) (rnd : Nat → List Byte)
    (hrnd : ∀ j, NonceSize ≤ (rnd j).length) (name : String) (data : List Byte) (e : Encryptor)
    (w : World) (hB : e.blockSize = 1048576) (hL : data.length = 9961472)
    (hkey : validKeySize e.encryptionKey = true)
    (hfresh : w.fs (e.mountPointCipher ++ name) = none)
    (htracker : e.lastChunkMeta.farthestBlockSeen = -1) :
    (blocksOf e.blockSize data).length = 10
    ∧ (createAndWrite c rnd name data e w).1 = none
    ∧ ((createAndWrite c rnd name data e w).2.1.GetAttr name
        (createAndWrite c rnd name data e w).2.2).1
        = .ok { Size := 9961472, Path := name, IsDir := false }
    ∧ ∃ content, (createAndWrite c rnd name data e w).2.2.fs (e.mountPointCipher ++ name)
          = some (.file content)
        ∧ content.length = 10486048 ∧ trailerOf content = 524288 := by
  have hN : blockCount e.blockSize data.length = 10 := by rw [hB, hL]; decide
  obtain ⟨h1, h2, content, h3, h4, h5⟩ := createAndWrite_result c hseal rnd hrnd name data e w
    (by rw [hB]; decide) (by rw [hL]; decide) hkey hfresh htracker
    (by rw [hN, hB]; decide)
  rw [hN, hB] at h4
  rw [hN, hB, hL] at h5
  rw [hL] at h2
  exact ⟨by rw [length_blocksOf, hN], h1, h2, content, h3, h4, h5⟩

end Blobfuse

namespace Blobfuse

/-! ## Reading a block -/

theorem read_facts (o B : Nat) (clen : Nat) (hB : 0 < B)
    (hrec : (o / B + 1) * (B + 28) ≤ clen) (hmax : clen ≤ 9223372036854775807) :
    o / B * (B + 28) + (B + 28) ≤ clen ∧ o / B ≤ 9223372036854775807
      ∧ B + 28 ≤ 9223372036854775807 ∧ o / B * (B + 28) ≤ 9223372036854775807 := by
  have hmul : (o / B + 1) * (B + 28) = o / B * (B + 28) + (B + 28) := by ring
  have h1 : o / B * 1 ≤ o / B * (B + 28) := Nat.mul_le_mul_left _ (by omega)
  rw [hmul] at hrec
  generalize o / B * (B + 28) = off at *
  generalize o / B = idx at *
  omega

theorem ReadInBuffer_block (c : GCM) (e : Encryptor) (options : ReadInBufferOptions) (w : World)
    (content : List Byte) (o : Nat)
    (hB : 0 < e.blockSize)
    (hO : options.Offset = (o : Int)) (hoS : (o : Int) < options.Handle.Size)
    (hS : options.Handle.Size ≤ 9223372036854775807)
    (hbuf : options.Data ≠ [])
    (hov : o + options.Data.length ≤ 9223372036854775807)
    (hfs : w.fs (e.mountPointCipher ++ options.Handle.Path) = some (.file content))
    (hrec : (o / e.blockSize + 1) * (e.blockSize + 28) ≤ content.length)
    (hmax : content.length ≤ 9223372036854775807) :
    e.ReadInBuffer c options w =
      match DecryptChunk c
          (((content.drop (o / e.blockSize * (e.blockSize + 28))).take (e.blockSize + 28)).drop
            NonceSize)
          (((content.drop (o / e.blockSize * (e.blockSize + 28))).take (e.blockSize + 28)).take
            NonceSize)
          e.encryptionKey with
      | .error err =>
        ((0, some err), options.Data,
          (((w.log (.openFile (e.mountPointCipher ++ options.Handle.Path))).log
            (.readAt (e.mountPointCipher ++ options.Handle.Path) (e.blockSize + 28)
              ((o / e.blockSize * (e.blockSize + 28) : Nat) : Int))).log
            (.close (e.mountPointCipher ++ options.Handle.Path))))
      | .ok plainText =>
        ((min (options.Data.length : Int) (options.Handle.Size - o), none),
          copy options.Data plainText,
          (((w.log (.openFile (e.mountPointCipher ++ options.Handle.Path))).log
            (.readAt (e.mountPointCipher ++ options.Handle.Path) (e.blockSize + 28)
              ((o / e.blockSize * (e.blockSize + 28) : Nat) : Int))).log
            (.close (e.mountPointCipher ++ options.Handle.Path)))) := by
  obtain ⟨hr1, hr2, hr3, hr4⟩ := read_facts o e.blockSize content.length hB hrec hmax
  have hlen0 : 0 < options.Data.length := List.length_pos.mpr hbuf
  have h1 : ¬ (options.Offset > options.Handle.Size) := by rw [hO]; omega
  have h2 : toInt64 (options.Offset + (options.Data.length : Int))
      = (o : Int) + (options.Data.length : Int) := by
    rw [hO]; exact toInt64_eq _ (by omega) (by omega)
  have h3 : toInt64 (options.Handle.Size - options.Offset) = options.Handle.Size - (o : Int) := by
    rw [hO]; exact toInt64_eq _ (by omega) (by omega)
  have hdl : (if options.Handle.Size < (o : Int) + (options.Data.length : Int) then
        options.Handle.Size - (o : Int) else (options.Data.length : Int))
      = min (options.Data.length : Int) (options.Handle.Size - o) := by
    split <;> omega
  have hdl0 : ¬ (min (options.Data.length : Int) (options.Handle.Size - o) = 0) := by omega
  have hBi : toInt64 (e.blockSize : Int) = (e.blockSize : Int) := toInt64_natCast _ (by omega)
  have hB0 : ¬ ((e.blockSize : Int) = 0) := by omega
  have hdiv : Int.tdiv options.Offset (e.blockSize : Int) = ((o / e.blockSize : Nat) : Int) := by
    rw [hO, Int.tdiv_eq_ediv (Int.natCast_nonneg _) (Int.natCast_nonneg _)]; rfl
  have hidx : toInt64 ((o / e.blockSize : Nat) : Int) = ((o / e.blockSize : Nat) : Int) :=
    toInt64_natCast _ hr2
  have hrs : toInt64 ((e.blockSize : Int) + (MetaSize : Int)) = ((e.blockSize + 28 : Nat) : Int) := by
    have := toInt64_natCast (e.blockSize + 28) hr3
    simpa [MetaSize] using this
  have hoff : toInt64 (((o / e.blockSize : Nat) : Int) * ((e.blockSize + 28 : Nat) : Int))
      = ((o / e.blockSize * (e.blockSize + 28) : Nat) : Int) := by
    rw [← Nat.cast_mul]; exact toInt64_natCast _ hr4
  have hu : toUint64 ((e.blockSize : Int) + (MetaSize : Int)) = e.blockSize + 28 := by
    have := toUint64_natCast (e.blockSize + 28) (by omega)
    simpa [MetaSize] using this
  have hO2 : OpenReadOnly (e.mountPointCipher ++ options.Handle.Path) w
      = (.ok ⟨e.mountPointCipher ++ options.Handle.Path, false⟩,
          w.log (.openFile (e.mountPointCipher ++ options.Handle.Path))) := by
    unfold OpenReadOnly; rw [hfs]
  have hR := ReadAt_ok ⟨e.mountPointCipher ++ options.Handle.Path, false⟩ (e.blockSize + 28)
    ((o / e.blockSize * (e.blockSize + 28) : Nat) : Int)
    (w.log (.openFile (e.mountPointCipher ++ options.Handle.Path))) content rfl
    (Int.natCast_nonneg _) (by omega) hfs (by rw [Int.toNat_ofNat]; exact hr1)
  rw [Int.toNat_ofNat] at hR
  unfold Encryptor.ReadInBuffer
  simp only [h1, if_false, h2, h3, hdl, hdl0, hO2, hBi, hB0, hdiv, hidx, hrs, hoff, hu, hR]
  cases hd : DecryptChunk c
      (((content.drop (o / e.blockSize * (e.blockSize + 28))).take (e.blockSize + 28)).drop
        NonceSize)
      (((content.drop (o / e.blockSize * (e.blockSize + 28))).take (e.blockSize + 28)).take
        NonceSize)
      e.encryptionKey with
  | error err => simp [Close, World.log]
  | ok plainText => simp [Close, World.log]

theorem record_at (c : GCM) (hseal : c.TagOverhead) (key : List Byte) (rnd : Nat → List Byte)
    (B : Nat) (hrnd : ∀ j, NonceSize ≤ (rnd j).length) (rest : List Byte) :
    ∀ (ds : List (List Byte)) (j i : Nat), (∀ d ∈ ds, d.length ≤ B) → i < ds.length →
      ((recordsFrom c key rnd B ds j ++ rest).drop (i * (B + 28))).take (B + 28)
        = recordOf c key (rnd (j + i)) B (ds.getD i []) := by
  intro ds
  induction ds with
  | nil => intro j i _ hi; simp at hi
  | cons d ds ih =>
    intro j i hlen hi
    have hrl := length_recordOf c hseal key (rnd j) B d (hrnd j) (hlen d (List.mem_cons_self _ _))
    cases i with
    | zero =>
      simp only [recordsFrom, Nat.zero_mul, List.drop_zero, List.append_assoc, Nat.add_zero,
        List.getD_cons_zero]
      exact List.take_left' hrl
    | succ i =>
      have hmul : (i + 1) * (B + 28) = (recordOf c key (rnd j) B d).length + i * (B + 28) := by
        rw [hrl]; ring
      simp only [recordsFrom, List.append_assoc, List.getD_cons_succ]
      rw [hmul, List.drop_append,
        ih (j + 1) i (fun x hx => hlen x (List.mem_cons_of_mem _ hx))
          (by simpa using hi)]
      rw [show j + 1 + i = j + (i + 1) by omega]

theorem getD_blocksOf (B : Nat) (data : List Byte) (i : Nat)
    (hi : i < blockCount B data.length) :
    (blocksOf B data).getD i [] = (data.drop (i * B)).take B := by
  have hi2 : i < (data.length + B - 1) / B := hi
  simp [blocksOf, List.getD_eq_getElem?_getD, List.getElem?_map, List.getElem?_range hi2]

theorem flatten_blocks (B : Nat) (data : List Byte) :
    ∀ n, ((List.range n).map fun i => (data.drop (i * B)).take B).flatten = data.take (n * B) := by
  intro n
  induction n with
  | zero => simp
  | succ n ih =>
    rw [List.range_succ, List.map_append, List.flatten_append, ih]
    simp only [List.map_cons, List.map_nil, List.flatten_cons, List.flatten_nil, List.append_nil]
    rw [show (n + 1) * B = n * B + B by ring, List.take_add]

theorem flatten_blocksOf (B : Nat) (data : List Byte) (hB : 0 < B) :
    (blocksOf B data).flatten = data := by
  unfold blocksOf
  rw [flatten_blocks]
  apply List.take_of_length_le
  rcases Nat.eq_zero_or_pos data.length with h0 | h0
  · omega
  · exact (blockCount_bounds B data.length hB h0).2.2

theorem DecryptChunk_recordOf (c : GCM) (key rnd : List Byte) (B : Nat) (d : List Byte)
    (hopen : c.OpensSealed key) (hkey : validKeySize key = true)
    (hrnd : NonceSize ≤ rnd.length) :
    DecryptChunk c ((recordOf c key rnd B d).drop NonceSize)
        ((recordOf c key rnd B d).take NonceSize) key
      = .ok (d ++ List.replicate (B - d.length) 0) := by
  have hn : (rnd.take NonceSize).length = NonceSize := by
    rw [List.length_take]; exact Nat.min_eq_left hrnd
  unfold recordOf DecryptChunk
  rw [List.drop_left' hn, List.take_left' hn, hopen]
  simp [hkey]

theorem block_index_facts (B L N i : Nat) (hB : 0 < B) (hi : i * B < L) (hhi : L ≤ N * B)
    (hfit : N * (B + 28) + 8 ≤ 9223372036854775807) :
    i < N ∧ (i * B / B + 1) * (B + 28) ≤ N * (B + 28) + 8
      ∧ i * B + B ≤ 9223372036854775807 ∧ L ≤ 9223372036854775807 := by
  have hiN : i < N := by
    by_contra hcon
    have : N * B ≤ i * B := Nat.mul_le_mul_right _ (Nat.le_of_not_lt hcon)
    omega
  have h1 : (i + 1) * (B + 28) ≤ N * (B + 28) := Nat.mul_le_mul_right _ hiN
  have h2 : (i + 1) * B ≤ N * B := Nat.mul_le_mul_right _ hiN
  have h3 : N * B ≤ N * (B + 28) := Nat.mul_le_mul_left _ (Nat.le_add_right _ _)
  have h4 : (i + 1) * B = i * B + B := by ring
  rw [Nat.mul_div_cancel _ hB]
  refine ⟨hiN, ?_, ?_, ?_⟩
  · generalize (i + 1) * (B + 28) = a at *
    generalize N * (B + 28) = b at *
    omega
  · generalize N * (B + 28) = b at *
    generalize N * B = c at *
    generalize (i + 1) * B = d at *
    generalize i * B = f at *
    omega
  · generalize N * (B + 28) = b at *
    generalize N * B = c at *
    omega

theorem copy_full (buf plainText : List Byte) (h : buf.length = plainText.length) :
    copy buf plainText = plainText := by
  unfold copy
  rw [h, List.take_length, List.drop_of_length_le (by omega)]
  simp

theorem read_block_after_write (c : GCM) (hseal : c.TagOverhead) (rnd : Nat → List Byte)
    (hrnd : ∀ j, NonceSize ≤ (rnd j).length) (name : String) (data : List Byte) (e : Encryptor)
    (w : World) (hB : 0 < e.blockSize) (hL : 0 < data.length)
    (hkey : validKeySize e.encryptionKey = true)
    (hopen : c.OpensSealed e.encryptionKey)
    (hfresh : w.fs (e.mountPointCipher ++ name) = none)
    (htracker : e.lastChunkMeta.farthestBlockSeen = -1)
    (hfit : blockCount e.blockSize data.length * (e.blockSize + 28) + 8 ≤ 9223372036854775807)
    (w2 : World)
    (hw2 : w2.fs (e.mountPointCipher ++ name)
      = (createAndWrite c rnd name data e w).2.2.fs (e.mountPointCipher ++ name))
    (i : Nat) (hi : i * e.blockSize < data.length) (buf : List Byte)
    (hbuf : buf.length = e.blockSize) :
    ((createAndWrite c rnd name data e w).2.1.ReadInBuffer c
        { Handle := { Path := name, Size := data.length },
          Offset := ((i * e.blockSize : Nat) : Int), Data := buf } w2).1
      = (min (e.blockSize : Int) ((data.length : Int) - ((i * e.blockSize : Nat) : Int)), none)
    ∧ ((createAndWrite c rnd name data e w).2.1.ReadInBuffer c
        { Handle := { Path := name, Size := data.length },
          Offset := ((i * e.blockSize : Nat) : Int), Data := buf } w2).2.1
      = (data.drop (i * e.blockSize)).take e.blockSize
          ++ List.replicate (e.blockSize - ((data.drop (i * e.blockSize)).take e.blockSize).length) 0 := by
  obtain ⟨_, h2, h3⟩ :=
    createAndWrite_ok c hseal rnd hrnd name data e w hB hL hkey hfresh htracker hfit
  obtain ⟨hN1, _, hNhi⟩ := blockCount_bounds e.blockSize data.length hB hL
  obtain ⟨hiN, hrec, hov, hLmax⟩ := block_index_facts e.blockSize data.length
    (blockCount e.blockSize data.length) i hB hi hNhi hfit
  have hreclen := length_recordsFrom c hseal e.encryptionKey rnd e.blockSize hrnd
    (blocksOf e.blockSize data) 0 (length_le_of_mem_blocksOf _ _)
  rw [length_blocksOf] at hreclen
  rw [h3] at hw2
  rw [h2]
  have hclen : (recordsFrom c e.encryptionKey rnd e.blockSize (blocksOf e.blockSize data) 0
      ++ PutUint64 (blockCount e.blockSize data.length * e.blockSize - data.length)).length
      = blockCount e.blockSize data.length * (e.blockSize + 28) + 8 := by
    rw [List.length_append, length_PutUint64, hreclen]
  have hrb := ReadInBuffer_block c
    { e with
      lastChunkMeta := { farthestBlockSeen := -1, paddingLength := 0 }
      handle := some ⟨e.mountPointCipher ++ name, true⟩ }
    { Handle := { Path := name, Size := data.length },
      Offset := ((i * e.blockSize : Nat) : Int), Data := buf } w2 _ (i * e.blockSize)
    hB rfl
    (by show ((i * e.blockSize : Nat) : Int) < (data.length : Int); exact_mod_cast hi)
    (by show (data.length : Int) ≤ 9223372036854775807; exact_mod_cast hLmax)
    (by
      show buf ≠ []
      intro h; rw [h] at hbuf; simp at hbuf; omega)
    (by show i * e.blockSize + buf.length ≤ 9223372036854775807; rw [hbuf]; exact hov)
    hw2 (by rw [hclen]; exact hrec) (by rw [hclen]; exact hfit)
  simp only [Nat.mul_div_cancel _ hB] at hrb
  have hrec2 := record_at c hseal e.encryptionKey rnd e.blockSize hrnd
    (PutUint64 (blockCount e.blockSize data.length * e.blockSize - data.length))
    (blocksOf e.blockSize data) 0 i (length_le_of_mem_blocksOf _ _)
    (by rw [length_blocksOf]; exact hiN)
  rw [Nat.zero_add, getD_blocksOf _ _ _ hiN] at hrec2
  rw [hrec2, DecryptChunk_recordOf c e.encryptionKey (rnd i) e.blockSize _ hopen hkey (hrnd i)]
    at hrb
  rw [hrb]
  refine ⟨by simp only [hbuf], ?_⟩
  apply copy_full
  rw [hbuf, List.length_append, List.length_replicate, List.length_take, List.length_drop]
  omega

theorem toyGCM_opensSealed (key : List Byte) : toyGCM.OpensSealed key := by
  intro nonce plainText
  simp [toyGCM, AuthTagSize, Function.comp_def]

theorem take_block (data : List Byte) (B i : Nat) :
    ((data.drop (i * B)).take B
        ++ List.replicate (B - ((data.drop (i * B)).take B).length) 0).take
        (min B (data.length - i * B))
      = (data.drop (i * B)).take B := by
  apply List.take_left'
  rw [List.length_take, List.length_drop]

theorem take_block_eq (data : List Byte) (B i : Nat) :
    (data.drop (i * B)).take (min B (data.length - i * B)) = (data.drop (i * B)).take B := by
  rw [List.take_eq_take, List.length_drop]
  omega

theorem ReadInBuffer_length (c : GCM) (e : Encryptor) (options : ReadInBufferOptions) (w : World)
    (dataLen : Int)
    (hdl : (if options.Handle.Size < toInt64 (options.Offset + (options.Data.length : Int)) then
        toInt64 (options.Handle.Size - options.Offset) else (options.Data.length : Int)) = dataLen)
    (hle : ¬ (options.Offset > options.Handle.Size)) :
    ((e.ReadInBuffer c options w).1.2 = none → (e.ReadInBuffer c options w).1.1 = dataLen)
    ∧ (dataLen = 0 → e.ReadInBuffer c options w = ((0, none), options.Data, w)) := by
  unfold Encryptor.ReadInBuffer
  simp only [hle, if_false, hdl]
  constructor
  · intro h
    split at h
    · rename_i h0; simp [h0]
    · rename_i h0
      rw [if_neg h0] 
      split at h
      · simp at h
      · split at h
        · simp at h
        · split at h
          · simp at h
          · split at h
            · simp at h
            · rw [if_neg (by assumption)]
  · intro h0
    rw [if_pos h0]

theorem offset_index_facts (B L N o : Nat) (hB : 0 < B) (ho : o < L) (hhi : L ≤ N * B)
    (hfit : N * (B + 28) + 8 ≤ 9223372036854775807) :
    o / B < N ∧ (o / B + 1) * (B + 28) ≤ N * (B + 28) + 8 ∧ L ≤ 9223372036854775807 := by
  have hiN : o / B < N := (Nat.div_lt_iff_lt_mul hB).mpr (by omega)
  have h1 : (o / B + 1) * (B + 28) ≤ N * (B + 28) := Nat.mul_le_mul_right _ hiN
  have h3 : N * B ≤ N * (B + 28) := Nat.mul_le_mul_left _ (Nat.le_add_right _ _)
  refine ⟨hiN, ?_, ?_⟩
  · generalize (o / B + 1) * (B + 28) = a at *
    generalize N * (B + 28) = b at *
    omega
  · generalize N * (B + 28) = b at *
    generalize N * B = c at *
    omega

theorem read_after_write (c : GCM) (hseal : c.TagOverhead) (rnd : Nat → List Byte)
    (hrnd : ∀ j, NonceSize ≤ (rnd j).length) (name : String) (data : List Byte) (e : Encryptor)
    (w : World) (hB : 0 < e.blockSize) (hL : 0 < data.length)
    (hkey : validKeySize e.encryptionKey = true)
    (hopen : c.OpensSealed e.encryptionKey)
    (hfresh : w.fs (e.mountPointCipher ++ name) = none)
    (htracker : e.lastChunkMeta.farthestBlockSeen = -1)
    (hfit : blockCount e.blockSize data.length * (e.blockSize + 28) + 8 ≤ 9223372036854775807)
    (w2 : World)
    (hw2 : w2.fs (e.mountPointCipher ++ name)
      = (createAndWrite c rnd name data e w).2.2.fs (e.mountPointCipher ++ name))
    (o : Nat) (ho : o < data.length) (buf : List Byte) (hbuf : buf ≠ [])
    (hov : o + buf.length ≤ 9223372036854775807) :
    (createAndWrite c rnd name data e w).2.1.ReadInBuffer c
        { Handle := { Path := name, Size := data.length }, Offset := (o : Int), Data := buf } w2
      = ((min (buf.length : Int) ((data.length : Int) - (o : Int)), none),
          copy buf ((data.drop (o / e.blockSize * e.blockSize)).take e.blockSize
            ++ List.replicate
              (e.blockSize
                - ((data.drop (o / e.blockSize * e.blockSize)).take e.blockSize).length) 0),
          ((w2.log (.openFile (e.mountPointCipher ++ name))).log
            (.readAt (e.mountPointCipher ++ name) (e.blockSize + 28)
              ((o / e.blockSize * (e.blockSize + 28) : Nat) : Int))).log
            (.close (e.mountPointCipher ++ name))) := by
  obtain ⟨_, h2, h3⟩ :=
    createAndWrite_ok c hseal rnd hrnd name data e w hB hL hkey hfresh htracker hfit
  obtain ⟨hN1, _, hNhi⟩ := blockCount_bounds e.blockSize data.length hB hL
  obtain ⟨hiN, hrec, hLmax⟩ := offset_index_facts e.blockSize data.length
    (blockCount e.blockSize data.length) o hB ho hNhi hfit
  have hreclen := length_recordsFrom c hseal e.encryptionKey rnd e.blockSize hrnd
    (blocksOf e.blockSize data) 0 (length_le_of_mem_blocksOf _ _)
  rw [length_blocksOf] at hreclen
  rw [h3] at hw2
  rw [h2]
  have hclen : (recordsFrom c e.encryptionKey rnd e.blockSize (blocksOf e.blockSize data) 0
      ++ PutUint64 (blockCount e.blockSize data.length * e.blockSize - data.length)).length
      = blockCount e.blockSize data.length * (e.blockSize + 28) + 8 := by
    rw [List.length_append, length_PutUint64, hreclen]
  have hrb := ReadInBuffer_block c
    { e with
      lastChunkMeta := { farthestBlockSeen := -1, paddingLength := 0 }
      handle := some ⟨e.mountPointCipher ++ name, true⟩ }
    { Handle := { Path := name, Size := data.length }, Offset := (o : Int), Data := buf } w2 _ o
    hB rfl
    (by show (o : Int) < (data.length : Int); exact_mod_cast ho)
    (by show (data.length : Int) ≤ 9223372036854775807; exact_mod_cast hLmax)
    hbuf hov hw2 (by rw [hclen]; exact hrec) (by rw [hclen]; exact hfit)
  have hrec2 := record_at c hseal e.encryptionKey rnd e.blockSize hrnd
    (PutUint64 (blockCount e.blockSize data.length * e.blockSize - data.length))
    (blocksOf e.blockSize data) 0 (o / e.blockSize) (length_le_of_mem_blocksOf _ _)
    (by rw [length_blocksOf]; exact hiN)
  rw [Nat.zero_add, getD_blocksOf _ _ _ hiN] at hrec2
  rw [hrec2, DecryptChunk_recordOf c e.encryptionKey (rnd (o / e.blockSize)) e.blockSize _ hopen
    hkey (hrnd _)] at hrb
  exact hrb

theorem set_window_other {α : Type} (l : List α) (n : Nat) (a : α) (s R : Nat)
    (h : n < s ∨ s + R ≤ n) : ((l.set n a).drop s).take R = (l.drop s).take R := by
  apply List.ext_getElem?
  intro k
  simp only [List.getElem?_take, List.getElem?_drop]
  split
  · rw [List.getElem?_set_ne (by omega)]
  · rfl

theorem set_window_same {α : Type} (l : List α) (p : Nat) (a : α) (s R : Nat) (hp : p < R) :
    ((l.set (s + p) a).drop s).take R = ((l.drop s).take R).set p a := by
  apply List.ext_getElem?
  intro k
  simp only [List.getElem?_take, List.getElem?_drop, List.getElem?_set, List.length_take,
    List.length_drop]
  by_cases hk : k = p
  · subst hk
    simp only [hp, if_true, Nat.add_right_cancel_iff]
    simp
    by_cases h1 : s + k < l.length
    · rw [if_pos h1, if_pos ⟨hp, by omega⟩]
    · rw [if_neg h1, if_neg (by omega)]
  · have : s + p ≠ s + k := by omega
    simp [hk, this, Ne.symm hk]

theorem getD_window {α : Type} (l : List α) (p s R : Nat) (d : α) (hp : p < R) :
    ((l.drop s).take R).getD p d = l.getD (s + p) d := by
  simp only [List.getD_eq_getElem?_getD, List.getElem?_take, List.getElem?_drop, hp, if_true]

theorem window_disjoint (i j pos R : Nat) (hpos : pos < R) (hij : j ≠ i) :
    i * R + pos < j * R ∨ j * R + R ≤ i * R + pos := by
  rcases Nat.lt_or_gt_of_ne hij with h | h
  · right
    have h1 : (j + 1) * R ≤ i * R := Nat.mul_le_mul_right _ h
    rw [Nat.add_mul, Nat.one_mul] at h1
    omega
  · left
    have h1 : (i + 1) * R ≤ j * R := Nat.mul_le_mul_right _ h
    rw [Nat.add_mul, Nat.one_mul] at h1
    omega

theorem flipBit_window_same (l : List Byte) (s R pos : Nat) (bit : Fin 8) (hpos : pos < R) :
    ((flipBit l (s + pos) bit).drop s).take R = flipBit ((l.drop s).take R) pos bit := by
  unfold flipBit
  rw [set_window_same l pos _ s R hpos, getD_window l pos s R 0 hpos]

theorem flipBit_window_other (l : List Byte) (n s R : Nat) (bit : Fin 8)
    (h : n < s ∨ s + R ≤ n) :
    ((flipBit l n bit).drop s).take R = (l.drop s).take R := by
  unfold flipBit
  exact set_window_other l n _ s R h

theorem length_flipBit (l : List Byte) (n : Nat) (bit : Fin 8) :
    (flipBit l n bit).length = l.length := by
  unfold flipBit
  exact List.length_set _ _ _

/-- A block-aligned read of block `j` of a committed file whose content was replaced by
`content`, when the record of block `j` in `content` is `record`: the outcome is decided by
`DecryptChunk` on that record. -/
theorem read_record_of (c : GCM) (hseal : c.TagOverhead) (rnd : Nat → List Byte)
    (hrnd : ∀ j, NonceSize ≤ (rnd j).length) (name : String) (data : List Byte) (e : Encryptor)
    (w : World) (hB : 0 < e.blockSize) (hL : 0 < data.length)
    (hkey : validKeySize e.encryptionKey = true)
    (hfresh : w.fs (e.mountPointCipher ++ name) = none)
    (htracker : e.lastChunkMeta.farthestBlockSeen = -1)
    (hfit : blockCount e.blockSize data.length * (e.blockSize + 28) + 8 ≤ 9223372036854775807)
    (w2 : World) (content : List Byte)
    (hw2 : w2.fs (e.mountPointCipher ++ name) = some (.file content))
    (hlen : content.length = blockCount e.blockSize data.length * (e.blockSize + 28) + 8)
    (j : Nat) (hj : j * e.blockSize < data.length) (buf : List Byte)
    (hbuf : buf.length = e.blockSize) :
    (createAndWrite c rnd name data e w).2.1.ReadInBuffer c
        { Handle := { Path := name, Size := data.length },
          Offset := ((j * e.blockSize : Nat) : Int), Data := buf } w2
      = match DecryptChunk c
          (((content.drop (j * (e.blockSize + 28))).take (e.blockSize + 28)).drop NonceSize)
          (((content.drop (j * (e.blockSize + 28))).take (e.blockSize + 28)).take NonceSize)
          e.encryptionKey with
        | .error err =>
          ((0, some err), buf,
            (((w2.log (.openFile (e.mountPointCipher ++ name))).log
              (.readAt (e.mountPointCipher ++ name) (e.blockSize + 28)
                ((j * (e.blockSize + 28) : Nat) : Int))).log
              (.close (e.mountPointCipher ++ name))))
        | .ok plainText =>
          ((min (e.blockSize : Int) ((data.length : Int) - ((j * e.blockSize : Nat) : Int)), none),
            copy buf plainText,
            (((w2.log (.openFile (e.mountPointCipher ++ name))).log
              (.readAt (e.mountPointCipher ++ name) (e.blockSize + 28)
                ((j * (e.blockSize + 28) : Nat) : Int))).log
              (.close (e.mountPointCipher ++ name)))) := by
  obtain ⟨_, h2, _⟩ :=
    createAndWrite_ok c hseal rnd hrnd name data e w hB hL hkey hfresh htracker hfit
  obtain ⟨hN1, _, hNhi⟩ := blockCount_bounds e.blockSize data.length hB hL
  obtain ⟨hiN, hrec, hov, hLmax⟩ := block_index_facts e.blockSize data.length
    (blockCount e.blockSize data.length) j hB hj hNhi hfit
  have hdiv : j * e.blockSize / e.blockSize = j := Nat.mul_div_cancel _ hB
  have hbne : buf ≠ [] := by
    intro h
    rw [h] at hbuf
    simp at hbuf
    omega
  rw [h2]
  have hrb := ReadInBuffer_block c
    { e with
      lastChunkMeta := { farthestBlockSeen := -1, paddingLength := 0 }
      handle := some ⟨e.mountPointCipher ++ name, true⟩ }
    { Handle := { Path := name, Size := data.length },
      Offset := ((j * e.blockSize : Nat) : Int), Data := buf } w2 content (j * e.blockSize)
    hB rfl
    (by show ((j * e.blockSize : Nat) : Int) < (data.length : Int); exact_mod_cast hj)
    (by show (data.length : Int) ≤ 9223372036854775807; exact_mod_cast hLmax)
    hbne (by show j * e.blockSize + buf.length ≤ 9223372036854775807; rw [hbuf]; exact hov)
    hw2
    (by show (j * e.blockSize / e.blockSize + 1) * (e.blockSize + 28) ≤ content.length
        rw [hlen]; exact hrec)
    (by rw [hlen]; exact hfit)
  simp only [hdiv, hbuf] at hrb
  exact hrb

end Blobfuse
namespace Blobfuse

/-! ## Claims on the file format and the logical size -/

theorem demoRnd_length (j : Nat) : NonceSize ≤ (demoRnd j).length := by
  simp [demoRnd, NonceSize]

/-- Claim C2 as stated fails for `L = 0`: nothing is staged, `CommitData` writes no trailer and
the committed file is empty, so its physical size is 0 and not `0 * (B+28) + 8 = 8`. It also
fails when the tracker is not at `-1` as the file is created: after the uncommitted block 1 of
another file, 3 bytes written with `B = 4` give a file of 72 bytes with the trailer at 64,
not of `1 * 32 + 8 = 40` bytes. -/
theorem C2_counterexample :
    (createAndWrite toyGCM demoRnd "f" [] (configured 1048576 testKey) emptyWorld).1 = none
    ∧ (createAndWrite toyGCM demoRnd "f" [] (configured 1048576 testKey) emptyWorld).2.2.fs
        "unit/f" = some (.file [])
    ∧ ([] : List Byte).length ≠ blockCount 1048576 0 * (1048576 + 28) + 8
    ∧ uncommittedBlock.2.2.fs "unit/f" = none
    ∧ (createAndWrite toyGCM demoRnd "f" [1, 2, 3] uncommittedBlock.2.1
        uncommittedBlock.2.2).1 = none
    ∧ (fileContent (createAndWrite toyGCM demoRnd "f" [1, 2, 3]
        uncommittedBlock.2.1 uncommittedBlock.2.2).2.2 "unit/f").length = 72
    ∧ blockCount 4 3 * (4 + 28) + 8 = 40 := by
  decide

/-- Claim C2 (amended to `L > 0` and a tracker at `-1`). Trailer correctness: when the
farthest block seen is `-1` as the file is created (no block staged since `Configure` or since
the last successful `CommitData`; hypothesis `htracker`), after a plaintext of `L > 0` bytes
is written to the fresh file by block-aligned `StageData` calls followed by `CommitData`, the
physical size is `ceil(L/B) * (B+28) + 8` and the big-endian trailer is `ceil(L/B) * B - L`. -/
theorem C2_trailer_correctness (c : GCM) (hseal : c.TagOverhead) (rnd : Nat → List Byte)
    (hrnd : ∀ j, NonceSize ≤ (rnd j).length) (name : String) (data : List Byte) (e : Encryptor)
    (w : World) (hB : 0 < e.blockSize) (hL : 0 < data.length)
    (hkey : validKeySize e.encryptionKey = true)
    (hfresh : w.fs (e.mountPointCipher ++ name) = none)
    (htracker : e.lastChunkMeta.farthestBlockSeen = -1)
    (hfit : blockCount e.blockSize data.length * (e.blockSize + 28) + 8 ≤ 9223372036854775807) :
    (createAndWrite c rnd name data e w).1 = none
    ∧ ∃ content, (createAndWrite c rnd name data e w).2.2.fs (e.mountPointCipher ++ name)
          = some (.file content)
        ∧ content.length = blockCount e.blockSize data.length * (e.blockSize + 28) + 8
        ∧ trailerOf content = blockCount e.blockSize data.length * e.blockSize - data.length :=
  ⟨(createAndWrite_result c hseal rnd hrnd name data e w hB hL hkey hfresh htracker hfit).1,
   (createAndWrite_result c hseal rnd hrnd name data e w hB hL hkey hfresh htracker hfit).2.2⟩

theorem C2_witness :
    (createAndWrite toyGCM demoRnd "f" [1, 2, 3, 4, 5, 6, 7, 8] (configured 4 testKey)
        emptyWorld).1 = none
    ∧ ∃ content, (createAndWrite toyGCM demoRnd "f" [1, 2, 3, 4, 5, 6, 7, 8]
            (configured 4 testKey) emptyWorld).2.2.fs ("unit/" ++ "f") = some (.file content)
        ∧ content.length = blockCount 4 8 * (4 + 28) + 8
        ∧ trailerOf content = blockCount 4 8 * 4 - 8 :=
  C2_trailer_correctness toyGCM toyGCM_tagOverhead demoRnd demoRnd_length "f"
    [1, 2, 3, 4, 5, 6, 7, 8] (configured 4 testKey) emptyWorld (by decide) (by decide)
    (by decide) (by rfl) (by rfl) (by decide)

/-- Claim C3 as stated fails: for `B = 1 MiB` and a plaintext of `9 MiB + 512 KiB = 9 961 472`
bytes, `GetAttr` does not report `10 485 760` and the physical size is not `10 485 848`
(they are `9 961 472` and `10 * (1048576 + 28) + 8 = 10 486 048`). -/
theorem C3_counterexample :
    ((createAndWrite toyGCM demoRnd "f" (List.replicate 9961472 0) (configured 1048576 testKey)
          emptyWorld).2.1.GetAttr "f"
        (createAndWrite toyGCM demoRnd "f" (List.replicate 9961472 0) (configured 1048576 testKey)
          emptyWorld).2.2).1
        ≠ .ok { Size := 10485760, Path := "f", IsDir := false }
    ∧ ¬ ∃ content, (createAndWrite toyGCM demoRnd "f" (List.replicate 9961472 0)
            (configured 1048576 testKey) emptyWorld).2.2.fs ("unit/" ++ "f")
          = some (.file content) ∧ content.length = 10485848 := by
  obtain ⟨_, _, h2, content, h3, h4, _⟩ :=
    scenario_S1 toyGCM toyGCM_tagOverhead demoRnd demoRnd_length "f" (List.replicate 9961472 0)
      (configured 1048576 testKey) emptyWorld rfl (List.length_replicate _ _) (by decide) rfl rfl
  constructor
  · rw [h2]; simp
  · rintro ⟨content2, h5, h6⟩
    have h7 : (configured 1048576 testKey).mountPointCipher ++ "f" = "unit/" ++ "f" := rfl
    rw [h7] at h3
    rw [h3] at h5
    have h8 : content = content2 := Node.file.inj (Option.some.inj h5)
    rw [← h8, h4] at h6
    omega

/-- Claim C3 (amended numbers). Scenario S1: with `B = 1 MiB`, a plaintext of
`9 MiB + 512 KiB = 9 961 472` bytes is staged into a fresh file as 10 block-aligned
`StageData` calls and committed; `GetAttr` then reports the size `9 961 472`, the physical
size is `10 486 048` bytes and the trailer is `524288`. -/
theorem C3_scenario_S1 (c : GCM) (hseal : c.TagOverhead) (rnd : Nat → List Byte)
    (hrnd : ∀ j, NonceSize ≤ (rnd j).length) (name : String) (data : List Byte) (e : Encryptor)
    (w : World) (hB : e.blockSize = 1048576) (hL : data.length = 9961472)
    (hkey : validKeySize e.encryptionKey = true)
    (hfresh : w.fs (e.mountPointCipher ++ name) = none)
    (htracker : e.lastChunkMeta.farthestBlockSeen = -1) :
    (blocksOf e.blockSize data).length = 10
    ∧ (createAndWrite c rnd name data e w).1 = none
    ∧ ((createAndWrite c rnd name data e w).2.1.GetAttr name
        (createAndWrite c rnd name data e w).2.2).1
        = .ok { Size := 9961472, Path := name, IsDir := false }
    ∧ ∃ content, (createAndWrite c rnd name data e w).2.2.fs (e.mountPointCipher ++ name)
          = some (.file content)
        ∧ content.length = 10486048 ∧ trailerOf content = 524288 :=
  scenario_S1 c hseal rnd hrnd name data e w hB hL hkey hfresh htracker

theorem C3_witness :
    (blocksOf (configured 1048576 testKey).blockSize (List.replicate 9961472 0)).length = 10
    ∧ (createAndWrite toyGCM demoRnd "f" (List.replicate 9961472 0) (configured 1048576 testKey)
        emptyWorld).1 = none
    ∧ ((createAndWrite toyGCM demoRnd "f" (List.replicate 9961472 0) (configured 1048576 testKey)
          emptyWorld).2.1.GetAttr "f"
        (createAndWrite toyGCM demoRnd "f" (List.replicate 9961472 0) (configured 1048576 testKey)
          emptyWorld).2.2).1
        = .ok { Size := 9961472, Path := "f", IsDir := false }
    ∧ ∃ content, (createAndWrite toyGCM demoRnd "f" (List.replicate 9961472 0)
            (configured 1048576 testKey) emptyWorld).2.2.fs
            ((configured 1048576 testKey).mountPointCipher ++ "f") = some (.file content)
        ∧ content.length = 10486048 ∧ trailerOf content = 524288 :=
  C3_scenario_S1 toyGCM toyGCM_tagOverhead demoRnd demoRnd_length "f" (List.replicate 9961472 0)
    (configured 1048576 testKey) emptyWorld rfl (List.length_replicate _ _) (by decide) rfl rfl

theorem logicalSizeSpec_fits (P B t : Int) (hP : 0 ≤ P) (hPmax : P ≤ 9223372036854775807)
    (hB : 0 < B) (ht0 : 0 ≤ t) (ht : t ≤ 9223372036854775807) :
    toInt64 (logicalSizeSpec P B t) = logicalSizeSpec P B t := by
  obtain ⟨_, hN0, hNle, hNM⟩ := size_facts P B hP hB
  have h28 : P / (B + 28) * 28 ≤ P / (B + 28) * (B + 28) :=
    Int.mul_le_mul_of_nonneg_left (by omega) hN0
  unfold logicalSizeSpec
  generalize P / (B + 28) = N at *
  generalize N * (B + 28) = M at *
  split
  · exact toInt64_eq _ (by omega) (by omega)
  · exact toInt64_eq _ (by omega) (by omega)

theorem checkForActualFileSize_spec (h : File) (P B : Int) (w : World) (content : List Byte)
    (hP : 0 ≤ P) (hPmax : P ≤ 9223372036854775807) (hB : 0 < B)
    (hBmax : B + 28 ≤ 9223372036854775807)
    (hNmax : P / (B + 28) * (B + 28) + 8 ≤ 9223372036854775807)
    (hopen : h.closed = false) (hfs : w.fs h.name = some (.file content))
    (hlen : (content.length : Int) = P) :
    (checkForActualFileSize h P B w).1
      = (toInt64 (logicalSizeSpec P B (trailerOf content)), none) := by
  rw [checkForActualFileSize_eq h P B w content hP hPmax hB hBmax hNmax hopen hfs hlen]
  unfold logicalSizeSpec
  by_cases hc : P < P / (B + 28) * (B + 28) + 8
  · rw [if_pos hc, if_pos hc]; rfl
  · rw [if_neg hc, if_neg hc]

/-- Claim C4 as stated fails for a trailer of `2^63` or more: for a file of 37 bytes `0xFF`
and `B = 1` the trailer reads `2^64 - 1`, the conversion `int64(...)` makes it `-1`, and
`checkForActualFileSize` returns `37 + 1 - 28 - 8 = 2`, not `P - N*28 - 8 - t = 2 - 2^64`. -/
theorem C4_counterexample :
    (checkForActualFileSize ⟨"unit/f", false⟩ 37 1 (worldWith (List.replicate 37 255))).1
      = (2, none)
    ∧ logicalSizeSpec 37 1 (trailerOf (List.replicate 37 255)) = 2 - 18446744073709551616 := by
  decide

/-- Claim C4 (amended). For a regular file of physical size `P >= 0` and a block size
`B > 0` (with `B + 28` and `N*(B+28) + 8` within `int64`, `N = P / (B+28)`),
`checkForActualFileSize` returns without error the reference value converted to `int64`, that
is `0` when `P < N*(B+28) + 8` and `int64(P - N*28 - 8 - t)` otherwise, `t` being the trailer;
this is `P - N*28 - 8 - t` itself whenever `t < 2^63`. When `P < N*(B+28) + 8` the file is not
read; in particular `N` complete records without a trailer give the size 0. -/
theorem C4_checkForActualFileSize_reference (h : File) (P B : Int) (w : World)
    (content : List Byte)
    (hP : 0 ≤ P) (hPmax : P ≤ 9223372036854775807) (hB : 0 < B)
    (hBmax : B + 28 ≤ 9223372036854775807)
    (hNmax : P / (B + 28) * (B + 28) + 8 ≤ 9223372036854775807)
    (hopen : h.closed = false) (hfs : w.fs h.name = some (.file content))
    (hlen : (content.length : Int) = P) :
    (checkForActualFileSize h P B w).1
        = (toInt64 (logicalSizeSpec P B (trailerOf content)), none)
    ∧ ((trailerOf content : Int) ≤ 9223372036854775807 →
        (checkForActualFileSize h P B w).1 = (logicalSizeSpec P B (trailerOf content), none))
    ∧ (P < P / (B + 28) * (B + 28) + 8 → checkForActualFileSize h P B w = ((0, none), w))
    ∧ (∀ N : Int, P = N * (B + 28) → checkForActualFileSize h P B w = ((0, none), w)) := by
  have hs := checkForActualFileSize_spec h P B w content hP hPmax hB hBmax hNmax hopen hfs hlen
  have he := checkForActualFileSize_eq h P B w content hP hPmax hB hBmax hNmax hopen hfs hlen
  refine ⟨hs, ?_, ?_, ?_⟩
  · intro ht
    rw [hs, logicalSizeSpec_fits P B _ hP hPmax hB (Int.natCast_nonneg _) ht]
  · intro hc
    rw [he, if_pos hc]
  · intro N hN
    have hdiv : P / (B + 28) = N := by
      rw [hN]; exact Int.mul_ediv_cancel _ (by omega)
    rw [he, if_pos (by rw [hdiv, ← hN]; omega)]

theorem C4_witness :
    (checkForActualFileSize ⟨"unit/f", false⟩ 72 4
        (worldWith (List.replicate 64 9 ++ PutUint64 2))).1
        = (toInt64 (logicalSizeSpec 72 4 (trailerOf (List.replicate 64 9 ++ PutUint64 2))), none)
    ∧ ((trailerOf (List.replicate 64 9 ++ PutUint64 2) : Int) ≤ 9223372036854775807 →
        (checkForActualFileSize ⟨"unit/f", false⟩ 72 4
          (worldWith (List.replicate 64 9 ++ PutUint64 2))).1
          = (logicalSizeSpec 72 4 (trailerOf (List.replicate 64 9 ++ PutUint64 2)), none))
    ∧ ((72 : Int) < 72 / (4 + 28) * (4 + 28) + 8 →
        checkForActualFileSize ⟨"unit/f", false⟩ 72 4
          (worldWith (List.replicate 64 9 ++ PutUint64 2))
          = ((0, none), worldWith (List.replicate 64 9 ++ PutUint64 2)))
    ∧ (∀ N : Int, (72 : Int) = N * (4 + 28) →
        checkForActualFileSize ⟨"unit/f", false⟩ 72 4
          (worldWith (List.replicate 64 9 ++ PutUint64 2))
          = ((0, none), worldWith (List.replicate 64 9 ++ PutUint64 2))) :=
  C4_checkForActualFileSize_reference ⟨"unit/f", false⟩ 72 4
    (worldWith (List.replicate 64 9 ++ PutUint64 2)) (List.replicate 64 9 ++ PutUint64 2)
    (by decide) (by decide) (by decide) (by decide) (by decide) rfl rfl (by decide)

theorem short_file_facts (P B : Int) (hP : 0 ≤ P) (hB : 0 < B)
    (hshort : P < 8 ∨ (B + 28 ≤ P ∧ P < B + 28 + 8)) :
    P < P / (B + 28) * (B + 28) + 8 ∧ P / (B + 28) * (B + 28) ≤ P := by
  obtain ⟨_, hN0, hNle, hNM⟩ := size_facts P B hP hB
  have hlt : P < (P / (B + 28) + 1) * (B + 28) := Int.lt_ediv_add_one_mul_self P (by omega)
  refine ⟨?_, hNle⟩
  rcases hshort with h | ⟨h1, h2⟩
  · generalize P / (B + 28) * (B + 28) = M at *
    omega
  · have hN1 : 1 ≤ P / (B + 28) := by
      by_contra hcon
      have h0 : P / (B + 28) = 0 := by omega
      rw [h0] at hlt
      omega
    have hM : 1 * (B + 28) ≤ P / (B + 28) * (B + 28) :=
      Int.mul_le_mul_of_nonneg_right hN1 (by omega)
    generalize P / (B + 28) * (B + 28) = M at *
    omega

/-- Claim C5 as stated fails: a file of 9 zero bytes is shorter than `(B+28) + 8` for
`B = 1 MiB`, yet `GetAttr` reports the size 1 for it (no complete record, so the guard is
`P < 8`, and `9 - 0 - 0 - 8 = 1`). -/
theorem C5_counterexample :
    (9 : Int) < (1048576 + 28) + 8
    ∧ ((configured 1048576 testKey).GetAttr "f" (worldWith (List.replicate 9 0))).1
        = .ok { Size := 1, Path := "f", IsDir := false } := by
  decide

/-- Claim C5 (amended). For every block size `B > 0` and every regular file whose physical
size `P` satisfies `P < 8`, or `B + 28 <= P < (B+28) + 8`, whatever its contents, `GetAttr`
reports the logical size 0. -/
theorem C5_short_files_report_zero (e : Encryptor) (name : String) (w : World)
    (content : List Byte)
    (hfs : w.fs (e.mountPointCipher ++ name) = some (.file content))
    (hB : 0 < e.blockSize) (hBmax : e.blockSize + 44 ≤ 9223372036854775807)
    (hshort : content.length < 8
      ∨ (e.blockSize + 28 ≤ content.length ∧ content.length < e.blockSize + 28 + 8)) :
    (e.GetAttr name w).1 = .ok { Size := 0, Path := name, IsDir := false } := by
  have hlen : content.length ≤ e.blockSize + 36 := by omega
  obtain ⟨hc, hle⟩ := short_file_facts (content.length : Int) (e.blockSize : Int)
    (Int.natCast_nonneg _) (by exact_mod_cast hB)
    (by
      rcases hshort with h | ⟨h1, h2⟩
      · left; exact_mod_cast h
      · right; constructor
        · exact_mod_cast h1
        · exact_mod_cast h2)
  rw [GetAttr_file e name w content hfs hB (by omega) (by omega)
    (by
      have : (content.length : Int) ≤ (e.blockSize : Int) + 36 := by exact_mod_cast hlen
      have hb : (e.blockSize : Int) + 44 ≤ 9223372036854775807 := by exact_mod_cast hBmax
      generalize (content.length : Int) / ((e.blockSize : Int) + 28) * ((e.blockSize : Int) + 28)
        = M at *
      omega),
    if_pos hc]

theorem C5_witness :
    ((configured 4 testKey).GetAttr "f" (worldWith (List.replicate 35 1))).1
      = .ok { Size := 0, Path := "f", IsDir := false } :=
  C5_short_files_report_zero (configured 4 testKey) "f" (worldWith (List.replicate 35 1))
    (List.replicate 35 1) rfl (by decide) (by decide) (by decide)

end Blobfuse

namespace Blobfuse

/-! ## Claims on staging, commit and read -/

/-- Claim C6. Content round trip for block-aligned reads: under the assumption that opening
a sealed block with the configured key gives the block back, after a plaintext `P` of
`L > 0` bytes was written (block-aligned stages and commit), for every block index `i` with
`i*B < L` and every buffer of `B` bytes, `ReadInBuffer` with `handle.Size = L` at the offset
`i*B` succeeds, returns `n = min(B, L - i*B)` and leaves `buf[0:n] = P[i*B : i*B + n]`;
the concatenation of these prefixes over all blocks is `P`. -/
theorem C6_content_round_trip (c : GCM) (hseal : c.TagOverhead) (rnd : Nat → List Byte)
    (hrnd : ∀ j, NonceSize ≤ (rnd j).length) (name : String) (data : List Byte) (e : Encryptor)
    (w : World) (hB : 0 < e.blockSize) (hL : 0 < data.length)
    (hkey : validKeySize e.encryptionKey = true)
    (hopen : c.OpensSealed e.encryptionKey)
    (hfresh : w.fs (e.mountPointCipher ++ name) = none)
    (htracker : e.lastChunkMeta.farthestBlockSeen = -1)
    (hfit : blockCount e.blockSize data.length * (e.blockSize + 28) + 8 ≤ 9223372036854775807) :
    (∀ (w2 : World) (i : Nat) (buf : List Byte),
      w2.fs (e.mountPointCipher ++ name)
        = (createAndWrite c rnd name data e w).2.2.fs (e.mountPointCipher ++ name) →
      i * e.blockSize < data.length → buf.length = e.blockSize →
      ((createAndWrite c rnd name data e w).2.1.ReadInBuffer c
          { Handle := { Path := name, Size := data.length },
            Offset := ((i * e.blockSize : Nat) : Int), Data := buf } w2).1
        = (((min e.blockSize (data.length - i * e.blockSize) : Nat) : Int), none)
      ∧ (((createAndWrite c rnd name data e w).2.1.ReadInBuffer c
          { Handle := { Path := name, Size := data.length },
            Offset := ((i * e.blockSize : Nat) : Int), Data := buf } w2).2.1).take
          (min e.blockSize (data.length - i * e.blockSize))
        = (data.drop (i * e.blockSize)).take (min e.blockSize (data.length - i * e.blockSize)))
    ∧ ((List.range (blockCount e.blockSize data.length)).map fun i =>
        readBlock c (createAndWrite c rnd name data e w).2.1
          { Path := name, Size := data.length } i
          (createAndWrite c rnd name data e w).2.2).flatten = data := by
  have hmin : ∀ i, i * e.blockSize < data.length →
      min (e.blockSize : Int) ((data.length : Int) - ((i * e.blockSize : Nat) : Int))
        = ((min e.blockSize (data.length - i * e.blockSize) : Nat) : Int) := by
    intro i hi
    generalize i * e.blockSize = a at *
    omega
  have hbs : (createAndWrite c rnd name data e w).2.1.blockSize = e.blockSize := by
    rw [(createAndWrite_ok c hseal rnd hrnd name data e w hB hL hkey hfresh htracker hfit).2.1]
  constructor
  · intro w2 i buf hw2 hi hbuf
    obtain ⟨h1, h2⟩ := read_block_after_write c hseal rnd hrnd name data e w hB hL hkey hopen
      hfresh htracker hfit w2 hw2 i hi buf hbuf
    rw [h1, h2, hmin i hi, take_block, take_block_eq]
    exact ⟨rfl, rfl⟩
  · have hmap : ((List.range (blockCount e.blockSize data.length)).map fun i =>
        readBlock c (createAndWrite c rnd name data e w).2.1
          { Path := name, Size := data.length } i
          (createAndWrite c rnd name data e w).2.2) = blocksOf e.blockSize data := by
      unfold blocksOf
      apply List.map_congr_left
      intro i hiN
      rw [List.mem_range] at hiN
      have hiN2 : i < blockCount e.blockSize data.length := hiN
      obtain ⟨hN1, hNlo, _⟩ := blockCount_bounds e.blockSize data.length hB hL
      have hi : i * e.blockSize < data.length := by
        have : i * e.blockSize ≤ (blockCount e.blockSize data.length - 1) * e.blockSize :=
          Nat.mul_le_mul_right _ (by omega)
        omega
      obtain ⟨h1, h2⟩ := read_block_after_write c hseal rnd hrnd name data e w hB hL hkey hopen
        hfresh htracker hfit (createAndWrite c rnd name data e w).2.2 rfl i hi
        (List.replicate e.blockSize 0) (List.length_replicate _ _)
      unfold readBlock
      rw [hbs, h1, h2, hmin i hi]
      simp only [Int.toNat_ofNat]
      exact take_block data e.blockSize i
    rw [hmap, flatten_blocksOf _ _ hB]

theorem C6_witness :
    ((List.range (blockCount (configured 4 testKey).blockSize
          ([1, 2, 3, 4, 5, 6] : List Byte).length)).map fun i =>
        readBlock toyGCM
          (createAndWrite toyGCM demoRnd "f" [1, 2, 3, 4, 5, 6] (configured 4 testKey)
            emptyWorld).2.1
          { Path := "f", Size := (([1, 2, 3, 4, 5, 6] : List Byte).length : Int) } i
          (createAndWrite toyGCM demoRnd "f" [1, 2, 3, 4, 5, 6] (configured 4 testKey)
            emptyWorld).2.2).flatten = [1, 2, 3, 4, 5, 6] :=
  (C6_content_round_trip toyGCM toyGCM_tagOverhead demoRnd demoRnd_length "f"
    [1, 2, 3, 4, 5, 6] (configured 4 testKey) emptyWorld (by decide) (by decide) (by decide)
    (toyGCM_opensSealed _) (by rfl) (by rfl) (by decide)).2

/-- Claim C7, evaluated on the code: when block 1 (one byte, padding 3) is staged before
block 0 (full), `CommitData` writes the trailer 0, the padding of the last call, instead of
the padding 3 of block 1, and `GetAttr` reports 8 bytes for a plaintext of 5; staged in
increasing order, the same blocks give the trailer 3 and the size 5. -/
theorem C7_out_of_order_trailer :
    outOfOrderRun.1 = none
    ∧ trailerOf (fileContent outOfOrderRun.2.2 "unit/f") = 0
    ∧ paddingLengthOf 4 [9] = 3
    ∧ (outOfOrderRun.2.1.GetAttr "f" outOfOrderRun.2.2).1
        = .ok { Size := 8, Path := "f", IsDir := false }
    ∧ inOrderRun.1 = none
    ∧ trailerOf (fileContent inOrderRun.2.2 "unit/f") = 3
    ∧ (inOrderRun.2.1.GetAttr "f" inOrderRun.2.2).1
        = .ok { Size := 5, Path := "f", IsDir := false } := by
  decide

/-- Claim C8. Padding rule of `StageData`: for data of at most `B` bytes the plaintext handed
to `EncryptChunk` has exactly `B` bytes, starts with the data and continues with zero bytes
only; the padding length of the call is `B - len(data)` when `len(data) < B` and 0 when
`len(data) = B`. The record written is the nonce followed by the sealed padded plaintext, and
the padding length is what the call leaves in the tracker. -/
theorem C8_padding_rule (c : GCM) (hseal : c.TagOverhead) (rnd : List Byte) (e : Encryptor)
    (opt : StageDataOptions) (w : World) (path : String) (content : List Byte)
    (hB : 0 < e.blockSize) (hlen : opt.Data.length ≤ e.blockSize)
    (hkey : validKeySize e.encryptionKey = true) (hrnd : NonceSize ≤ rnd.length)
    (hh : e.handle = some ⟨path, false⟩) (hfs : w.fs path = some (.file content))
    (hfit : (opt.Offset / e.blockSize + 1) * (e.blockSize + 28) ≤ 9223372036854775807) :
    (paddedData e.blockSize opt.Data).length = e.blockSize
    ∧ (paddedData e.blockSize opt.Data).take opt.Data.length = opt.Data
    ∧ (paddedData e.blockSize opt.Data).drop opt.Data.length
        = List.replicate (e.blockSize - opt.Data.length) 0
    ∧ paddingLengthOf e.blockSize opt.Data
        = (if opt.Data.length < e.blockSize then (e.blockSize : Int) - (opt.Data.length : Int)
           else 0)
    ∧ (e.StageData c rnd opt w).1 = none
    ∧ (e.StageData c rnd opt w).2.1.lastChunkMeta.paddingLength
        = paddingLengthOf e.blockSize opt.Data
    ∧ (e.StageData c rnd opt w).2.2.trace
        = w.trace ++ [.writeAt path
            (rnd.take NonceSize
              ++ c.Seal e.encryptionKey (rnd.take NonceSize) (paddedData e.blockSize opt.Data))
            ((opt.Offset / e.blockSize * (e.blockSize + 28) : Nat) : Int)] := by
  obtain ⟨_, _, hB63⟩ := fit_facts _ _ hfit
  have hpd := paddedData_eq e.blockSize opt.Data hB63 hlen
  have hpl := paddingLengthOf_eq e.blockSize opt.Data hB63 hlen
  have hs := StageData_ok c hseal rnd e opt w path content hB hlen hkey hrnd hh hfs hfit
  rw [hs, hpd, hpl]
  refine ⟨?_, ?_, ?_, ?_, rfl, rfl, rfl⟩
  · rw [List.length_append, List.length_replicate]; omega
  · exact List.take_left' rfl
  · exact List.drop_left' rfl
  · split <;> omega

theorem C8_witness :
    (paddedData (configured 4 testKey).blockSize [5, 6]).length = (configured 4 testKey).blockSize
    ∧ (paddedData (configured 4 testKey).blockSize [5, 6]).take ([5, 6] : List Byte).length
        = [5, 6]
    ∧ (paddedData (configured 4 testKey).blockSize [5, 6]).drop ([5, 6] : List Byte).length
        = List.replicate ((configured 4 testKey).blockSize - ([5, 6] : List Byte).length) 0
    ∧ paddingLengthOf (configured 4 testKey).blockSize [5, 6] = 2 :=
  ⟨(C8_padding_rule toyGCM toyGCM_tagOverhead (demoRnd 1)
      { configured 4 testKey with handle := some ⟨"unit/f", false⟩ }
      { Name := "f", Offset := 4, Data := [5, 6] } (worldWith []) "unit/f" []
      (by decide) (by decide) (by decide) (by decide) rfl rfl (by decide)).1,
   (C8_padding_rule toyGCM toyGCM_tagOverhead (demoRnd 1)
      { configured 4 testKey with handle := some ⟨"unit/f", false⟩ }
      { Name := "f", Offset := 4, Data := [5, 6] } (worldWith []) "unit/f" []
      (by decide) (by decide) (by decide) (by decide) rfl rfl (by decide)).2.1,
   (C8_padding_rule toyGCM toyGCM_tagOverhead (demoRnd 1)
      { configured 4 testKey with handle := some ⟨"unit/f", false⟩ }
      { Name := "f", Offset := 4, Data := [5, 6] } (worldWith []) "unit/f" []
      (by decide) (by decide) (by decide) (by decide) rfl rfl (by decide)).2.2.1,
   by decide⟩

/-- Claim C9. Record layout of `StageData`: for data of at most `B` bytes, given that the
nonce has 12 bytes and sealing adds the 16-byte tag, `StageData` succeeds (open file, record
end within the `int64` range) and performs exactly one positioned write, at the physical
offset `(offset / B) * (B + 28)`, of exactly `B + 28` bytes: the 12-byte nonce followed by
the sealed block of `B + 16` bytes. -/
theorem C9_record_layout (c : GCM) (hseal : c.TagOverhead) (rnd : List Byte) (e : Encryptor)
    (opt : StageDataOptions) (w : World) (path : String) (content : List Byte)
    (hB : 0 < e.blockSize) (hlen : opt.Data.length ≤ e.blockSize)
    (hkey : validKeySize e.encryptionKey = true) (hrnd : NonceSize ≤ rnd.length)
    (hh : e.handle = some ⟨path, false⟩) (hfs : w.fs path = some (.file content))
    (hfit : (opt.Offset / e.blockSize + 1) * (e.blockSize + 28) ≤ 9223372036854775807) :
    (e.StageData c rnd opt w).1 = none
    ∧ (e.StageData c rnd opt w).2.2.trace
        = w.trace ++ [.writeAt path
            (rnd.take NonceSize
              ++ c.Seal e.encryptionKey (rnd.take NonceSize) (paddedData e.blockSize opt.Data))
            ((opt.Offset / e.blockSize * (e.blockSize + 28) : Nat) : Int)]
    ∧ (rnd.take NonceSize).length = 12
    ∧ (c.Seal e.encryptionKey (rnd.take NonceSize) (paddedData e.blockSize opt.Data)).length
        = e.blockSize + 16
    ∧ (rnd.take NonceSize
        ++ c.Seal e.encryptionKey (rnd.take NonceSize) (paddedData e.blockSize opt.Data)).length
        = e.blockSize + 28
    ∧ (e.StageData c rnd opt w).2.2.fs path
        = some (.file (writeBytes content (opt.Offset / e.blockSize * (e.blockSize + 28))
            (rnd.take NonceSize
              ++ c.Seal e.encryptionKey (rnd.take NonceSize)
                (paddedData e.blockSize opt.Data)))) := by
  obtain ⟨_, _, hB63⟩ := fit_facts _ _ hfit
  have hpd := paddedData_eq e.blockSize opt.Data hB63 hlen
  have hs := StageData_ok c hseal rnd e opt w path content hB hlen hkey hrnd hh hfs hfit
  have hrl := length_recordOf c hseal e.encryptionKey rnd e.blockSize opt.Data hrnd hlen
  have hn : (rnd.take NonceSize).length = 12 := by
    rw [List.length_take]; exact Nat.min_eq_left hrnd
  rw [hs, hpd]
  refine ⟨rfl, rfl, hn, ?_, hrl, ?_⟩
  · rw [hseal, List.length_append, List.length_replicate]
    simp only [AuthTagSize]; omega
  · simp [World.setNode, recordOf]

theorem C9_witness :
    (Encryptor.StageData toyGCM (demoRnd 1)
        { configured 4 testKey with handle := some ⟨"unit/f", false⟩ }
        { Name := "f", Offset := 4, Data := [5, 6] } (worldWith [])).1 = none :=
  (C9_record_layout toyGCM toyGCM_tagOverhead (demoRnd 1)
      { configured 4 testKey with handle := some ⟨"unit/f", false⟩ }
      { Name := "f", Offset := 4, Data := [5, 6] } (worldWith []) "unit/f" []
      (by decide) (by decide) (by decide) (by decide) rfl rfl (by decide)).1

/-- Claim C10. Trailer write of `CommitData`: when a block has been staged (the farthest
block `f` is not negative), `CommitData` succeeds (open file, trailer end within the `int64`
range) and performs exactly one positioned write, of the 8 bytes that encode the tracker's
padding length as a big-endian unsigned 64-bit integer, at the physical offset
`(f + 1) * (B + 28)`, and then closes the file; decoding these 8 bytes with
`binary.BigEndian.Uint64` gives the padding length back for every value in `[0, B]`. -/
theorem C10_trailer_write (e : Encryptor) (w : World) (path : String) (content : List Byte)
    (f p : Nat)
    (hf : e.lastChunkMeta.farthestBlockSeen = (f : Int))
    (hp : e.lastChunkMeta.paddingLength = (p : Int)) (hpB : p ≤ e.blockSize)
    (hh : e.handle = some ⟨path, false⟩) (hfs : w.fs path = some (.file content))
    (hfit : (f + 1) * (e.blockSize + 28) + 8 ≤ 9223372036854775807) :
    (e.CommitData w).1 = none
    ∧ (e.CommitData w).2.2.trace
        = w.trace ++ [.writeAt path (PutUint64 p) (((f + 1) * (e.blockSize + 28) : Nat) : Int),
            .close path]
    ∧ (PutUint64 p).length = 8
    ∧ Uint64 (PutUint64 p) = p
    ∧ (e.CommitData w).2.2.fs path
        = some (.file (writeBytes content ((f + 1) * (e.blockSize + 28)) (PutUint64 p))) := by
  obtain ⟨_, hc2, _⟩ := commit_facts _ _ hfit
  have hp64 : p < 18446744073709551616 := by omega
  have hc := CommitData_ok e w path content f p hf hp hh hfs hfit
  rw [toUint64_natCast p hp64] at hc
  rw [hc]
  refine ⟨rfl, ?_, rfl, Uint64_PutUint64 p hp64, ?_⟩
  · simp [World.log, World.setNode]
  · simp [World.log, World.setNode]

theorem C10_witness :
    (Encryptor.CommitData
        { configured 4 testKey with
          handle := some ⟨"unit/f", false⟩
          lastChunkMeta := { farthestBlockSeen := 1, paddingLength := 3 } }
        (worldWith (List.replicate 64 0))).1 = none
    ∧ Uint64 (PutUint64 3) = 3 :=
  ⟨(C10_trailer_write
      { configured 4 testKey with
        handle := some ⟨"unit/f", false⟩
        lastChunkMeta := { farthestBlockSeen := 1, paddingLength := 3 } }
      (worldWith (List.replicate 64 0)) "unit/f" (List.replicate 64 0) 1 3 rfl rfl (by decide)
      rfl rfl (by decide)).1,
   (C10_trailer_write
      { configured 4 testKey with
        handle := some ⟨"unit/f", false⟩
        lastChunkMeta := { farthestBlockSeen := 1, paddingLength := 3 } }
      (worldWith (List.replicate 64 0)) "unit/f" (List.replicate 64 0) 1 3 rfl rfl (by decide)
      rfl rfl (by decide)).2.2.2.1⟩

end Blobfuse

namespace Blobfuse

/-- Claim C11. `CommitData` with no writes: when no block has been staged since `Configure` or
since the last successful commit (the tracker is `(-1, 0)`), `CommitData` returns no error,
issues no positioned write (the only system call is the deferred close of an open handle),
leaves every file as it is and leaves the tracker at `(-1, 0)`. -/
theorem C11_commit_without_writes (e : Encryptor) (w : World)
    (htracker : e.lastChunkMeta = { farthestBlockSeen := -1, paddingLength := 0 }) :
    (e.CommitData w).1 = none
    ∧ (e.CommitData w).2.1.lastChunkMeta = { farthestBlockSeen := -1, paddingLength := 0 }
    ∧ (e.CommitData w).2.2.fs = w.fs
    ∧ ∃ evs, (e.CommitData w).2.2.trace = w.trace ++ evs ∧ ∀ ev ∈ evs, ∃ p, ev = .close p := by
  have hfar : e.lastChunkMeta.farthestBlockSeen = -1 := by rw [htracker]
  have hc : e.CommitData w
      = (none, { e with handle := (Close e.handle w).1 }, (Close e.handle w).2) := by
    unfold Encryptor.CommitData
    rw [if_neg (by rw [hfar]; simp)]
  rw [hc]
  refine ⟨rfl, htracker, ?_, ?_⟩
  · unfold Close
    cases e.handle with
    | none => rfl
    | some h => dsimp only; split <;> rfl
  · unfold Close
    cases e.handle with
    | none => exact ⟨[], by simp, by simp⟩
    | some h =>
      dsimp only
      split
      · exact ⟨[], by simp, by simp⟩
      · exact ⟨[.close h.name], rfl, by simp⟩

theorem C11_witness :
    (Encryptor.CommitData { configured 4 testKey with handle := some ⟨"unit/f", false⟩ }
      (worldWith [1, 2, 3])).1 = none
    ∧ (Encryptor.CommitData { configured 4 testKey with handle := some ⟨"unit/f", false⟩ }
      (worldWith [1, 2, 3])).2.2.fs = (worldWith [1, 2, 3]).fs :=
  ⟨(C11_commit_without_writes { configured 4 testKey with handle := some ⟨"unit/f", false⟩ }
      (worldWith [1, 2, 3]) rfl).1,
   (C11_commit_without_writes { configured 4 testKey with handle := some ⟨"unit/f", false⟩ }
      (worldWith [1, 2, 3]) rfl).2.2.1⟩

/-- Claim C12. Range check of `ReadInBuffer`: for every handle and offset with
`offset > handle.Size` the call returns the length 0 and the error `ERANGE`, and it neither
opens nor reads the ciphertext file nor touches the buffer; for `offset = handle.Size` (an
`int64` for which `offset + len(buf)` does not overflow) it returns `(0, nil)`, again without
any system call. -/
theorem C12_range_check (c : GCM) (e : Encryptor) (options : ReadInBufferOptions) (w : World) :
    (options.Offset > options.Handle.Size →
      e.ReadInBuffer c options w = ((0, some .ERANGE), options.Data, w))
    ∧ (options.Offset = options.Handle.Size → -9223372036854775808 ≤ options.Offset →
        options.Offset + options.Data.length ≤ 9223372036854775807 →
        e.ReadInBuffer c options w = ((0, none), options.Data, w)) := by
  constructor
  · intro h
    unfold Encryptor.ReadInBuffer
    rw [if_pos h]
  · intro h hmin hmax
    have h1 : ¬ (options.Offset > options.Handle.Size) := by omega
    have h2 : toInt64 (options.Offset + (options.Data.length : Int))
        = options.Offset + (options.Data.length : Int) := toInt64_eq _ (by omega) (by omega)
    have h3 : toInt64 (options.Handle.Size - options.Offset) = 0 := by
      rw [h, sub_self]; rfl
    have h4 : (if options.Handle.Size < options.Offset + (options.Data.length : Int) then
        (0 : Int) else (options.Data.length : Int)) = 0 := by
      split <;> omega
    unfold Encryptor.ReadInBuffer
    simp only [h1, if_false, h2, h3, h4, if_true]

theorem C12_witness :
    Encryptor.ReadInBuffer toyGCM (configured 4 testKey)
        { Handle := { Path := "f", Size := 6 }, Offset := 7, Data := [0, 0, 0, 0] } emptyWorld
        = ((0, some .ERANGE), [0, 0, 0, 0], emptyWorld)
    ∧ Encryptor.ReadInBuffer toyGCM (configured 4 testKey)
        { Handle := { Path := "f", Size := 6 }, Offset := 6, Data := [0, 0, 0, 0] } emptyWorld
        = ((0, none), [0, 0, 0, 0], emptyWorld) :=
  ⟨(C12_range_check toyGCM (configured 4 testKey)
      { Handle := { Path := "f", Size := 6 }, Offset := 7, Data := [0, 0, 0, 0] } emptyWorld).1
      (by decide),
   (C12_range_check toyGCM (configured 4 testKey)
      { Handle := { Path := "f", Size := 6 }, Offset := 6, Data := [0, 0, 0, 0] } emptyWorld).2
      rfl (by decide) (by decide)⟩

/-- Claim C13. Length clamp of `ReadInBuffer`: for every call with
`0 <= offset <= handle.Size` (and `offset + len(buf)` within `int64`) that returns no error, the
returned length is exactly `min(len(buf), handle.Size - offset)`; when that value is 0 the call
returns `(0, nil)` and leaves the buffer and the world (no system call) as they are. -/
theorem C13_length_clamp (c : GCM) (e : Encryptor) (options : ReadInBufferOptions) (w : World)
    (h0 : 0 ≤ options.Offset) (hle : options.Offset ≤ options.Handle.Size)
    (hmax : options.Handle.Size ≤ 9223372036854775807)
    (hov : options.Offset + options.Data.length ≤ 9223372036854775807) :
    ((e.ReadInBuffer c options w).1.2 = none →
      (e.ReadInBuffer c options w).1.1
        = min (options.Data.length : Int) (options.Handle.Size - options.Offset))
    ∧ (min (options.Data.length : Int) (options.Handle.Size - options.Offset) = 0 →
      e.ReadInBuffer c options w = ((0, none), options.Data, w)) := by
  have hlen : (0 : Int) ≤ (options.Data.length : Int) := Int.natCast_nonneg _
  have h2 : toInt64 (options.Offset + (options.Data.length : Int))
      = options.Offset + (options.Data.length : Int) := toInt64_eq _ (by omega) (by omega)
  have h3 : toInt64 (options.Handle.Size - options.Offset)
      = options.Handle.Size - options.Offset := toInt64_eq _ (by omega) (by omega)
  apply ReadInBuffer_length c e options w
  · rw [h2, h3]
    split <;> omega
  · omega

theorem C13_witness :
    (Encryptor.ReadInBuffer toyGCM sixByteFile.2.1
        { Handle := { Path := "f", Size := 6 }, Offset := 4, Data := [0, 0, 0, 0] }
        sixByteFile.2.2).1.1 = min ((([0, 0, 0, 0] : List Byte).length : Nat) : Int) (6 - 4) :=
  (C13_length_clamp toyGCM sixByteFile.2.1
    { Handle := { Path := "f", Size := 6 }, Offset := 4, Data := [0, 0, 0, 0] }
    sixByteFile.2.2 (by decide) (by decide) (by decide) (by decide)).1 (by decide)

/-- Claim C14 as stated fails: in the committed six-byte file with `B = 4`, the read at the
offset 1 with a buffer of 4 bytes succeeds with `n = 4` and leaves `buf = [1,2,3,4]`, the
plaintext of block 0 from its position 0; the block's plaintext from the position `1 mod 4`
onward is `[2,3,4]`. The read at the offset 5 leaves `buf[0:1] = [5]`, not `[6]`. -/
theorem C14_counterexample :
    (Encryptor.ReadInBuffer toyGCM sixByteFile.2.1
        { Handle := { Path := "f", Size := 6 }, Offset := 1, Data := [0, 0, 0, 0] }
        sixByteFile.2.2).1 = (4, none)
    ∧ (Encryptor.ReadInBuffer toyGCM sixByteFile.2.1
        { Handle := { Path := "f", Size := 6 }, Offset := 1, Data := [0, 0, 0, 0] }
        sixByteFile.2.2).2.1 = [1, 2, 3, 4]
    ∧ (([1, 2, 3, 4, 5, 6] : List Byte).take 4).drop (1 % 4) = [2, 3, 4]
    ∧ ([1, 2, 3, 4] : List Byte).take 3 ≠ [2, 3, 4]
    ∧ (Encryptor.ReadInBuffer toyGCM sixByteFile.2.1
        { Handle := { Path := "f", Size := 6 }, Offset := 5, Data := [0, 0, 0, 0] }
        sixByteFile.2.2).1 = (1, none)
    ∧ (Encryptor.ReadInBuffer toyGCM sixByteFile.2.1
        { Handle := { Path := "f", Size := 6 }, Offset := 5, Data := [0, 0, 0, 0] }
        sixByteFile.2.2).2.1 = [5, 6, 0, 0] := by
  decide

/-- Claim C14 (amended). Reads at arbitrary offsets: in a file of `L > 0` bytes written by
block-aligned `StageData` calls and `CommitData`, for every offset `o < L` (not necessarily a
multiple of `B`) and every non-empty buffer, `ReadInBuffer` succeeds with
`n = min(len(buf), L - o)`, reads only the one record of the block `o / B` containing the
offset (one `ReadAt` of `B + 28` bytes at `(o / B) * (B + 28)`), and copies into `buf` the
zero-padded plaintext of that block from the block's position 0, not from `o mod B`. -/
theorem C14_read_at_arbitrary_offset (c : GCM) (hseal : c.TagOverhead) (rnd : Nat → List Byte)
    (hrnd : ∀ j, NonceSize ≤ (rnd j).length) (name : String) (data : List Byte) (e : Encryptor)
    (w : World) (hB : 0 < e.blockSize) (hL : 0 < data.length)
    (hkey : validKeySize e.encryptionKey = true)
    (hopen : c.OpensSealed e.encryptionKey)
    (hfresh : w.fs (e.mountPointCipher ++ name) = none)
    (htracker : e.lastChunkMeta.farthestBlockSeen = -1)
    (hfit : blockCount e.blockSize data.length * (e.blockSize + 28) + 8 ≤ 9223372036854775807)
    (o : Nat) (ho : o < data.length) (buf : List Byte) (hbuf : buf ≠ [])
    (hov : o + buf.length ≤ 9223372036854775807) :
    (createAndWrite c rnd name data e w).2.1.ReadInBuffer c
        { Handle := { Path := name, Size := data.length }, Offset := (o : Int), Data := buf }
        (createAndWrite c rnd name data e w).2.2
      = ((min (buf.length : Int) ((data.length : Int) - (o : Int)), none),
          copy buf ((data.drop (o / e.blockSize * e.blockSize)).take e.blockSize
            ++ List.replicate
              (e.blockSize
                - ((data.drop (o / e.blockSize * e.blockSize)).take e.blockSize).length) 0),
          (((createAndWrite c rnd name data e w).2.2.log
              (.openFile (e.mountPointCipher ++ name))).log
            (.readAt (e.mountPointCipher ++ name) (e.blockSize + 28)
              ((o / e.blockSize * (e.blockSize + 28) : Nat) : Int))).log
            (.close (e.mountPointCipher ++ name))) :=
  read_after_write c hseal rnd hrnd name data e w hB hL hkey hopen hfresh htracker hfit _ rfl o
    ho buf hbuf hov

theorem C14_witness :
    Encryptor.ReadInBuffer toyGCM
        (createAndWrite toyGCM demoRnd "f" [1, 2, 3, 4, 5, 6] (configured 4 testKey)
          emptyWorld).2.1
        { Handle := { Path := "f", Size := (([1, 2, 3, 4, 5, 6] : List Byte).length : Nat) },
          Offset := ((5 : Nat) : Int), Data := [0, 0, 0, 0] }
        (createAndWrite toyGCM demoRnd "f" [1, 2, 3, 4, 5, 6] (configured 4 testKey)
          emptyWorld).2.2
      = ((min ((([0, 0, 0, 0] : List Byte).length : Nat) : Int)
            (((([1, 2, 3, 4, 5, 6] : List Byte).length : Nat) : Int) - ((5 : Nat) : Int)), none),
          copy [0, 0, 0, 0]
            (((([1, 2, 3, 4, 5, 6] : List Byte).drop
                  (5 / (configured 4 testKey).blockSize * (configured 4 testKey).blockSize)).take
                (configured 4 testKey).blockSize)
              ++ List.replicate
                ((configured 4 testKey).blockSize
                  - ((([1, 2, 3, 4, 5, 6] : List Byte).drop
                      (5 / (configured 4 testKey).blockSize
                        * (configured 4 testKey).blockSize)).take
                    (configured 4 testKey).blockSize).length) 0),
          (((createAndWrite toyGCM demoRnd "f" [1, 2, 3, 4, 5, 6] (configured 4 testKey)
                emptyWorld).2.2.log
              (.openFile ((configured 4 testKey).mountPointCipher ++ "f"))).log
            (.readAt ((configured 4 testKey).mountPointCipher ++ "f")
              ((configured 4 testKey).blockSize + 28)
              ((5 / (configured 4 testKey).blockSize * ((configured 4 testKey).blockSize + 28)
                : Nat) : Int))).log
            (.close ((configured 4 testKey).mountPointCipher ++ "f"))) :=
  C14_read_at_arbitrary_offset toyGCM toyGCM_tagOverhead demoRnd demoRnd_length "f"
    [1, 2, 3, 4, 5, 6] (configured 4 testKey) emptyWorld (by decide) (by decide) (by decide)
    (toyGCM_opensSealed _) (by rfl) (by rfl) (by decide) 5 (by decide) [0, 0, 0, 0] (by decide)
    (by decide)

/-- Claim C15. Tag authentication: in a committed file of `L > 0` bytes written with the key
`k`, let one bit (`bit` of the byte `pos < B + 28`: nonce, ciphertext or tag) of the record of
block `i` be inverted. Under the assumption on the AEAD (AES-GCM is not part of the repository)
that `Open` under `k` rejects that altered record, `ReadInBuffer` at the offset `i * B` fails
with the decryption error, returns the length 0 and leaves the buffer as it was; the read of
every other block `j` still succeeds and gives the original data `data[j*B : (j+1)*B]`. -/
theorem C15_tag_authentication (c : GCM) (hseal : c.TagOverhead) (rnd : Nat → List Byte)
    (hrnd : ∀ j, NonceSize ≤ (rnd j).length) (name : String) (data : List Byte) (e : Encryptor)
    (w : World) (hB : 0 < e.blockSize) (hL : 0 < data.length)
    (hkey : validKeySize e.encryptionKey = true)
    (hopen : c.OpensSealed e.encryptionKey)
    (hfresh : w.fs (e.mountPointCipher ++ name) = none)
    (htracker : e.lastChunkMeta.farthestBlockSeen = -1)
    (hfit : blockCount e.blockSize data.length * (e.blockSize + 28) + 8 ≤ 9223372036854775807)
    (i pos : Nat) (bit : Fin 8) (hi : i * e.blockSize < data.length)
    (hpos : pos < e.blockSize + 28)
    (hreject : c.Open e.encryptionKey
        ((flipBit (recordOf c e.encryptionKey (rnd i) e.blockSize
            ((data.drop (i * e.blockSize)).take e.blockSize)) pos bit).take NonceSize)
        ((flipBit (recordOf c e.encryptionKey (rnd i) e.blockSize
            ((data.drop (i * e.blockSize)).take e.blockSize)) pos bit).drop NonceSize) = none)
    (w2 : World)
    (hw2 : w2.fs (e.mountPointCipher ++ name)
      = some (.file (flipBit
          (fileContent (createAndWrite c rnd name data e w).2.2 (e.mountPointCipher ++ name))
          (i * (e.blockSize + 28) + pos) bit)))
    (buf : List Byte) (hbuf : buf.length = e.blockSize) :
    ((createAndWrite c rnd name data e w).2.1.ReadInBuffer c
        { Handle := { Path := name, Size := data.length },
          Offset := ((i * e.blockSize : Nat) : Int), Data := buf } w2).1
      = (0, some .AuthError)
    ∧ ((createAndWrite c rnd name data e w).2.1.ReadInBuffer c
        { Handle := { Path := name, Size := data.length },
          Offset := ((i * e.blockSize : Nat) : Int), Data := buf } w2).2.1 = buf
    ∧ ∀ j, j ≠ i → j * e.blockSize < data.length →
      ((createAndWrite c rnd name data e w).2.1.ReadInBuffer c
          { Handle := { Path := name, Size := data.length },
            Offset := ((j * e.blockSize : Nat) : Int), Data := buf } w2).1
        = (min (e.blockSize : Int) ((data.length : Int) - ((j * e.blockSize : Nat) : Int)), none)
      ∧ (((createAndWrite c rnd name data e w).2.1.ReadInBuffer c
          { Handle := { Path := name, Size := data.length },
            Offset := ((j * e.blockSize : Nat) : Int), Data := buf } w2).2.1).take
          (min e.blockSize (data.length - j * e.blockSize))
        = (data.drop (j * e.blockSize)).take e.blockSize := by
  obtain ⟨_, _, h3⟩ :=
    createAndWrite_ok c hseal rnd hrnd name data e w hB hL hkey hfresh htracker hfit
  obtain ⟨_, _, hNhi⟩ := blockCount_bounds e.blockSize data.length hB hL
  have hreclen := length_recordsFrom c hseal e.encryptionKey rnd e.blockSize hrnd
    (blocksOf e.blockSize data) 0 (length_le_of_mem_blocksOf _ _)
  rw [length_blocksOf] at hreclen
  have hfc : fileContent (createAndWrite c rnd name data e w).2.2 (e.mountPointCipher ++ name)
      = recordsFrom c e.encryptionKey rnd e.blockSize (blocksOf e.blockSize data) 0
        ++ PutUint64 (blockCount e.blockSize data.length * e.blockSize - data.length) := by
    unfold fileContent
    rw [h3]
  rw [hfc] at hw2
  have hlen1 : (flipBit (recordsFrom c e.encryptionKey rnd e.blockSize
        (blocksOf e.blockSize data) 0
        ++ PutUint64 (blockCount e.blockSize data.length * e.blockSize - data.length))
        (i * (e.blockSize + 28) + pos) bit).length
      = blockCount e.blockSize data.length * (e.blockSize + 28) + 8 := by
    rw [length_flipBit, List.length_append, length_PutUint64, hreclen]
  have hrecord : ∀ j, j * e.blockSize < data.length →
      ((recordsFrom c e.encryptionKey rnd e.blockSize (blocksOf e.blockSize data) 0
          ++ PutUint64 (blockCount e.blockSize data.length * e.blockSize - data.length)).drop
          (j * (e.blockSize + 28))).take (e.blockSize + 28)
        = recordOf c e.encryptionKey (rnd j) e.blockSize
            ((data.drop (j * e.blockSize)).take e.blockSize) := by
    intro j hj
    have hjN := (block_index_facts e.blockSize data.length
      (blockCount e.blockSize data.length) j hB hj hNhi hfit).1
    have hrec2 := record_at c hseal e.encryptionKey rnd e.blockSize hrnd
      (PutUint64 (blockCount e.blockSize data.length * e.blockSize - data.length))
      (blocksOf e.blockSize data) 0 j (length_le_of_mem_blocksOf _ _)
      (by rw [length_blocksOf]; exact hjN)
    rw [Nat.zero_add, getD_blocksOf _ _ _ hjN] at hrec2
    exact hrec2
  have hread := read_record_of c hseal rnd hrnd name data e w hB hL hkey hfresh htracker hfit
    w2 _ hw2 hlen1
  have hbad := hread i hi buf hbuf
  rw [flipBit_window_same _ _ _ _ _ hpos, hrecord i hi] at hbad
  have hdec : DecryptChunk c
      ((flipBit (recordOf c e.encryptionKey (rnd i) e.blockSize
          ((data.drop (i * e.blockSize)).take e.blockSize)) pos bit).drop NonceSize)
      ((flipBit (recordOf c e.encryptionKey (rnd i) e.blockSize
          ((data.drop (i * e.blockSize)).take e.blockSize)) pos bit).take NonceSize)
      e.encryptionKey = .error .AuthError := by
    unfold DecryptChunk
    rw [if_pos hkey, hreject]
  rw [hdec] at hbad
  refine ⟨by rw [hbad], by rw [hbad], ?_⟩
  intro j hji hj
  have hgood := hread j hj buf hbuf
  rw [flipBit_window_other _ _ _ _ _ (window_disjoint i j pos _ hpos hji), hrecord j hj,
    DecryptChunk_recordOf c e.encryptionKey (rnd j) e.blockSize _ hopen hkey (hrnd j)] at hgood
  rw [hgood]
  refine ⟨rfl, ?_⟩
  show (copy buf _).take _ = _
  rw [copy_full]
  · exact take_block data e.blockSize j
  · rw [hbuf, List.length_append, List.length_replicate, List.length_take, List.length_drop]
    omega

theorem C15_witness :
    (Encryptor.ReadInBuffer toyGCM
        (createAndWrite toyGCM demoRnd "f" [1, 2, 3, 4, 5, 6] (configured 4 testKey)
          emptyWorld).2.1
        { Handle := { Path := "f", Size := (([1, 2, 3, 4, 5, 6] : List Byte).length : Nat) },
          Offset := ((1 * (configured 4 testKey).blockSize : Nat) : Int),
          Data := [0, 0, 0, 0] }
        (worldWith (flipBit
          (fileContent (createAndWrite toyGCM demoRnd "f" [1, 2, 3, 4, 5, 6]
            (configured 4 testKey) emptyWorld).2.2 ((configured 4 testKey).mountPointCipher ++ "f"))
          (1 * ((configured 4 testKey).blockSize + 28) + 13) 0))).1
      = (0, some .AuthError) :=
  (C15_tag_authentication toyGCM toyGCM_tagOverhead demoRnd demoRnd_length "f"
    [1, 2, 3, 4, 5, 6] (configured 4 testKey) emptyWorld (by decide) (by decide) (by decide)
    (toyGCM_opensSealed _) (by rfl) (by rfl) (by decide) 1 13 0 (by decide) (by decide)
    (by decide) (worldWith _) (by rfl) [0, 0, 0, 0] (by rfl)).1

end Blobfuse
namespace Blobfuse

/-- Claim C16, evaluated on the code: `Configure` checks that the configured key is not the
empty string and that it is valid standard base64, and nothing else. For the key `AAAA` it
returns no error and leaves a decoded key of 3 bytes, which is none of 16, 24, 32, and the next
`StageData` fails with the key-size error of `aes.NewCipher`; for the key of one line feed it
returns no error and leaves an empty key. It fails for the empty key and for a key that is not
base64, and it accepts the 32-byte key of the test suite. -/
theorem C16_short_key_accepted :
    (NewexternalComponent.Configure (testConfig "AAAA")).1 = none
    ∧ (NewexternalComponent.Configure (testConfig "AAAA")).2.encryptionKey = [0, 0, 0]
    ∧ validKeySize (NewexternalComponent.Configure (testConfig "AAAA")).2.encryptionKey = false
    ∧ (Encryptor.StageData toyGCM (demoRnd 0)
        ((NewexternalComponent.Configure (testConfig "AAAA")).2.CreateFile "f" emptyWorld).2.1
        { Name := "f", Offset := 0, Data := [1] }
        ((NewexternalComponent.Configure (testConfig "AAAA")).2.CreateFile "f" emptyWorld).2.2).1
      = some .KeySizeError
    ∧ (NewexternalComponent.Configure (testConfig "\n")).1 = none
    ∧ (NewexternalComponent.Configure (testConfig "\n")).2.encryptionKey = []
    ∧ (NewexternalComponent.Configure (testConfig "")).1 = some .KeyNotSet
    ∧ (NewexternalComponent.Configure (testConfig "not base64")).1 = some .CorruptInput
    ∧ (NewexternalComponent.Configure
        (testConfig "zGrju7FZlG/kcf+tQzI/j9Cp5N2eWru8Euf9WPtqygc=")).1 = none
    ∧ (NewexternalComponent.Configure
        (testConfig "zGrju7FZlG/kcf+tQzI/j9Cp5N2eWru8Euf9WPtqygc=")).2.encryptionKey.length
      = 32 := by
  decide

theorem ExtendDirName_data (name : String) :
    (ExtendDirName name).data
      = if name.data.getLast? = some (Char.ofNat 47) then name.data
        else name.data ++ [Char.ofNat 47] := by
  unfold ExtendDirName
  by_cases h : name.data.getLast? = some (Char.ofNat 47)
  · have hne : name ≠ "" := by
      intro h0
      rw [h0] at h
      simp at h
    rw [if_neg (by simp [hne, h]), if_pos h]
  · rw [if_pos (Or.inr h), if_neg h]
    rfl

theorem formatListDirName_data (path : String) :
    (formatListDirName path).data
      = if path.data = [Char.ofNat 47] then []
        else if path.data = [] then []
        else if path.data.getLast? = some (Char.ofNat 47) then path.data
        else path.data ++ [Char.ofNat 47] := by
  unfold formatListDirName
  by_cases h1 : path = "/"
  · rw [if_pos h1, if_pos (by rw [h1])]
  · have h1d : path.data ≠ [Char.ofNat 47] := fun h => h1 (String.ext h)
    rw [if_neg h1, if_neg h1d]
    by_cases h2 : path = ""
    · rw [if_neg (by simp [h2]), if_pos (by rw [h2]), h2]
    · have h2d : path.data ≠ [] := fun h => h2 (String.ext h)
      rw [if_pos h2, if_neg h2d, ExtendDirName_data]

/-- Claim C17. Directory-name normalisation: `formatListDirName` maps `/` to the empty string
and the empty string to itself, and maps every other name to that name extended with a
trailing `/` (unchanged if it already ends with one); hence its result is always either empty
or ends with `/`, and applying it twice gives the same result as applying it once. -/
theorem C17_formatListDirName :
    formatListDirName "/" = ""
    ∧ formatListDirName "" = ""
    ∧ (∀ path : String, path ≠ "/" → path ≠ "" →
        formatListDirName path
          = if path.data.getLast? = some (Char.ofNat 47) then path else path ++ "/")
    ∧ (∀ path : String, formatListDirName path = ""
        ∨ (formatListDirName path).data.getLast? = some (Char.ofNat 47))
    ∧ (∀ path : String, formatListDirName (formatListDirName path) = formatListDirName path) := by
  refine ⟨by decide, by decide, ?_, ?_, ?_⟩
  · intro path h1 h2
    have h1d : path.data ≠ [Char.ofNat 47] := fun h => h1 (String.ext h)
    have h2d : path.data ≠ [] := fun h => h2 (String.ext h)
    apply String.ext
    rw [formatListDirName_data, if_neg h1d, if_neg h2d]
    split
    · rfl
    · rfl
  · intro path
    by_cases h1 : path.data = [Char.ofNat 47]
    · left
      apply String.ext
      rw [formatListDirName_data, if_pos h1]
    · by_cases h2 : path.data = []
      · left
        apply String.ext
        rw [formatListDirName_data, if_neg h1, if_pos h2]
      · right
        rw [formatListDirName_data, if_neg h1, if_neg h2]
        split
        · assumption
        · simp
  · intro path
    apply String.ext
    rw [formatListDirName_data (formatListDirName path)]
    by_cases h1 : path.data = [Char.ofNat 47]
    · have h : (formatListDirName path).data = [] := by
        rw [formatListDirName_data, if_pos h1]
      rw [h]
      rfl
    · by_cases h2 : path.data = []
      · have h : (formatListDirName path).data = [] := by
          rw [formatListDirName_data, if_neg h1, if_pos h2]
        rw [h]
        rfl
      · by_cases h3 : path.data.getLast? = some (Char.ofNat 47)
        · have h : (formatListDirName path).data = path.data := by
            rw [formatListDirName_data, if_neg h1, if_neg h2, if_pos h3]
          rw [h, if_neg h1, if_neg h2, if_pos h3]
        · have h : (formatListDirName path).data = path.data ++ [Char.ofNat 47] := by
            rw [formatListDirName_data, if_neg h1, if_neg h2, if_neg h3]
          have hne : path.data ++ [Char.ofNat 47] ≠ [Char.ofNat 47] := by
            intro hc
            have := congrArg List.length hc
            simp at this
            exact h2 (List.length_eq_zero.mp this)
          rw [h, if_neg hne, if_neg (by simp), if_pos (by simp)]

theorem C17_witness : formatListDirName "dir" = "dir" ++ "/" :=
  (C17_formatListDirName.2.2.1 "dir" (by decide) (by decide)).trans (by decide)

end Blobfuse
namespace Blobfuse

/-! ## Claims on the tracker, the write ranges and the sizes -/

/-- Claim C24, evaluated on the code: with `B = 4` and the tracker `(1, 3)` left by the stage of
block 1 (one byte), the successful stage of block 0 (four bytes, padding 0), whose block index
is not greater than the farthest block seen, leaves the farthest block at 1 and sets the
padding length to 0: the padding length is not left unchanged. When the block index is
greater (block 2 with two bytes after that), the farthest block becomes that index and the
padding length that of the call. -/
theorem C24_padding_overwritten :
    (stageCalls toyGCM "f" [(1, [9], demoRnd 1)]
        ((configured 4 testKey).CreateFile "f" emptyWorld).2.1
        ((configured 4 testKey).CreateFile "f" emptyWorld).2.2).1 = none
    ∧ (stageCalls toyGCM "f" [(1, [9], demoRnd 1)]
        ((configured 4 testKey).CreateFile "f" emptyWorld).2.1
        ((configured 4 testKey).CreateFile "f" emptyWorld).2.2).2.1.lastChunkMeta
      = { farthestBlockSeen := 1, paddingLength := 3 }
    ∧ (stageCalls toyGCM "f" [(1, [9], demoRnd 1), (0, [1, 2, 3, 4], demoRnd 0)]
        ((configured 4 testKey).CreateFile "f" emptyWorld).2.1
        ((configured 4 testKey).CreateFile "f" emptyWorld).2.2).1 = none
    ∧ (stageCalls toyGCM "f" [(1, [9], demoRnd 1), (0, [1, 2, 3, 4], demoRnd 0)]
        ((configured 4 testKey).CreateFile "f" emptyWorld).2.1
        ((configured 4 testKey).CreateFile "f" emptyWorld).2.2).2.1.lastChunkMeta
      = { farthestBlockSeen := 1, paddingLength := 0 }
    ∧ (stageCalls toyGCM "f"
        [(1, [9], demoRnd 1), (0, [1, 2, 3, 4], demoRnd 0), (2, [7, 8], demoRnd 2)]
        ((configured 4 testKey).CreateFile "f" emptyWorld).2.1
        ((configured 4 testKey).CreateFile "f" emptyWorld).2.2).2.1.lastChunkMeta
      = { farthestBlockSeen := 2, paddingLength := 2 } := by
  decide

theorem createBoth_fresh (e : Encryptor) (a b : String) (w : World)
    (ha : w.fs (e.mountPointCipher ++ a) = none) (hb : w.fs (e.mountPointCipher ++ b) = none)
    (hab : e.mountPointCipher ++ b ≠ e.mountPointCipher ++ a) :
    createBoth e a b w
      = ({ e with handle := some ⟨e.mountPointCipher ++ b, false⟩ },
          (((w.log (.openFile (e.mountPointCipher ++ a))).setNode (e.mountPointCipher ++ a)
            (.file [])).log (.openFile (e.mountPointCipher ++ b))).setNode
            (e.mountPointCipher ++ b) (.file [])) := by
  unfold createBoth
  rw [CreateFile_fresh e a w ha]
  have h2 := CreateFile_fresh { e with handle := some ⟨e.mountPointCipher ++ a, false⟩ } b
    ((w.log (.openFile (e.mountPointCipher ++ a))).setNode (e.mountPointCipher ++ a) (.file []))
    (by simp [World.setNode, World.log, hab, hb])
  rw [h2]

/-- Claim C28. The file name passed to `StageData` does not influence what is written: two
calls that differ only in `opt.Name` have the same result, the same next state (tracker
included) and the same effect on the world, the write going to the handle installed by the
most recent `CreateFile`. So after `CreateFile(a)` then `CreateFile(b)` of two fresh files,
`StageData` with `Name = a` succeeds and writes its record into the file of `b`, and the
following `CommitData` (which takes no name in the model: the method does not read its
options) writes the trailer there too; the file of `a` stays empty. -/
theorem C28_name_not_used (c : GCM) (hseal : c.TagOverhead) (rnd : List Byte) (e : Encryptor)
    (a b : String) (offset : Nat) (data : List Byte) (w : World)
    (hB : 0 < e.blockSize) (hlen : data.length ≤ e.blockSize)
    (hkey : validKeySize e.encryptionKey = true) (hrnd : NonceSize ≤ rnd.length)
    (htracker : e.lastChunkMeta.farthestBlockSeen = -1)
    (ha : w.fs (e.mountPointCipher ++ a) = none) (hb : w.fs (e.mountPointCipher ++ b) = none)
    (hab : e.mountPointCipher ++ b ≠ e.mountPointCipher ++ a)
    (hfit : (offset / e.blockSize + 1) * (e.blockSize + 28) + 8 ≤ 9223372036854775807) :
    (∀ (e1 : Encryptor) (w1 : World) (name1 name2 : String),
      e1.StageData c rnd { Name := name1, Offset := offset, Data := data } w1
        = e1.StageData c rnd { Name := name2, Offset := offset, Data := data } w1)
    ∧ ((createBoth e a b w).1.StageData c rnd { Name := a, Offset := offset, Data := data }
        (createBoth e a b w).2).1 = none
    ∧ ((createBoth e a b w).1.StageData c rnd { Name := a, Offset := offset, Data := data }
        (createBoth e a b w).2).2.2.fs (e.mountPointCipher ++ a) = some (.file [])
    ∧ ((createBoth e a b w).1.StageData c rnd { Name := a, Offset := offset, Data := data }
        (createBoth e a b w).2).2.2.fs (e.mountPointCipher ++ b)
      = some (.file (writeBytes [] (offset / e.blockSize * (e.blockSize + 28))
          (recordOf c e.encryptionKey rnd e.blockSize data)))
    ∧ (((createBoth e a b w).1.StageData c rnd { Name := a, Offset := offset, Data := data }
          (createBoth e a b w).2).2.1.CommitData
        ((createBoth e a b w).1.StageData c rnd { Name := a, Offset := offset, Data := data }
          (createBoth e a b w).2).2.2).2.2.fs (e.mountPointCipher ++ a) = some (.file [])
    ∧ (((createBoth e a b w).1.StageData c rnd { Name := a, Offset := offset, Data := data }
          (createBoth e a b w).2).2.1.CommitData
        ((createBoth e a b w).1.StageData c rnd { Name := a, Offset := offset, Data := data }
          (createBoth e a b w).2).2.2).2.2.trace
      = w.trace
        ++ [.openFile (e.mountPointCipher ++ a), .openFile (e.mountPointCipher ++ b),
            .writeAt (e.mountPointCipher ++ b) (recordOf c e.encryptionKey rnd e.blockSize data)
              ((offset / e.blockSize * (e.blockSize + 28) : Nat) : Int),
            .writeAt (e.mountPointCipher ++ b)
              (PutUint64 (toUint64 ((e.blockSize - data.length : Nat) : Int)))
              (((offset / e.blockSize + 1) * (e.blockSize + 28) : Nat) : Int),
            .close (e.mountPointCipher ++ b)] := by
  refine ⟨fun e1 w1 name1 name2 => rfl, ?_⟩
  have hfit1 : (offset / e.blockSize + 1) * (e.blockSize + 28) ≤ 9223372036854775807 :=
    le_trans (Nat.le_add_right _ _) hfit
  have hs := StageData_ok c hseal rnd
    { e with handle := some ⟨e.mountPointCipher ++ b, false⟩ }
    { Name := a, Offset := offset, Data := data }
    ((((w.log (.openFile (e.mountPointCipher ++ a))).setNode (e.mountPointCipher ++ a)
      (.file [])).log (.openFile (e.mountPointCipher ++ b))).setNode
      (e.mountPointCipher ++ b) (.file []))
    (e.mountPointCipher ++ b) [] hB hlen hkey hrnd rfl (by simp [World.setNode]) hfit1
  have hidx : (((offset / e.blockSize : Nat) : Int) > e.lastChunkMeta.farthestBlockSeen) := by
    rw [htracker]
    have := Int.natCast_nonneg (offset / e.blockSize)
    omega
  simp only [if_pos hidx] at hs
  rw [createBoth_fresh e a b w ha hb hab, hs]
  have hc := CommitData_ok
    { e with
      handle := some ⟨e.mountPointCipher ++ b, false⟩
      lastChunkMeta :=
        { farthestBlockSeen := ((offset / e.blockSize : Nat) : Int)
          paddingLength := ((e.blockSize - data.length : Nat) : Int) } }
    ((((((w.log (.openFile (e.mountPointCipher ++ a))).setNode (e.mountPointCipher ++ a)
      (.file [])).log (.openFile (e.mountPointCipher ++ b))).setNode
      (e.mountPointCipher ++ b) (.file [])).log
        (.writeAt (e.mountPointCipher ++ b) (recordOf c e.encryptionKey rnd e.blockSize data)
          ((offset / e.blockSize * (e.blockSize + 28) : Nat) : Int))).setNode
      (e.mountPointCipher ++ b)
      (.file (writeBytes [] (offset / e.blockSize * (e.blockSize + 28))
        (recordOf c e.encryptionKey rnd e.blockSize data))))
    (e.mountPointCipher ++ b)
    (writeBytes [] (offset / e.blockSize * (e.blockSize + 28))
      (recordOf c e.encryptionKey rnd e.blockSize data))
    (offset / e.blockSize) (e.blockSize - data.length) rfl rfl rfl
    (by simp [World.setNode]) hfit
  refine ⟨rfl, ?_, ?_, ?_, ?_⟩
  · simp [World.setNode, World.log, Ne.symm hab]
  · simp [World.setNode, World.log]
  · rw [hc]
    simp [World.setNode, World.log, Ne.symm hab]
  · rw [hc]
    simp [World.setNode, World.log]

theorem C28_witness :
    ((createBoth (configured 4 testKey) "a" "b" emptyWorld).1.StageData toyGCM (demoRnd 0)
        { Name := "a", Offset := 0, Data := [1, 2] }
        (createBoth (configured 4 testKey) "a" "b" emptyWorld).2).2.2.fs
        ((configured 4 testKey).mountPointCipher ++ "a") = some (.file []) :=
  (C28_name_not_used toyGCM toyGCM_tagOverhead (demoRnd 0) (configured 4 testKey) "a" "b" 0
    [1, 2] emptyWorld (by decide) (by decide) (by decide) (by decide) rfl rfl rfl (by decide)
    (by decide)).2.2.1

theorem records_disjoint (i j R : Nat) (hij : i ≠ j) :
    i * R + R ≤ j * R ∨ j * R + R ≤ i * R := by
  rcases Nat.lt_or_gt_of_ne hij with h | h
  · left
    have h1 : (i + 1) * R ≤ j * R := Nat.mul_le_mul_right _ h
    rw [Nat.add_mul, Nat.one_mul] at h1
    exact h1
  · right
    have h1 : (j + 1) * R ≤ i * R := Nat.mul_le_mul_right _ h
    rw [Nat.add_mul, Nat.one_mul] at h1
    exact h1

theorem record_before_trailer (i f R : Nat) (h : i ≤ f) : i * R + R ≤ (f + 1) * R := by
  have h1 : (i + 1) * R ≤ (f + 1) * R := Nat.mul_le_mul_right _ (Nat.succ_le_succ h)
  rw [Nat.add_mul, Nat.one_mul] at h1
  exact h1

theorem StageData_trace (c : GCM) (hseal : c.TagOverhead) (rnd : List Byte) (e : Encryptor)
    (opt : StageDataOptions) (w : World) (path : String) (content : List Byte)
    (hB : 0 < e.blockSize) (hlen : opt.Data.length ≤ e.blockSize)
    (hkey : validKeySize e.encryptionKey = true) (hrnd : NonceSize ≤ rnd.length)
    (hh : e.handle = some ⟨path, false⟩) (hfs : w.fs path = some (.file content))
    (hfit : (opt.Offset / e.blockSize + 1) * (e.blockSize + 28) ≤ 9223372036854775807) :
    (e.StageData c rnd opt w).2.2.trace
      = w.trace ++ [.writeAt path (recordOf c e.encryptionKey rnd e.blockSize opt.Data)
          ((opt.Offset / e.blockSize * (e.blockSize + 28) : Nat) : Int)] := by
  rw [StageData_ok c hseal rnd e opt w path content hB hlen hkey hrnd hh hfs hfit]
  rfl

/-- Claim C25. Positioned writes do not overlap: for a block size `B > 0` and data of at most
`B` bytes, the stage of block `i` writes exactly the byte range `[i*(B+28), (i+1)*(B+28))`
(offsets within `int64`), so the ranges written for two distinct block indices are disjoint;
and the trailer `CommitData` writes for the farthest block `f` is the 8-byte range starting
at `(f+1)*(B+28)`, which starts at or after the end of the record of every block `i <= f`. -/
theorem C25_writes_do_not_overlap (c : GCM) (hseal : c.TagOverhead) (rnd1 rnd2 : List Byte)
    (e : Encryptor) (opt1 opt2 : StageDataOptions) (w1 w2 w3 : World) (path : String)
    (content1 content2 content3 : List Byte) (f p : Nat)
    (hB : 0 < e.blockSize)
    (hlen1 : opt1.Data.length ≤ e.blockSize) (hlen2 : opt2.Data.length ≤ e.blockSize)
    (hkey : validKeySize e.encryptionKey = true)
    (hrnd1 : NonceSize ≤ rnd1.length) (hrnd2 : NonceSize ≤ rnd2.length)
    (hh : e.handle = some ⟨path, false⟩)
    (hfs1 : w1.fs path = some (.file content1)) (hfs2 : w2.fs path = some (.file content2))
    (hfs3 : w3.fs path = some (.file content3))
    (hfit1 : (opt1.Offset / e.blockSize + 1) * (e.blockSize + 28) ≤ 9223372036854775807)
    (hfit2 : (opt2.Offset / e.blockSize + 1) * (e.blockSize + 28) ≤ 9223372036854775807)
    (hf : e.lastChunkMeta.farthestBlockSeen = (f : Int))
    (hp : e.lastChunkMeta.paddingLength = (p : Int))
    (hfit3 : (f + 1) * (e.blockSize + 28) + 8 ≤ 9223372036854775807) :
    ∃ (b1 b2 b3 : List Byte) (off1 off2 off3 : Int),
      (e.StageData c rnd1 opt1 w1).2.2.trace = w1.trace ++ [.writeAt path b1 off1]
      ∧ (e.StageData c rnd2 opt2 w2).2.2.trace = w2.trace ++ [.writeAt path b2 off2]
      ∧ (e.CommitData w3).2.2.trace = w3.trace ++ [.writeAt path b3 off3, .close path]
      ∧ off1 = ((opt1.Offset / e.blockSize * (e.blockSize + 28) : Nat) : Int)
      ∧ off2 = ((opt2.Offset / e.blockSize * (e.blockSize + 28) : Nat) : Int)
      ∧ off3 = (((f + 1) * (e.blockSize + 28) : Nat) : Int)
      ∧ b1.length = e.blockSize + 28 ∧ b2.length = e.blockSize + 28 ∧ b3.length = 8
      ∧ (opt1.Offset / e.blockSize ≠ opt2.Offset / e.blockSize →
          off1 + (b1.length : Int) ≤ off2 ∨ off2 + (b2.length : Int) ≤ off1)
      ∧ (opt1.Offset / e.blockSize ≤ f → off1 + (b1.length : Int) ≤ off3) := by
  have hl1 := length_recordOf c hseal e.encryptionKey rnd1 e.blockSize opt1.Data hrnd1 hlen1
  have hl2 := length_recordOf c hseal e.encryptionKey rnd2 e.blockSize opt2.Data hrnd2 hlen2
  have hc := CommitData_ok e w3 path content3 f p hf hp hh hfs3 hfit3
  refine ⟨_, _, PutUint64 (toUint64 (p : Int)), _, _, _,
    StageData_trace c hseal rnd1 e opt1 w1 path content1 hB hlen1 hkey hrnd1 hh hfs1 hfit1,
    StageData_trace c hseal rnd2 e opt2 w2 path content2 hB hlen2 hkey hrnd2 hh hfs2 hfit2,
    ?_, rfl, rfl, rfl, hl1, hl2, length_PutUint64 _, ?_, ?_⟩
  · rw [hc]
    simp [World.log, World.setNode]
  · intro hij
    rw [hl1, hl2]
    rcases records_disjoint _ _ (e.blockSize + 28) hij with h | h
    · left; exact_mod_cast h
    · right; exact_mod_cast h
  · intro hle
    rw [hl1]
    exact_mod_cast record_before_trailer _ _ (e.blockSize + 28) hle

theorem C25_witness :
    ∃ (b1 b2 b3 : List Byte) (off1 off2 off3 : Int),
      (stagedTwoBlocks.2.1.StageData toyGCM (demoRnd 0)
          { Name := "f", Offset := 0, Data := [1, 2, 3, 4] } stagedTwoBlocks.2.2).2.2.trace
        = stagedTwoBlocks.2.2.trace ++ [.writeAt "unit/f" b1 off1]
      ∧ (stagedTwoBlocks.2.1.StageData toyGCM (demoRnd 1)
          { Name := "f", Offset := 4, Data := [9] } stagedTwoBlocks.2.2).2.2.trace
        = stagedTwoBlocks.2.2.trace ++ [.writeAt "unit/f" b2 off2]
      ∧ (stagedTwoBlocks.2.1.CommitData stagedTwoBlocks.2.2).2.2.trace
        = stagedTwoBlocks.2.2.trace ++ [.writeAt "unit/f" b3 off3, .close "unit/f"]
      ∧ off1 = 0 ∧ off2 = 32 ∧ off3 = 64
      ∧ (off1 + (b1.length : Int) ≤ off2 ∨ off2 + (b2.length : Int) ≤ off1)
      ∧ off1 + (b1.length : Int) ≤ off3 := by
  obtain ⟨b1, b2, b3, off1, off2, off3, h1, h2, h3, h4, h5, h6, _, _, _, h7, h8⟩ :=
    C25_writes_do_not_overlap toyGCM toyGCM_tagOverhead (demoRnd 0) (demoRnd 1)
      stagedTwoBlocks.2.1 { Name := "f", Offset := 0, Data := [1, 2, 3, 4] }
      { Name := "f", Offset := 4, Data := [9] } stagedTwoBlocks.2.2 stagedTwoBlocks.2.2
      stagedTwoBlocks.2.2 "unit/f" (fileContent stagedTwoBlocks.2.2 "unit/f")
      (fileContent stagedTwoBlocks.2.2 "unit/f") (fileContent stagedTwoBlocks.2.2 "unit/f") 1 3
      (by decide) (by decide) (by decide) (by decide) (by decide) (by decide) (by decide)
      (by decide) (by decide) (by decide) (by decide) (by decide) (by decide) (by decide)
      (by decide)
  exact ⟨b1, b2, b3, off1, off2, off3, h1, h2, h3, h4, h5, h6, h7 (by decide), h8 (by decide)⟩

theorem writeOffsets_append (xs ys : List IOEvent) :
    writeOffsets (xs ++ ys) = writeOffsets xs ++ writeOffsets ys := by
  induction xs with
  | nil => rfl
  | cons a xs ih => cases a <;> simp [writeOffsets, ih]

theorem readOffsets_append (xs ys : List IOEvent) :
    readOffsets (xs ++ ys) = readOffsets xs ++ readOffsets ys := by
  induction xs with
  | nil => rfl
  | cons a xs ih => cases a <;> simp [readOffsets, ih]

/-- Claim C27. Writer and reader agree on the physical offset: for a block size `B > 0` and a
logical offset `o` with `(o / B + 1) * (B + 28) < 2^63`, the one positioned write of a
successful `StageData` at `o` (offset computed in `uint64`, converted to `int64`) and the one
positioned read of `ReadInBuffer` at `o` (offset computed in `int64`; the file holds the record
and `o` is below the size of the handle) have the same physical offset, `(o / B) * (B + 28)`. -/
theorem C27_offsets_agree (c : GCM) (hseal : c.TagOverhead) (rnd : List Byte) (e : Encryptor)
    (opt : StageDataOptions) (w : World) (path : String) (content : List Byte)
    (options : ReadInBufferOptions) (w2 : World) (content2 : List Byte)
    (hB : 0 < e.blockSize) (hlen : opt.Data.length ≤ e.blockSize)
    (hkey : validKeySize e.encryptionKey = true) (hrnd : NonceSize ≤ rnd.length)
    (hh : e.handle = some ⟨path, false⟩) (hfs : w.fs path = some (.file content))
    (hfit : (opt.Offset / e.blockSize + 1) * (e.blockSize + 28) ≤ 9223372036854775807)
    (hO : options.Offset = (opt.Offset : Int))
    (hoS : (opt.Offset : Int) < options.Handle.Size)
    (hS : options.Handle.Size ≤ 9223372036854775807)
    (hbuf : options.Data ≠ [])
    (hov : opt.Offset + options.Data.length ≤ 9223372036854775807)
    (hfs2 : w2.fs (e.mountPointCipher ++ options.Handle.Path) = some (.file content2))
    (hrec : (opt.Offset / e.blockSize + 1) * (e.blockSize + 28) ≤ content2.length)
    (hmax : content2.length ≤ 9223372036854775807) :
    writeOffsets (e.StageData c rnd opt w).2.2.trace
      = writeOffsets w.trace ++ [((opt.Offset / e.blockSize * (e.blockSize + 28) : Nat) : Int)]
    ∧ readOffsets (e.ReadInBuffer c options w2).2.2.trace
      = readOffsets w2.trace ++ [((opt.Offset / e.blockSize * (e.blockSize + 28) : Nat) : Int)]
    ∧ writeOffsets (e.ReadInBuffer c options w2).2.2.trace = writeOffsets w2.trace := by
  have hs := StageData_trace c hseal rnd e opt w path content hB hlen hkey hrnd hh hfs hfit
  have hr := ReadInBuffer_block c e options w2 content2 opt.Offset hB hO hoS hS hbuf hov hfs2
    hrec hmax
  refine ⟨?_, ?_, ?_⟩
  · rw [hs, writeOffsets_append]
    rfl
  · rw [hr]
    split <;> simp [World.log, readOffsets_append, readOffsets]
  · rw [hr]
    split <;> simp [World.log, writeOffsets_append, writeOffsets]

theorem C27_witness :
    writeOffsets (stagedTwoBlocks.2.1.StageData toyGCM (demoRnd 1)
        { Name := "f", Offset := 5, Data := [9] } stagedTwoBlocks.2.2).2.2.trace
      = writeOffsets stagedTwoBlocks.2.2.trace
        ++ [((5 / stagedTwoBlocks.2.1.blockSize * (stagedTwoBlocks.2.1.blockSize + 28) : Nat)
          : Int)]
    ∧ readOffsets (stagedTwoBlocks.2.1.ReadInBuffer toyGCM
        { Handle := { Path := "f", Size := 6 }, Offset := 5, Data := [0, 0, 0, 0] }
        sixByteFile.2.2).2.2.trace
      = readOffsets sixByteFile.2.2.trace
        ++ [((5 / stagedTwoBlocks.2.1.blockSize * (stagedTwoBlocks.2.1.blockSize + 28) : Nat)
          : Int)] :=
  ⟨(C27_offsets_agree toyGCM toyGCM_tagOverhead (demoRnd 1) stagedTwoBlocks.2.1
      { Name := "f", Offset := 5, Data := [9] } stagedTwoBlocks.2.2 "unit/f"
      (fileContent stagedTwoBlocks.2.2 "unit/f")
      { Handle := { Path := "f", Size := 6 }, Offset := 5, Data := [0, 0, 0, 0] }
      sixByteFile.2.2 (fileContent sixByteFile.2.2 "unit/f")
      (by decide) (by decide) (by decide) (by decide) (by decide) (by decide) (by decide)
      (by decide) (by decide) (by decide) (by decide) (by decide) (by decide) (by decide)
      (by decide)).1,
   (C27_offsets_agree toyGCM toyGCM_tagOverhead (demoRnd 1) stagedTwoBlocks.2.1
      { Name := "f", Offset := 5, Data := [9] } stagedTwoBlocks.2.2 "unit/f"
      (fileContent stagedTwoBlocks.2.2 "unit/f")
      { Handle := { Path := "f", Size := 6 }, Offset := 5, Data := [0, 0, 0, 0] }
      sixByteFile.2.2 (fileContent sixByteFile.2.2 "unit/f")
      (by decide) (by decide) (by decide) (by decide) (by decide) (by decide) (by decide)
      (by decide) (by decide) (by decide) (by decide) (by decide) (by decide) (by decide)
      (by decide)).2.1⟩

/-- Claim C29 as stated fails: for `B = 1` and a file of 37 bytes (one record and a trailer)
whose trailer reads 2, `checkForActualFileSize` returns `37 - 2 - 28 - 8 = -1`, a negative
size; for the trailer `2^64 - 3` (converted to `-3`) it returns `37 + 3 - 28 - 8 = 4`, which
exceeds `(P / (B+28)) * B = 1`. -/
theorem C29_counterexample :
    (checkForActualFileSize ⟨"unit/f", false⟩ 37 1
        (worldWith (List.replicate 29 0 ++ PutUint64 2))).1 = (-1, none)
    ∧ (checkForActualFileSize ⟨"unit/f", false⟩ 37 1
        (worldWith (List.replicate 29 0 ++ [255, 255, 255, 255, 255, 255, 255, 253]))).1
      = (4, none)
    ∧ (37 : Int) / (1 + 28) * 1 = 1 := by
  decide

theorem size_range_facts (P B N t : Int) (M : Int) (hM : N * (B + 28) = M)
    (hNB : N * (B + 28) = N * B + N * 28) :
    (0 ≤ P - N * 28 - 8 - t ∧ P - N * 28 - 8 - t ≤ N * B)
      ↔ (P - M - 8 ≤ t ∧ t ≤ P - N * 28 - 8) := by
  generalize N * B = a at *
  generalize N * 28 = b at *
  omega

/-- Claim C29 (amended). For a regular file of physical size `P >= 0` and a block size
`B > 0` (sizes within `int64`), with `N = P / (B+28)` and a trailer `t < 2^63`,
`checkForActualFileSize` returns without error the size 0 when `P < N*(B+28) + 8` and the size
`s = P - N*28 - 8 - t` otherwise; in the second case `0 <= s <= N * B` holds exactly when
`P - N*(B+28) - 8 <= t <= P - N*28 - 8`. For a file of `N` records and a trailer,
`P = N*(B+28) + 8`, this is exactly `t <= N * B`. -/
theorem C29_recovered_size_range (h : File) (P B : Int) (w : World) (content : List Byte)
    (hP : 0 ≤ P) (hPmax : P ≤ 9223372036854775807) (hB : 0 < B)
    (hBmax : B + 28 ≤ 9223372036854775807)
    (hNmax : P / (B + 28) * (B + 28) + 8 ≤ 9223372036854775807)
    (hopen : h.closed = false) (hfs : w.fs h.name = some (.file content))
    (hlen : (content.length : Int) = P)
    (ht : (trailerOf content : Int) ≤ 9223372036854775807) :
    (P < P / (B + 28) * (B + 28) + 8 → (checkForActualFileSize h P B w).1 = (0, none))
    ∧ (¬ P < P / (B + 28) * (B + 28) + 8 →
        (checkForActualFileSize h P B w).1
          = (P - P / (B + 28) * 28 - 8 - (trailerOf content : Int), none)
        ∧ ((0 ≤ P - P / (B + 28) * 28 - 8 - (trailerOf content : Int)
            ∧ P - P / (B + 28) * 28 - 8 - (trailerOf content : Int) ≤ P / (B + 28) * B)
          ↔ (P - P / (B + 28) * (B + 28) - 8 ≤ (trailerOf content : Int)
            ∧ (trailerOf content : Int) ≤ P - P / (B + 28) * 28 - 8))) := by
  have hspec := checkForActualFileSize_spec h P B w content hP hPmax hB hBmax hNmax hopen hfs
    hlen
  rw [logicalSizeSpec_fits P B _ hP hPmax hB (Int.natCast_nonneg _) ht] at hspec
  rw [hspec]
  unfold logicalSizeSpec
  constructor
  · intro hg
    rw [if_pos hg]
  · intro hg
    rw [if_neg hg]
    exact ⟨rfl, size_range_facts P B (P / (B + 28)) _ _ rfl (by ring)⟩

theorem C29_witness :
    (checkForActualFileSize ⟨"unit/f", false⟩ 72 4
        (worldWith (List.replicate 64 9 ++ PutUint64 3))).1
      = (72 - 72 / (4 + 28) * 28 - 8
          - (trailerOf (List.replicate 64 9 ++ PutUint64 3) : Int), none) :=
  ((C29_recovered_size_range ⟨"unit/f", false⟩ 72 4
    (worldWith (List.replicate 64 9 ++ PutUint64 3)) (List.replicate 64 9 ++ PutUint64 3)
    (by decide) (by decide) (by decide) (by decide) (by decide) rfl rfl (by decide)
    (by decide)).2 (by decide)).1

/-- Claim C30 as stated fails: in the committed six-byte file with `B = 4`, the read at the
offset 0 with a buffer of 6 bytes returns `n = 6` without error, while only the 4 bytes of
block 0 are copied (the last two bytes of the buffer keep their old values 7, 7):
`n = 6 > min(len(buf), B) = 4`. -/
theorem C30_counterexample :
    (Encryptor.ReadInBuffer toyGCM sixByteFile.2.1
        { Handle := { Path := "f", Size := 6 }, Offset := 0, Data := [7, 7, 7, 7, 7, 7] }
        sixByteFile.2.2).1 = (6, none)
    ∧ (Encryptor.ReadInBuffer toyGCM sixByteFile.2.1
        { Handle := { Path := "f", Size := 6 }, Offset := 0, Data := [7, 7, 7, 7, 7, 7] }
        sixByteFile.2.2).2.1 = [1, 2, 3, 4, 7, 7]
    ∧ sixByteFile.2.1.blockSize = 4
    ∧ ¬ ((6 : Int) ≤ min 6 4) := by
  decide

theorem clamp_facts (len L o B : Nat) (ho : o < L) :
    min (len : Int) ((L : Int) - (o : Int)) ≤ (len : Int)
      ∧ (min (len : Int) ((L : Int) - (o : Int)) ≤ min (len : Int) (B : Int)
        ↔ (len ≤ B ∨ L - o ≤ B)) := by
  omega

/-- Claim C30 (amended). In a file of `L > 0` bytes written by block-aligned `StageData`
calls and `CommitData`, a read at an offset `o < L` with a non-empty buffer returns without
error `n = min(len(buf), L - o)`, which is at most `len(buf)`; it copies the `B` bytes of the
zero-padded block `o / B` to the start of the buffer, that is `min(len(buf), B)` bytes, and
leaves the rest of the buffer as it was. So `n` is at most the number of bytes copied exactly
when `len(buf) <= B` or `L - o <= B`; for a longer buffer and more than `B` bytes left,
`n > B`. -/
theorem C30_reported_length (c : GCM) (hseal : c.TagOverhead) (rnd : Nat → List Byte)
    (hrnd : ∀ j, NonceSize ≤ (rnd j).length) (name : String) (data : List Byte) (e : Encryptor)
    (w : World) (hB : 0 < e.blockSize) (hL : 0 < data.length)
    (hkey : validKeySize e.encryptionKey = true)
    (hopen : c.OpensSealed e.encryptionKey)
    (hfresh : w.fs (e.mountPointCipher ++ name) = none)
    (htracker : e.lastChunkMeta.farthestBlockSeen = -1)
    (hfit : blockCount e.blockSize data.length * (e.blockSize + 28) + 8 ≤ 9223372036854775807)
    (o : Nat) (ho : o < data.length) (buf : List Byte) (hbuf : buf ≠ [])
    (hov : o + buf.length ≤ 9223372036854775807) :
    ((createAndWrite c rnd name data e w).2.1.ReadInBuffer c
        { Handle := { Path := name, Size := data.length }, Offset := (o : Int), Data := buf }
        (createAndWrite c rnd name data e w).2.2).1
      = (min (buf.length : Int) ((data.length : Int) - (o : Int)), none)
    ∧ ((createAndWrite c rnd name data e w).2.1.ReadInBuffer c
        { Handle := { Path := name, Size := data.length }, Offset := (o : Int), Data := buf }
        (createAndWrite c rnd name data e w).2.2).2.1
      = ((data.drop (o / e.blockSize * e.blockSize)).take e.blockSize
            ++ List.replicate
              (e.blockSize
                - ((data.drop (o / e.blockSize * e.blockSize)).take e.blockSize).length) 0).take
          buf.length
        ++ buf.drop e.blockSize
    ∧ min (buf.length : Int) ((data.length : Int) - (o : Int)) ≤ (buf.length : Int)
    ∧ (min (buf.length : Int) ((data.length : Int) - (o : Int))
          ≤ min (buf.length : Int) (e.blockSize : Int)
        ↔ (buf.length ≤ e.blockSize ∨ data.length - o ≤ e.blockSize)) := by
  have hr := read_after_write c hseal rnd hrnd name data e w hB hL hkey hopen hfresh htracker
    hfit _ rfl o ho buf hbuf hov
  have hpl : ((data.drop (o / e.blockSize * e.blockSize)).take e.blockSize
      ++ List.replicate
        (e.blockSize - ((data.drop (o / e.blockSize * e.blockSize)).take e.blockSize).length)
        0).length = e.blockSize := by
    rw [List.length_append, List.length_replicate, List.length_take]
    omega
  obtain ⟨h1, h2⟩ := clamp_facts buf.length data.length o e.blockSize ho
  rw [hr]
  refine ⟨rfl, ?_, h1, h2⟩
  show copy buf _ = _
  unfold copy
  rw [hpl]

theorem C30_witness :
    ((createAndWrite toyGCM demoRnd "f" [1, 2, 3, 4, 5, 6] (configured 4 testKey)
          emptyWorld).2.1.ReadInBuffer toyGCM
        { Handle := { Path := "f", Size := (([1, 2, 3, 4, 5, 6] : List Byte).length : Nat) },
          Offset := ((4 : Nat) : Int), Data := [7, 7, 7, 7, 7, 7] }
        (createAndWrite toyGCM demoRnd "f" [1, 2, 3, 4, 5, 6] (configured 4 testKey)
          emptyWorld).2.2).1
      = (min ((([7, 7, 7, 7, 7, 7] : List Byte).length : Nat) : Int)
          (((([1, 2, 3, 4, 5, 6] : List Byte).length : Nat) : Int) - ((4 : Nat) : Int)), none) :=
  (C30_reported_length toyGCM toyGCM_tagOverhead demoRnd demoRnd_length "f"
    [1, 2, 3, 4, 5, 6] (configured 4 testKey) emptyWorld (by decide) (by decide) (by decide)
    (toyGCM_opensSealed _) (by rfl) (by rfl) (by decide) 4 (by decide) [7, 7, 7, 7, 7, 7]
    (by decide) (by decide)).1

end Blobfuse
namespace ExternalProcessor

/-! ## Claims on the external processor -/

/-- Claim C18. Request dispatch: for every `ProcessingRequest`, `handleProxyRequest` invokes
exactly one filter handler, the one matching the oneof variant (`RequestHeaders` to
`OnRequestHeaders`, `RequestBody` to `OnRequestBody`, `ResponseHeaders` to `OnResponseHeaders`,
`ResponseBody` to `OnResponseBody`), exactly once, and returns that handler's response (and
leaves the state the handler left); for every other variant, the trailers and the unset
request, it invokes no handler, leaves the filter as it is and returns the immediate response
with the status `BadRequest`. -/
theorem C18_request_dispatch {σ : Type} (httpFilter : HttpFilter σ) (s : σ)
    (req : ProcessingRequest) :
    (∀ v, req.Request = some (.RequestHeaders v) →
      handleProxyRequest httpFilter s req
        = ((httpFilter.OnRequestHeaders s req).1, (httpFilter.OnRequestHeaders s req).2,
            [.Call .OnRequestHeaders req]))
    ∧ (∀ v, req.Request = some (.RequestBody v) →
      handleProxyRequest httpFilter s req
        = ((httpFilter.OnRequestBody s req).1, (httpFilter.OnRequestBody s req).2,
            [.Call .OnRequestBody req]))
    ∧ (∀ v, req.Request = some (.ResponseHeaders v) →
      handleProxyRequest httpFilter s req
        = ((httpFilter.OnResponseHeaders s req).1, (httpFilter.OnResponseHeaders s req).2,
            [.Call .OnResponseHeaders req]))
    ∧ (∀ v, req.Request = some (.ResponseBody v) →
      handleProxyRequest httpFilter s req
        = ((httpFilter.OnResponseBody s req).1, (httpFilter.OnResponseBody s req).2,
            [.Call .OnResponseBody req]))
    ∧ ((req.Request = none ∨ (∃ v, req.Request = some (.RequestTrailers v))
          ∨ (∃ v, req.Request = some (.ResponseTrailers v))) →
      handleProxyRequest httpFilter s req
        = (.ImmediateResponse StatusCode_BadRequest
            ("unexpected processing request type " ++ typeName req.Request), s, []))
    ∧ (handleProxyRequest httpFilter s req).2.2.length ≤ 1 := by
  unfold handleProxyRequest
  refine ⟨?_, ?_, ?_, ?_, ?_, ?_⟩
  · intro v h; rw [h]
  · intro v h; rw [h]
  · intro v h; rw [h]
  · intro v h; rw [h]
  · rintro (h | ⟨v, h⟩ | ⟨v, h⟩) <;> rw [h] <;> rfl
  · cases hr : req.Request with
    | none => simp
    | some v => cases v <;> simp

theorem C18_witness :
    handleProxyRequest echoFilter 0 { Request := some (.RequestBody "b"), Attributes := "a" }
      = ((echoFilter.OnRequestBody 0
            { Request := some (.RequestBody "b"), Attributes := "a" }).1,
          (echoFilter.OnRequestBody 0
            { Request := some (.RequestBody "b"), Attributes := "a" }).2,
          [.Call .OnRequestBody { Request := some (.RequestBody "b"), Attributes := "a" }])
    ∧ handleProxyRequest echoFilter 0 { Request := none, Attributes := "a" }
      = (.ImmediateResponse StatusCode_BadRequest
          ("unexpected processing request type "
            ++ typeName ({ Request := none, Attributes := "a" } : ProcessingRequest).Request),
          0, []) :=
  ⟨(C18_request_dispatch echoFilter 0
      { Request := some (.RequestBody "b"), Attributes := "a" }).2.1 "b" rfl,
   (C18_request_dispatch echoFilter 0 { Request := none, Attributes := "a" }).2.2.2.2.1
      (Or.inl rfl)⟩

theorem processLoop_cons_delivered {σ : Type} (httpFilter : HttpFilter σ) (s : σ)
    (r : ProcessingRequest) (rest : List Step) (hr : r.Request ≠ none) :
    processLoop httpFilter s (delivered r :: rest)
      = ((processLoop httpFilter (handleProxyRequest httpFilter s r).2.1 rest).1,
          .Recv :: (handleProxyRequest httpFilter s r).2.2
            ++ [.Send (handleProxyRequest httpFilter s r).1]
            ++ (processLoop httpFilter (handleProxyRequest httpFilter s r).2.1 rest).2) := by
  simp only [processLoop, delivered, hr, if_false]

theorem processLoop_delivered {σ : Type} (httpFilter : HttpFilter σ) :
    ∀ (reqs : List ProcessingRequest) (s : σ) (rest : List Step),
      (∀ r ∈ reqs, r.Request ≠ none) →
      processLoop httpFilter s (reqs.map delivered ++ rest)
        = ((processLoop httpFilter (stateAfter httpFilter s reqs) rest).1,
            exchanges httpFilter s reqs
              ++ (processLoop httpFilter (stateAfter httpFilter s reqs) rest).2) := by
  intro reqs
  induction reqs with
  | nil => intro s rest _; rfl
  | cons r reqs ih =>
    intro s rest hset
    have hr : r.Request ≠ none := hset r (List.mem_cons_self _ _)
    have ih2 := ih (handleProxyRequest httpFilter s r).2.1 rest
      (fun x hx => hset x (List.mem_cons_of_mem _ hx))
    rw [List.map_cons, List.cons_append, processLoop_cons_delivered httpFilter s r _ hr, ih2]
    simp only [stateAfter, exchanges, List.append_assoc]

theorem Process_delivered {σ : Type} (filterFactory : HttpFilterFactory σ)
    (reqs : List ProcessingRequest) (rest : List Step) (hset : ∀ r ∈ reqs, r.Request ≠ none) :
    Process filterFactory (reqs.map delivered ++ rest)
      = ((processLoop filterFactory.CreateFilter.1
            (stateAfter filterFactory.CreateFilter.1 filterFactory.CreateFilter.2 reqs) rest).1,
          .CreateFilter :: (exchanges filterFactory.CreateFilter.1 filterFactory.CreateFilter.2 reqs
            ++ (processLoop filterFactory.CreateFilter.1
              (stateAfter filterFactory.CreateFilter.1 filterFactory.CreateFilter.2 reqs)
              rest).2)) := by
  unfold Process
  rw [processLoop_delivered filterFactory.CreateFilter.1 reqs _ rest hset]

theorem sentResponses_append (xs ys : List Action) :
    sentResponses (xs ++ ys) = sentResponses xs ++ sentResponses ys := by
  induction xs with
  | nil => rfl
  | cons a xs ih =>
    cases a <;> simp [sentResponses, ih]

theorem sentResponses_calls {σ : Type} (httpFilter : HttpFilter σ) (s : σ)
    (req : ProcessingRequest) :
    sentResponses (handleProxyRequest httpFilter s req).2.2 = [] := by
  unfold handleProxyRequest
  cases hr : req.Request with
  | none => rfl
  | some v => cases v <;> rfl

theorem sentResponses_exchanges {σ : Type} (httpFilter : HttpFilter σ) :
    ∀ (reqs : List ProcessingRequest) (s : σ),
      sentResponses (exchanges httpFilter s reqs) = responsesOf httpFilter s reqs := by
  intro reqs
  induction reqs with
  | nil => intro s; rfl
  | cons r reqs ih =>
    intro s
    show sentResponses ((handleProxyRequest httpFilter s r).2.2
        ++ [.Send (handleProxyRequest httpFilter s r).1]
        ++ exchanges httpFilter (handleProxyRequest httpFilter s r).2.1 reqs) = _
    rw [sentResponses_append, sentResponses_append, sentResponses_calls, ih]
    rfl

theorem length_responsesOf {σ : Type} (httpFilter : HttpFilter σ) :
    ∀ (reqs : List ProcessingRequest) (s : σ),
      (responsesOf httpFilter s reqs).length = reqs.length := by
  intro reqs
  induction reqs with
  | nil => intro s; rfl
  | cons r reqs ih => intro s; simp only [responsesOf, List.length_cons, ih]

theorem processLoop_nil {σ : Type} (httpFilter : HttpFilter σ) :
    ∀ (script : List Step) (s : σ), (processLoop httpFilter s script).1 = some .nil →
      ∃ (reqs : List ProcessingRequest) (step : Step) (post : List Step),
        (∀ r ∈ reqs, r.Request ≠ none)
        ∧ script = reqs.map delivered ++ step :: post
        ∧ step.ctxErr = none ∧ step.recv = .EOF := by
  intro script
  induction script with
  | nil => intro s h; simp [processLoop] at h
  | cons st rest ih =>
    intro s h
    obtain ⟨ctxErr, recv, sendErr⟩ := st
    cases ctxErr with
    | some err => simp [processLoop] at h
    | none =>
      cases recv with
      | EOF => exact ⟨[], ⟨none, .EOF, sendErr⟩, rest, by simp, rfl, rfl, rfl⟩
      | error text => simp [processLoop] at h
      | request req =>
        by_cases hr : req.Request = none
        · simp [processLoop, hr] at h
        · cases sendErr with
          | some text => simp [processLoop, hr] at h
          | none =>
            have h2 : (processLoop httpFilter (handleProxyRequest httpFilter s req).2.1 rest).1
                = some .nil := by
              simpa [processLoop, hr] using h
            obtain ⟨reqs, step, post, hset, hscript, hc, he⟩ := ih _ h2
            refine ⟨req :: reqs, step, post, ?_, ?_, hc, he⟩
            · intro r hmem
              rcases List.mem_cons.mp hmem with h3 | h3
              · rw [h3]; exact hr
              · exact hset r h3
            · rw [hscript]; rfl

/-- Claim C19. Stream loop termination. Let the stream first deliver the requests `reqs`
(each with its oneof set, each answered and sent) and then the step `step`, whatever follows
in `post`. While only such requests arrive `Process` has not returned. If at `step` the context
is done, `Process` returns the error of the context; if `Recv` yields `io.EOF` it returns nil;
if `Recv` yields another error, or `Recv` yields a request and `Send` fails, it returns a gRPC
error with the code `Unknown`. In each case the actions end there: nothing of `post` is
received, handled or sent. Over all scripts, `Process` returns nil exactly when `Recv` yields
`io.EOF` after a run of delivered requests. -/
theorem C19_stream_loop_termination {σ : Type} (filterFactory : HttpFilterFactory σ)
    (reqs : List ProcessingRequest) (step : Step) (post : List Step)
    (hset : ∀ r ∈ reqs, r.Request ≠ none) :
    Process filterFactory (reqs.map delivered)
      = (none, .CreateFilter
          :: exchanges filterFactory.CreateFilter.1 filterFactory.CreateFilter.2 reqs)
    ∧ (∀ err, step.ctxErr = some err →
      Process filterFactory (reqs.map delivered ++ step :: post)
        = (some (.contextError err), .CreateFilter
            :: exchanges filterFactory.CreateFilter.1 filterFactory.CreateFilter.2 reqs))
    ∧ (step.ctxErr = none → step.recv = .EOF →
      Process filterFactory (reqs.map delivered ++ step :: post)
        = (some .nil, .CreateFilter
            :: (exchanges filterFactory.CreateFilter.1 filterFactory.CreateFilter.2 reqs
              ++ [.Recv])))
    ∧ (step.ctxErr = none → ∀ text, step.recv = .error text →
      Process filterFactory (reqs.map delivered ++ step :: post)
        = (some (.status codes_Unknown ("cannot receive stream request: " ++ text)),
            .CreateFilter
              :: (exchanges filterFactory.CreateFilter.1 filterFactory.CreateFilter.2 reqs
                ++ [.Recv])))
    ∧ (step.ctxErr = none → ∀ req text, step.recv = .request req → req.Request ≠ none →
      step.sendErr = some text →
      Process filterFactory (reqs.map delivered ++ step :: post)
        = (some (.status codes_Unknown ("cannot send stream response: " ++ text)),
            .CreateFilter
              :: (exchanges filterFactory.CreateFilter.1 filterFactory.CreateFilter.2 reqs
                ++ (.Recv :: (handleProxyRequest filterFactory.CreateFilter.1
                      (stateAfter filterFactory.CreateFilter.1 filterFactory.CreateFilter.2 reqs)
                      req).2.2
                  ++ [.Send (handleProxyRequest filterFactory.CreateFilter.1
                      (stateAfter filterFactory.CreateFilter.1 filterFactory.CreateFilter.2 reqs)
                      req).1]))))
    ∧ (∀ script, (Process filterFactory script).1 = some .nil ↔
        ∃ (reqs1 : List ProcessingRequest) (step1 : Step) (post1 : List Step),
          (∀ r ∈ reqs1, r.Request ≠ none)
          ∧ script = reqs1.map delivered ++ step1 :: post1
          ∧ step1.ctxErr = none ∧ step1.recv = .EOF) := by
  obtain ⟨ctxErr, recv, sendErr⟩ := step
  refine ⟨?_, ?_, ?_, ?_, ?_, ?_⟩
  · have h := Process_delivered filterFactory reqs [] hset
    rw [List.append_nil] at h
    rw [h]
    simp [processLoop]
  · intro err h
    dsimp only at h
    rw [Process_delivered filterFactory reqs _ hset, h]
    simp [processLoop]
  · intro hc he
    dsimp only at hc he
    rw [Process_delivered filterFactory reqs _ hset, hc, he]
    simp [processLoop]
  · intro hc text he
    dsimp only at hc he
    rw [Process_delivered filterFactory reqs _ hset, hc, he]
    simp [processLoop]
  · intro hc req text he hr hs
    dsimp only at hc he hs
    rw [Process_delivered filterFactory reqs _ hset, hc, he, hs]
    simp [processLoop, hr]
  · intro script
    constructor
    · intro h
      exact processLoop_nil filterFactory.CreateFilter.1 script filterFactory.CreateFilter.2 h
    · rintro ⟨reqs1, ⟨c1, r1, s1⟩, post1, hset1, hscript, hc, he⟩
      dsimp only at hc he
      rw [hscript, Process_delivered filterFactory reqs1 _ hset1, hc, he]
      simp [processLoop]

theorem C19_witness :
    Process echoFactory
        ([{ Request := some (.RequestHeaders "h"), Attributes := "a" },
            { Request := some (.RequestTrailers "t"), Attributes := "b" }].map delivered
          ++ { ctxErr := none, recv := .EOF, sendErr := none }
            :: [delivered { Request := some (.RequestBody "x"), Attributes := "c" }])
      = (some .nil, .CreateFilter
          :: (exchanges echoFactory.CreateFilter.1 echoFactory.CreateFilter.2
              [{ Request := some (.RequestHeaders "h"), Attributes := "a" },
                { Request := some (.RequestTrailers "t"), Attributes := "b" }]
            ++ [.Recv])) :=
  (C19_stream_loop_termination echoFactory
    [{ Request := some (.RequestHeaders "h"), Attributes := "a" },
      { Request := some (.RequestTrailers "t"), Attributes := "b" }]
    { ctxErr := none, recv := .EOF, sendErr := none }
    [delivered { Request := some (.RequestBody "x"), Attributes := "c" }]
    (by decide)).2.2.1 rfl rfl

/-- The order of the responses on a stream whose requests all have their oneof set: when the
stream delivers `reqs`, every `Send` succeeding, and then `io.EOF`, `Process` creates one
filter, sends exactly one response for each request, in the order of the requests, the `i`-th
being the response of `handleProxyRequest` to the `i`-th request on that one filter, and each
`Send` follows the `Recv` of its request. -/
theorem Process_responses_in_order {σ : Type} (filterFactory : HttpFilterFactory σ)
    (reqs : List ProcessingRequest) (last : Step) (hset : ∀ r ∈ reqs, r.Request ≠ none)
    (hc : last.ctxErr = none) (he : last.recv = .EOF) :
    Process filterFactory (reqs.map delivered ++ [last])
      = (some .nil, .CreateFilter
          :: (exchanges filterFactory.CreateFilter.1 filterFactory.CreateFilter.2 reqs
            ++ [.Recv]))
    ∧ sentResponses (Process filterFactory (reqs.map delivered ++ [last])).2
      = responsesOf filterFactory.CreateFilter.1 filterFactory.CreateFilter.2 reqs
    ∧ (sentResponses (Process filterFactory (reqs.map delivered ++ [last])).2).length
      = reqs.length := by
  obtain ⟨ctxErr, recv, sendErr⟩ := last
  dsimp only at hc he
  have h : Process filterFactory (reqs.map delivered ++ [⟨ctxErr, recv, sendErr⟩])
      = (some .nil, .CreateFilter
          :: (exchanges filterFactory.CreateFilter.1 filterFactory.CreateFilter.2 reqs
            ++ [.Recv])) := by
    rw [Process_delivered filterFactory reqs _ hset, hc, he]
    simp [processLoop]
  have h2 : sentResponses (.CreateFilter
        :: (exchanges filterFactory.CreateFilter.1 filterFactory.CreateFilter.2 reqs
          ++ [.Recv]))
      = responsesOf filterFactory.CreateFilter.1 filterFactory.CreateFilter.2 reqs := by
    show sentResponses (exchanges filterFactory.CreateFilter.1 filterFactory.CreateFilter.2 reqs
          ++ [.Recv]) = _
    rw [sentResponses_append, sentResponses_exchanges]
    simp [sentResponses]
  rw [h]
  refine ⟨rfl, h2, ?_⟩
  show (sentResponses (.CreateFilter
        :: (exchanges filterFactory.CreateFilter.1 filterFactory.CreateFilter.2 reqs
          ++ [.Recv]))).length = _
  rw [h2, length_responsesOf]

/-- Claim C20, evaluated on the code: a request whose oneof is unset is received, all sends
would succeed and the context is not done. `Process` panics at
`reflect.TypeOf(req.Request).String()` after the `Recv` and sends no response, where
`handleProxyRequest` applied to that request gives the immediate response `BadRequest`; the
request before it is answered, the request after it is not received. -/
theorem C20_unset_request_panics :
    Process echoFactory
        [delivered { Request := some (.RequestHeaders "h"), Attributes := "a" },
          delivered { Request := none, Attributes := "b" },
          delivered { Request := some (.RequestBody "x"), Attributes := "c" },
          { ctxErr := none, recv := .EOF, sendErr := none }]
      = (some .panic,
          [.CreateFilter, .Recv,
            .Call .OnRequestHeaders { Request := some (.RequestHeaders "h"), Attributes := "a" },
            .Send (.RequestHeaders "a"), .Recv])
    ∧ (handleProxyRequest echoFilter 1 { Request := none, Attributes := "b" }).1
      = .ImmediateResponse StatusCode_BadRequest "unexpected processing request type <nil>"
    ∧ (sentResponses (Process echoFactory
        [delivered { Request := some (.RequestHeaders "h"), Attributes := "a" },
          delivered { Request := none, Attributes := "b" },
          delivered { Request := some (.RequestBody "x"), Attributes := "c" },
          { ctxErr := none, recv := .EOF, sendErr := none }]).2).length = 1 := by
  decide

end ExternalProcessor
namespace Opa

/-! ## Claims on the factory of the policy filter -/

/-- Claim C22 as stated fails for `USE_HTTP=1`: the value is not `true`, yet
`strconv.ParseBool` reads it as true and the bundle service URL is
`http://non-existent-server.com:1234`, which is the URL `rest.New` is called with. -/
theorem C22_counterexample :
    bundleServiceUrl (useHttpEnv "1")
        (bundleOnly "non-existent-server.com:1234/policy-bundle:latest")
      = "http://non-existent-server.com:1234"
    ∧ (NewHttpFilterFactory (useHttpEnv "1")
        (bundleOnly "non-existent-server.com:1234/policy-bundle:latest")).2.take 3
      = [.ValidateAndInjectDefaults, .LookupEnv "USE_HTTP",
          .RestNew { url := "http://non-existent-server.com:1234", bearer := none }] := by
  decide

theorem ParseBool_true (v : String) :
    ParseBool v = .ok true
      ↔ (v = "1" ∨ v = "t" ∨ v = "T" ∨ v = "TRUE" ∨ v = "true" ∨ v = "True") := by
  unfold ParseBool
  constructor
  · intro h
    by_contra hc
    rw [if_neg hc] at h
    split at h <;> simp at h
  · intro h
    rw [if_pos h]

/-- Claim C22 (amended). Bundle download scheme: when `BundleResource` is the selected source
and no bundle service URL is configured, the bundle service URL is `http://<host>` when the
environment variable `USE_HTTP` is set to one of `1`, `t`, `T`, `TRUE`, `true`, `True` (the
values `strconv.ParseBool` reads as true), and `https://<host>` when it is unset or set to
any other value, `<host>` being the part of `BundleResource` before its first `/`; this is
the URL of the configuration `rest.New` is called with, once the download configuration is
valid. -/
theorem C22_bundle_download_scheme (env : Env) (config : PolicyEngine)
    (hdir : config.PoliciesDirectory = "") (hres : config.BundleResource ≠ "")
    (hurl : config.BundleServiceUrl = "") :
    (∀ v, env.LookupEnv "USE_HTTP" = some v →
        (v = "1" ∨ v = "t" ∨ v = "T" ∨ v = "TRUE" ∨ v = "true" ∨ v = "True") →
        bundleServiceUrl env config = "http://" ++ splitFirst config.BundleResource)
    ∧ (∀ v, env.LookupEnv "USE_HTTP" = some v →
        ¬ (v = "1" ∨ v = "t" ∨ v = "T" ∨ v = "TRUE" ∨ v = "true" ∨ v = "True") →
        bundleServiceUrl env config = "https://" ++ splitFirst config.BundleResource)
    ∧ (env.LookupEnv "USE_HTTP" = none →
        bundleServiceUrl env config = "https://" ++ splitFirst config.BundleResource)
    ∧ (restConfig env config).url = bundleServiceUrl env config
    ∧ (env.ValidateAndInjectDefaults = none →
        (NewHttpFilterFactory env config).2.take 3
          = [.ValidateAndInjectDefaults, .LookupEnv "USE_HTTP",
              .RestNew (restConfig env config)]) := by
  refine ⟨?_, ?_, ?_, ?_, ?_⟩
  · intro v hv ht
    unfold bundleServiceUrl bundleProtocol
    rw [if_pos hurl, hv]
    dsimp only
    rw [(ParseBool_true v).mpr ht]
    rfl
  · intro v hv ht
    have hp : ParseBool v ≠ .ok true := fun h => ht ((ParseBool_true v).mp h)
    unfold bundleServiceUrl bundleProtocol
    rw [if_pos hurl, hv]
    dsimp only
    cases hpb : ParseBool v with
    | error e => rfl
    | ok b =>
      cases b with
      | true => exact absurd hpb hp
      | false => rfl
  · intro hv
    unfold bundleServiceUrl bundleProtocol
    rw [if_pos hurl, hv]
    rfl
  · unfold restConfig
    split <;> rfl
  · intro hval
    unfold NewHttpFilterFactory
    rw [if_neg (fun h => h hdir), if_pos hres, hval]
    dsimp only
    cases env.restNew (restConfig env config) with
    | some err => rfl
    | none =>
      dsimp only
      cases env.Trigger (restConfig env config) config.BundleResource with
      | some err => rfl
      | none =>
        dsimp only
        cases env.update (restConfig env config) config.BundleResource with
        | none => rfl
        | some u =>
          dsimp only
          cases u.Error with
          | some err => rfl
          | none =>
            dsimp only
            cases u.Bundle with
            | none => rfl
            | some b =>
              dsimp only
              split <;> rfl

theorem C22_witness :
    bundleServiceUrl offlineEnv
        (bundleOnly "non-existent-server.com:1234/policy-bundle:latest")
      = "https://" ++ splitFirst
          (bundleOnly "non-existent-server.com:1234/policy-bundle:latest").BundleResource :=
  (C22_bundle_download_scheme offlineEnv
    (bundleOnly "non-existent-server.com:1234/policy-bundle:latest") rfl (by decide)
    rfl).2.2.1 rfl

/-- Claim C23. A bundle failure is a configuration error: when `BundleResource` is the
selected source (no policies directory), `NewHttpFilterFactory` returns an error and no
factory whenever the download trigger fails, the update of the download carries an error, or
the downloaded bundle is missing or has no module, whatever `Modules` and `AllowAll` are; and
it does not fall back: it opens no store transaction and prepares no query. -/
theorem C23_bundle_failure_is_error (env : Env) (config : PolicyEngine)
    (hdir : config.PoliciesDirectory = "") (hres : config.BundleResource ≠ "")
    (hfail : env.Trigger (restConfig env config) config.BundleResource ≠ none
      ∨ ∃ u, env.update (restConfig env config) config.BundleResource = some u
        ∧ (u.Error ≠ none ∨ u.Bundle = none ∨ ∃ b, u.Bundle = some b ∧ b.Modules = [])) :
    (∃ err, (NewHttpFilterFactory env config).1 = .error err)
    ∧ ∀ call ∈ (NewHttpFilterFactory env config).2,
        call = .ValidateAndInjectDefaults ∨ call = .LookupEnv "USE_HTTP"
          ∨ call = .RestNew (restConfig env config)
          ∨ call = .Trigger (restConfig env config) config.BundleResource := by
  unfold NewHttpFilterFactory
  rw [if_neg (fun h => h hdir), if_pos hres]
  cases env.ValidateAndInjectDefaults with
  | some err => exact ⟨⟨err, rfl⟩, by simp⟩
  | none =>
    dsimp only
    cases env.restNew (restConfig env config) with
    | some err => exact ⟨⟨err, rfl⟩, by simp⟩
    | none =>
      dsimp only
      cases ht : env.Trigger (restConfig env config) config.BundleResource with
      | some err => exact ⟨⟨err, rfl⟩, by simp⟩
      | none =>
        dsimp only
        rcases hfail with h | ⟨u, hu, h⟩
        · exact absurd ht h
        · rw [hu]
          dsimp only
          cases he : u.Error with
          | some err => exact ⟨⟨err, rfl⟩, by simp⟩
          | none =>
            dsimp only
            cases hb : u.Bundle with
            | none => exact ⟨⟨_, rfl⟩, by simp⟩
            | some b =>
              dsimp only
              rcases h with h | h | ⟨b2, hb2, hm⟩
              · exact absurd he h
              · rw [hb] at h; cases h
              · rw [hb] at hb2
                cases hb2
                rw [if_pos (by rw [hm]; rfl)]
                exact ⟨⟨_, rfl⟩, by simp⟩

theorem C23_witness :
    ∃ err, (NewHttpFilterFactory offlineEnv
        { bundleOnly "non-existent-server.com:1234/policy-bundle:latest" with
          Modules := some [("inline.rego", "package ccr.policy")]
          AllowAll := "true" }).1 = .error err :=
  (C23_bundle_failure_is_error offlineEnv
    { bundleOnly "non-existent-server.com:1234/policy-bundle:latest" with
      Modules := some [("inline.rego", "package ccr.policy")]
      AllowAll := "true" }
    rfl (by decide) (Or.inl (by decide))).1

end Opa
